import Mathlib

/-!
Queue sidecar resources and probes (kymaria/serving).

A shallow embedding of `pkg/reconciler/revision/resources/queue.go` and
`pkg/apis/config/features.go`.

Go values are embedded as follows.

* `int64` / `int32` values are `Int`; the places where the source relies on the
  64-bit range are written out (`MaxInt64`, `wrapInt64`).
* `float64` values are the exact IEEE-754 binary64 values `F64`: a NaN, the two
  infinities and the signed dyadic numbers `±m * 2^e`.  Every operation rounds the
  exact result to the nearest representable value, ties to even.
* `resource.Quantity` is an exact decimal `unscaled * 10^scale` with its format tag and
  the form the library holds it in (an `int64` amount or an arbitrary-precision
  decimal); `Value()` and `MilliValue()` follow the library's two code paths.
* Go maps are association lists with unique keys, a nil map is `none`.
-/

set_option linter.dupNamespace false

namespace Serving

/-! ## Machine integers -/

def MaxInt64 : Int := 9223372036854775807

def MinInt64 : Int := -9223372036854775808

/-- Two's-complement reduction of an integer to the `int64` range. -/
def wrapInt64 (v : Int) : Int := (v + 9223372036854775808) % 18446744073709551616 - 9223372036854775808

/-- Two's-complement reduction of an integer to the `int32` range. -/
def wrapInt32 (v : Int) : Int := (v + 2147483648) % 4294967296 - 2147483648

/-- The predicate: the integer is representable as an `int64`. -/
def fitsInt64 (v : Int) : Prop := MinInt64 ≤ v ∧ v ≤ MaxInt64

instance (v : Int) : Decidable (fitsInt64 v) := by unfold fitsInt64; infer_instance

/-! ## IEEE-754 binary64 -/

/-- A `float64` value.  `fin neg m e` is the number `(-1)^neg * m * 2^e`; the
representation is not normalised, the operations below only produce values that are
representable in binary64. -/
inductive F64 where
  | nan : F64
  | inf (neg : Bool) : F64
  | fin (neg : Bool) (m : Nat) (e : Int) : F64
deriving DecidableEq, Repr

namespace F64

/-- Auxiliary for `log2`: at most `fuel` halvings. -/
def log2Aux : Nat → Nat → Nat
  | 0, _ => 0
  | fuel + 1, n => if n < 2 then 0 else log2Aux fuel (n / 2) + 1

/-- The position of the leading bit of `n` (`0` for `n = 0`). -/
def log2 (n : Nat) : Nat := log2Aux n n

/-- Divide `m` by `2^shift`, rounding to the nearest integer, ties to even. -/
def roundShift (m shift : Nat) : Nat :=
  if shift = 0 then m
  else
    let q := m / 2 ^ shift
    let r := m % 2 ^ shift
    let half := 2 ^ (shift - 1)
    if half < r ∨ (r = half ∧ q % 2 = 1) then q + 1 else q

/-- Round the exact dyadic number `(-1)^neg * m * 2^e` to binary64: 53 significant
bits, least exponent `-1074` (subnormals), overflow to infinity from `2^1024` on. -/
def round (neg : Bool) (m : Nat) (e : Int) : F64 :=
  if m = 0 then fin neg 0 0
  else
    let top : Int := e + (log2 m : Int)
    let ulp : Int := max (top - 52) (-1074)
    if ulp ≤ e then
      if 1023 < top then inf neg else fin neg m e
    else
      let r := roundShift m (ulp - e).toNat
      if 971 < ulp ∨ (ulp = 971 ∧ 2 ^ 53 ≤ r) then inf neg else fin neg r ulp

/-- Round the exact rational number `(-1)^neg * (n / d) * 2^e` (`d > 0`) to binary64.
The quotient is taken with more than 64 bits and a sticky bit for the remainder. -/
def roundRat (neg : Bool) (n d : Nat) (e : Int) : F64 :=
  let k := 65 + log2 d
  let q := (n * 2 ^ k) / d
  let sticky := if (n * 2 ^ k) % d = 0 then 0 else 1
  round neg (2 * q + sticky) (e - (k : Int) - 1)

/-- Conversion `float64(i)` of an integer. -/
def ofInt (i : Int) : F64 := round (decide (i < 0)) i.natAbs 0

/-- Product `x * y`. -/
def mul : F64 → F64 → F64
  | nan, _ => nan
  | _, nan => nan
  | inf s, inf t => inf (xor s t)
  | inf s, fin t n _ => if n = 0 then nan else inf (xor s t)
  | fin s m _, inf t => if m = 0 then nan else inf (xor s t)
  | fin s m e, fin t n f => round (xor s t) (m * n) (e + f)

/-- Sum `x + y`. -/
def add : F64 → F64 → F64
  | nan, _ => nan
  | _, nan => nan
  | inf s, inf t => if s = t then inf s else nan
  | inf s, fin _ _ _ => inf s
  | fin _ _ _, inf t => inf t
  | fin s m e, fin t n f =>
    let k := min e f
    let a : Int := (if s then -(m : Int) else (m : Int)) * 2 ^ (e - k).toNat
    let b : Int := (if t then -(n : Int) else (n : Int)) * 2 ^ (f - k).toNat
    if a + b = 0 then fin (s && t) 0 0 else round (decide (a + b < 0)) (a + b).natAbs k

/-- Quotient `x / y`. -/
def div : F64 → F64 → F64
  | nan, _ => nan
  | _, nan => nan
  | inf _, inf _ => nan
  | inf s, fin t _ _ => inf (xor s t)
  | fin s _ _, inf t => fin (xor s t) 0 0
  | fin s m e, fin t n f =>
    if n = 0 then (if m = 0 then nan else inf (xor s t))
    else if m = 0 then fin (xor s t) 0 0
    else roundRat (xor s t) m n (e - f)

/-- The numerator of a finite value over the common denominator `2^(-k)`. -/
def scaled (neg : Bool) (m : Nat) (e k : Int) : Int :=
  (if neg then -(m : Int) else (m : Int)) * 2 ^ (e - k).toNat

/-- Comparison `x < y`; false whenever a NaN is involved. -/
def lt : F64 → F64 → Bool
  | nan, _ => false
  | _, nan => false
  | inf s, inf t => s && !t
  | inf s, fin _ _ _ => s
  | fin _ _ _, inf t => !t
  | fin s m e, fin t n f => decide (scaled s m e (min e f) < scaled t n f (min e f))

/-- Comparison `x <= y`; false whenever a NaN is involved. -/
def le : F64 → F64 → Bool
  | nan, _ => false
  | _, nan => false
  | inf s, inf t => s || !t
  | inf s, fin _ _ _ => s
  | fin _ _ _, inf t => !t
  | fin s m e, fin t n f => decide (scaled s m e (min e f) ≤ scaled t n f (min e f))

/-- The integer part of a finite value, truncated toward zero. -/
def truncFin (neg : Bool) (m : Nat) (e : Int) : Int :=
  let t : Nat := if 0 ≤ e then m * 2 ^ e.toNat else m / 2 ^ (-e).toNat
  if neg then -(t : Int) else (t : Int)

/-- Conversion `int64(x)`: truncation toward zero.  For a NaN, an infinity or a value
outside the `int64` range Go leaves the result to the implementation; the value
modelled is the one amd64 produces (`0x8000000000000000`). -/
def toInt64 : F64 → Int
  | fin s m e => if fitsInt64 (truncFin s m e) then truncFin s m e else MinInt64
  | _ => MinInt64

end F64

/-- The untyped constant `math.MaxInt64` converted to `float64`: it rounds to `2^63`. -/
def maxInt64AsFloat : F64 := F64.ofInt MaxInt64

/-! ## strconv.ParseFloat

The Go standard library function, for bit size 64: an optionally signed decimal or
hexadecimal floating-point literal (underscores allowed as digit separators), or one
of `inf`, `infinity`, `nan` in any letter case.  The value is the nearest binary64,
computed here from the exact digits. -/

def isDigit (c : Char) : Bool := decide (48 ≤ c.toNat) && decide (c.toNat ≤ 57)

def isHexLetter (c : Char) : Bool :=
  (decide (65 ≤ c.toNat) && decide (c.toNat ≤ 70)) || (decide (97 ≤ c.toNat) && decide (c.toNat ≤ 102))

/-- The test `lower(c) == l` of the library, `lower(c) = c | 0x20`, for a lower-case letter `l`. -/
def isLetter (c l : Char) : Bool := decide (c = l) || decide (c.toNat + 32 = l.toNat)

def digitVal (c : Char) : Nat := c.toNat - 48

def hexLetterVal (c : Char) : Nat := (if 97 ≤ c.toNat then c.toNat - 97 else c.toNat - 65) + 10

/-- ASCII lower-casing of the letters `A`..`Z`. -/
def lowerAscii (c : Char) : Char :=
  if 65 ≤ c.toNat ∧ c.toNat ≤ 90 then Char.ofNat (c.toNat + 32) else c

/-- The digits read by `readFloat`: the exact mantissa, the number of digits after the
point, and the flags of the scan. -/
structure Mantissa where
  mant : Nat
  frac : Nat
  sawdot : Bool
  sawdigits : Bool
  underscores : Bool
deriving Repr

/-- The digit loop of `readFloat`; returns the unread rest of the input. -/
def readMantissa (hex : Bool) : List Char → Mantissa → Mantissa × List Char
  | [], st => (st, [])
  | c :: cs, st =>
    if c = '_' then readMantissa hex cs { st with underscores := true }
    else if c = '.' then
      if st.sawdot then (st, c :: cs) else readMantissa hex cs { st with sawdot := true }
    else if isDigit c then
      readMantissa hex cs { st with
        sawdigits := true
        mant := st.mant * (if hex then 16 else 10) + digitVal c
        frac := if st.sawdot then st.frac + 1 else st.frac }
    else if hex && isHexLetter c then
      readMantissa hex cs { st with
        sawdigits := true
        mant := st.mant * 16 + hexLetterVal c
        frac := if st.sawdot then st.frac + 1 else st.frac }
    else (st, c :: cs)

/-- The exponent digit loop of `readFloat` (the exponent stops growing at 10000). -/
def readExpDigits : List Char → Nat → Bool → Nat × Bool × List Char
  | [], e, u => (e, u, [])
  | c :: cs, e, u =>
    if isDigit c then readExpDigits cs (if e < 10000 then e * 10 + digitVal c else e) u
    else if c = '_' then readExpDigits cs e true
    else (e, u, c :: cs)

/-- The optional exponent of `readFloat`: `none` when it is malformed (or missing from
a hexadecimal literal), else the signed exponent, the underscore flag and the rest. -/
def readExponent (hex : Bool) : List Char → Option (Int × Bool × List Char)
  | [] => if hex then none else some (0, false, [])
  | c :: cs =>
    if isLetter c (if hex then 'p' else 'e') then
      let (neg, ds) : Bool × List Char :=
        match cs with
        | '+' :: r => (false, r)
        | '-' :: r => (true, r)
        | r => (false, r)
      match ds with
      | [] => none
      | d :: _ =>
        if isDigit d then
          let (e, u, rest) := readExpDigits ds 0 false
          some (if neg then -(e : Int) else (e : Int), u, rest)
        else none
    else if hex then none else some (0, false, c :: cs)

/-- The scan of `underscoreOK` after the sign and base prefix; `saw` is the class of
the previous character: `0` digit, `1` underscore, `2` anything else, `3` start. -/
def underscoreScan (hex : Bool) : List Char → Nat → Bool
  | [], saw => saw != 1
  | c :: cs, saw =>
    if isDigit c || (hex && isHexLetter c) then underscoreScan hex cs 0
    else if c = '_' then (if saw != 0 then false else underscoreScan hex cs 1)
    else if saw == 1 then false
    else underscoreScan hex cs 2

/-- The library check that underscores only separate digits (`underscoreOK`). -/
def underscoreOK (s : List Char) : Bool :=
  let s := match s with
    | '-' :: r => r
    | '+' :: r => r
    | r => r
  match s with
  | '0' :: b :: r =>
    if isLetter b 'b' || isLetter b 'o' || isLetter b 'x' then underscoreScan (isLetter b 'x') r 0
    else underscoreScan false s 3
  | _ => underscoreScan false s 3

/-- The library `special`: the spellings of the infinities and of NaN (whole input). -/
def special (s : List Char) : Option F64 :=
  let l := s.map lowerAscii
  match s with
  | '+' :: _ => if l.tail = "inf".toList ∨ l.tail = "infinity".toList then some (F64.inf false) else none
  | '-' :: _ => if l.tail = "inf".toList ∨ l.tail = "infinity".toList then some (F64.inf true) else none
  | _ =>
    if l = "inf".toList ∨ l = "infinity".toList then some (F64.inf false)
    else if l = "nan".toList then some F64.nan
    else none

/-- The number read by `readFloat` from the whole input, exactly rounded; `none` on a
syntax error. -/
def readFloat (s : List Char) : Option F64 :=
  let (neg, body) : Bool × List Char :=
    match s with
    | '+' :: r => (false, r)
    | '-' :: r => (true, r)
    | r => (false, r)
  let (hex, digits) : Bool × List Char :=
    match body with
    | '0' :: x :: c :: r => if isLetter x 'x' then (true, c :: r) else (false, body)
    | r => (false, r)
  let (m, rest) := readMantissa hex digits ⟨0, 0, false, false, false⟩
  if !m.sawdigits then none
  else
    match readExponent hex rest with
    | none => none
    | some (e, u, rest) =>
      if !rest.isEmpty then none
      else if (m.underscores || u) && !underscoreOK s then none
      else if m.mant = 0 then some (F64.fin neg 0 0)
      else if hex then some (F64.round neg m.mant (e - 4 * (m.frac : Int)))
      else
        let x : Int := e - (m.frac : Int)
        if 0 ≤ x then some (F64.round neg (m.mant * 10 ^ x.toNat) 0)
        else some (F64.roundRat neg m.mant (10 ^ (-x).toNat) 0)

/-- The call `strconv.ParseFloat(s, 64)`: the value and whether the error is nil.  A
syntax error comes with the value `0`, a range error with the infinity of the sign. -/
def ParseFloat (s : String) : F64 × Bool :=
  match special s.toList with
  | some v => (v, true)
  | none =>
    match readFloat s.toList with
    | none => (F64.fin false 0 0, false)
    | some (F64.inf neg) => (F64.inf neg, false)
    | some v => (v, true)

/-! ## resource.Quantity (k8s.io/apimachinery) -/

/-- The output format tag of a quantity; it does not take part in comparisons. -/
inductive Format where
  | unset
  | DecimalExponent
  | BinarySI
  | DecimalSI
deriving DecidableEq, Repr

/-- The exact decimal number `unscaled * 10^scale`.  The library holds a quantity in
one of two forms: as an `int64Amount` (`dec = false`; `unscaled` is its `int64` value
and `scale` its `int32` scale), or as an arbitrary-precision decimal (`dec = true`,
the field `d.Dec` is not nil; the library stores the negated scale there). -/
structure Quantity where
  unscaled : Int
  scale : Int
  format : Format
  dec : Bool
deriving DecidableEq, Repr

/-- Division of `n` by `d`, rounded to the integer away from zero. -/
def divAway (n : Int) (d : Nat) : Int :=
  let a : Nat := if n.natAbs % d = 0 then n.natAbs / d else n.natAbs / d + 1
  if n < 0 then -(a : Int) else (a : Int)

namespace Quantity

/-- The zero value `resource.Quantity{}`. -/
def zero : Quantity := ⟨0, 0, Format.unset, false⟩

def IsZero (q : Quantity) : Bool := decide (q.unscaled = 0)

/-- Method `Cmp`: `-1`, `0` or `1` as the receiver is less than, equal to or greater than `y`. -/
def Cmp (q y : Quantity) : Int :=
  let s := min q.scale y.scale
  let a := q.unscaled * 10 ^ (q.scale - s).toNat
  let b := y.unscaled * 10 ^ (y.scale - s).toNat
  if a < b then -1 else if b < a then 1 else 0

/-- The exact value of `q / 10^scale` rounded up to an integer away from zero. -/
def scaledExact (q : Quantity) (scale : Int) : Int :=
  if scale ≤ q.scale then q.unscaled * 10 ^ (q.scale - scale).toNat
  else divAway q.unscaled (10 ^ (scale - q.scale).toNat)

end Quantity

/-- Function `int64MultiplyScale` of the library (and its unrolled forms for the
factors 10, 100 and 1000): the `int64` product `a * b` for a factor `b > 1`, and
whether it did not overflow. -/
def int64MultiplyScale (a b : Int) : Int × Bool :=
  if a = 0 ∨ a = 1 then (a * b, true)
  else if a = MinInt64 ∧ b ≠ 1 then (0, false)
  else (wrapInt64 (a * b), decide (Int.tdiv (wrapInt64 (a * b)) b = a))

/-- The loop of `positiveScaleInt64`: `n` multiplications by ten, given up with the
result `0` at the first overflow. -/
def positiveScaleLoop : Nat → Int → Int × Bool
  | 0, value => (value, true)
  | n + 1, value =>
    if (int64MultiplyScale value 10).2 then positiveScaleLoop n (int64MultiplyScale value 10).1
    else (0, false)

/-- Function `positiveScaleInt64`: `base * 10^scale` and whether it did not overflow.
The scales 1, 2, 3, 6 and 9 take a single multiplication, whose wrapped product is the
result also when it overflows; the other scales take the loop. -/
def positiveScaleInt64 (base scale : Int) : Int × Bool :=
  if scale = 0 then (base, true)
  else if scale = 1 then int64MultiplyScale base 10
  else if scale = 2 then int64MultiplyScale base 100
  else if scale = 3 then int64MultiplyScale base 1000
  else if scale = 6 then int64MultiplyScale base 1000000
  else if scale = 9 then int64MultiplyScale base 1000000000
  else positiveScaleLoop scale.toNat base

/-- The loop of `negativeScaleInt64`: `n` divisions by ten; `fraction` records that a
non-zero digit was dropped. -/
def negativeScaleLoop (base : Int) : Nat → Int → Bool → Int
  | 0, value, fraction =>
    if fraction then (if 0 < base then value + 1 else value - 1) else value
  | n + 1, value, fraction =>
    let fraction' := fraction || decide (Int.tmod value 10 ≠ 0)
    let value' := Int.tdiv value 10
    if value' = 0 then (if fraction' then (if 0 < base then 1 else -1) else 0)
    else negativeScaleLoop base n value' fraction'

/-- Function `negativeScaleInt64`: `base / 10^scale`, rounded away from zero. -/
def negativeScaleInt64 (base scale : Int) : Int :=
  if scale = 0 then base else negativeScaleLoop base scale.toNat base false

/-- Method `int64Amount.AsScaledInt64`, without the overflow flag that `ScaledValue`
drops.  The difference of the two scales is an `int32`. -/
def AsScaledInt64 (value aScale scale : Int) : Int :=
  if aScale < scale then negativeScaleInt64 value (wrapInt32 (scale - aScale))
  else (positiveScaleInt64 value (wrapInt32 (aScale - scale))).1

/-- The conversion `int64(math.Pow10(n))` for `n ≥ 0`: the power of ten up to `10^18`;
the larger powers lie outside the `int64` range and convert as in `F64.toInt64`. -/
def pow10Int64 (n : Int) : Int := if n ≤ 18 then 10 ^ n.toNat else MinInt64

/-- Function `scaledValue` of the library (scale_int.go), for a decimal with `scale`
digits after the point: its value with `newScale` digits after the point, as an
`int64`.  `big.Int.Int64` keeps the low 64 bits.  Scaling down adds one whenever a
remainder is left: after a truncating division on the fast path, after a Euclidean
division otherwise. -/
def scaledValue (unscaled scale newScale : Int) : Int :=
  let dif := scale - newScale
  if dif = 0 then wrapInt64 unscaled
  else if dif < 0 then wrapInt64 (wrapInt64 unscaled * pow10Int64 (-dif))
  else if unscaled < MaxInt64 ∧ dif < 19 then
    let divide := pow10Int64 dif
    let result := Int.tdiv (wrapInt64 unscaled) divide
    let mod := Int.tmod (wrapInt64 unscaled) divide
    if mod ≠ 0 then result + 1 else result
  else
    let divisor : Int := 10 ^ dif.toNat
    let result := unscaled / divisor
    let remainder := unscaled % divisor
    if remainder ≠ 0 then wrapInt64 (wrapInt64 result + 1) else wrapInt64 result

namespace Quantity

/-- Method `ScaledValue`: the quantity in units of `10^scale` as an `int64`. -/
def ScaledValue (q : Quantity) (scale : Int) : Int :=
  if q.dec then scaledValue q.unscaled (-q.scale) (wrapInt32 (-scale))
  else AsScaledInt64 q.unscaled q.scale scale

/-- Method `Value`: the quantity in whole units, as an `int64`. -/
def Value (q : Quantity) : Int := q.ScaledValue 0

/-- Method `MilliValue`: the quantity in thousandths, as an `int64`; the library does
not report an overflow. -/
def MilliValue (q : Quantity) : Int := q.ScaledValue (-3)

end Quantity

/-- Constructor `resource.NewMilliQuantity`. -/
def NewMilliQuantity (value : Int) (format : Format) : Quantity := ⟨value, -3, format, false⟩

/-! ## corev1 resource lists -/

abbrev ResourceName := String

def ResourceCPU : ResourceName := "cpu"

def ResourceMemory : ResourceName := "memory"

def ResourceEphemeralStorage : ResourceName := "ephemeral-storage"

/-- A Go `map[ResourceName]resource.Quantity` that is not nil. -/
abbrev ResourceList := List (ResourceName × Quantity)

/-- Map read `m[k]` with the presence flag. -/
def ResourceList.get (m : ResourceList) (k : ResourceName) : Option Quantity := List.lookup k m

/-- Map write `m[k] = v`. -/
def ResourceList.set : ResourceList → ResourceName → Quantity → ResourceList
  | [], k, v => [(k, v)]
  | (k', v') :: m, k, v => if k' = k then (k, v) :: m else (k', v') :: ResourceList.set m k v

/-- Method `Cpu` of a possibly nil resource list: the entry, or a zero quantity. -/
def Cpu (rl : Option ResourceList) : Quantity :=
  match rl with
  | some m => (m.get ResourceCPU).getD ⟨0, 0, Format.DecimalSI, false⟩
  | none => ⟨0, 0, Format.DecimalSI, false⟩

/-- Method `Memory` of a possibly nil resource list: the entry, or a zero quantity. -/
def Memory (rl : Option ResourceList) : Quantity :=
  match rl with
  | some m => (m.get ResourceMemory).getD ⟨0, 0, Format.BinarySI, false⟩
  | none => ⟨0, 0, Format.BinarySI, false⟩

/-- The struct `corev1.ResourceRequirements`; `none` is a nil map. -/
structure ResourceRequirements where
  Limits : Option ResourceList
  Requests : Option ResourceList
deriving DecidableEq, Repr

/-! ## corev1 probes and containers -/

/-- The type `intstr.IntOrString`. -/
inductive IntOrString where
  | int (v : Int)
  | str (s : String)
deriving DecidableEq, Repr

/-- The call `intstr.FromInt(int(v))` on an `int32` value. -/
def FromInt (v : Int) : IntOrString := IntOrString.int v

structure HTTPHeader where
  Name : String
  Value : String
deriving DecidableEq, Repr

structure HTTPGetAction where
  Path : String
  Port : IntOrString
  Host : String
  Scheme : String
  HTTPHeaders : List HTTPHeader
deriving DecidableEq, Repr

structure TCPSocketAction where
  Port : IntOrString
  Host : String
deriving DecidableEq, Repr

structure ExecAction where
  Command : List String
deriving DecidableEq, Repr

/-- The struct `corev1.Handler`: three pointers, `none` is nil. -/
structure Handler where
  Exec : Option ExecAction
  HTTPGet : Option HTTPGetAction
  TCPSocket : Option TCPSocketAction
deriving DecidableEq, Repr

/-- The struct `corev1.Probe`; the handler is embedded in it. -/
structure Probe where
  Handler : Handler
  InitialDelaySeconds : Int
  TimeoutSeconds : Int
  PeriodSeconds : Int
  SuccessThreshold : Int
  FailureThreshold : Int
deriving DecidableEq, Repr

structure ContainerPort where
  Name : String
  ContainerPort : Int
deriving DecidableEq, Repr

/-- The struct `corev1.EnvVar`; `FieldPath` is the path of `ValueFrom.FieldRef`. -/
structure EnvVar where
  Name : String
  Value : String
  FieldPath : Option String
deriving DecidableEq, Repr

structure SecurityContext where
  AllowPrivilegeEscalation : Option Bool
  ReadOnlyRootFilesystem : Option Bool
  RunAsNonRoot : Option Bool
  CapabilitiesDrop : List String
deriving DecidableEq, Repr

/-- The fields of `corev1.Container` that `queue.go` reads or writes. -/
structure Container where
  Name : String
  Image : String
  Resources : ResourceRequirements
  Ports : List ContainerPort
  StartupProbe : Option Probe
  ReadinessProbe : Option Probe
  SecurityContext : Option SecurityContext
  Env : List EnvVar
deriving DecidableEq, Repr

/-! ## Declarations of the package outside `queue.go` -/

/-- Modelled from the spec: the type `resourceBoundary` is declared in a file of the
package that is not part of the sources; the spec describes it as a floor and a
ceiling quantity per resource kind and role. -/
structure resourceBoundary where
  min : Quantity
  max : Quantity
deriving DecidableEq, Repr

/-- Modelled from the spec: the method `applyBoundary` is declared next to
`resourceBoundary`; the spec has it clamp the computed value into the floor and the
ceiling of the profile. -/
def resourceBoundary.applyBoundary (boundary : resourceBoundary) (resource : Quantity) : Quantity :=
  if resource.Cmp boundary.min = -1 then boundary.min
  else if resource.Cmp boundary.max = 1 then boundary.max
  else resource

/-- The package-level constants and variables that `queue.go` reads and other files
declare: they are parameters of the embedding. -/
structure Decls where
  QueueSideCarResourcePercentageAnnotation : String
  queueContainerRequestCPU : resourceBoundary
  queueContainerLimitCPU : resourceBoundary
  queueContainerRequestMemory : resourceBoundary
  queueContainerLimitMemory : resourceBoundary
  ServiceLabelKey : String
  QueueContainerName : String
  BackendHTTPPort : Int
  BackendHTTP2Port : Int
  QueueAdminPortName : String
  QueueAdminPort : Int
  AutoscalingQueueMetricsPortName : String
  AutoscalingQueueMetricsPort : Int
  UserQueueMetricsPortName : String
  UserQueueMetricsPort : Int
  ProfilingPort : Int
  ProtocolH2C : String
  ProbeHeaderName : String
  KubeletProbeHeaderName : String
  queueName : String
  NamespaceEnvKey : String
  systemNamespace : String
  DomainEnv : String
  metricsDomain : String
  EncodeProbe : Option Probe → Except String String

/-- The fields of `deployment.Config` read by `queue.go`; a `none` is a nil pointer and
`ProgressDeadline` is a `time.Duration`, a number of nanoseconds. -/
structure DeploymentConfig where
  QueueSidecarImage : String
  ProgressDeadline : Int
  QueueSidecarCPURequest : Option Quantity
  QueueSidecarCPULimit : Option Quantity
  QueueSidecarMemoryRequest : Option Quantity
  QueueSidecarMemoryLimit : Option Quantity
  QueueSidecarEphemeralStorageRequest : Option Quantity
  QueueSidecarEphemeralStorageLimit : Option Quantity

/-- A Go `map[string]string`, nil or not: reading a missing key gives `""`. -/
abbrev Annotations := List (String × String)

def Annotations.get (m : Annotations) (k : String) : String := (List.lookup k m).getD ""

/-! ## queue.go: resources -/

def fractionFromPercentage (m : Annotations) (k : String) : F64 × Bool :=
  let (value, ok) := ParseFloat (m.get k)
  (F64.div value (F64.ofInt 100), ok)

/-- The local `scaledMilliValue` of `computeResourceRequirements` (non-zero quantity). -/
def scaledMilliValue (resourceQuantity : Quantity) : Int :=
  let scaledValue := resourceQuantity.Value
  if scaledValue < MaxInt64 / 1000 then resourceQuantity.MilliValue else MaxInt64 - 1

/-- The local `percentageValue` of `computeResourceRequirements`. -/
def percentageValue (resourceQuantity : Quantity) (fraction : F64) : F64 :=
  F64.mul (F64.ofInt (scaledMilliValue resourceQuantity)) fraction

/-- The local `newValue` of `computeResourceRequirements`. -/
def newValue (resourceQuantity : Quantity) (fraction : F64) : Int :=
  if F64.lt (percentageValue resourceQuantity fraction) maxInt64AsFloat
  then F64.toInt64 (percentageValue resourceQuantity fraction)
  else MaxInt64

def computeResourceRequirements (resourceQuantity : Quantity) (fraction : F64)
    (boundary : resourceBoundary) : Bool × Quantity :=
  if resourceQuantity.IsZero then (false, Quantity.zero)
  else
    (true, boundary.applyBoundary (NewMilliQuantity (newValue resourceQuantity fraction) Format.BinarySI))

/-- The seeding loop body of `createQueueResources` for one map and one pointer. -/
def seed (m : ResourceList) (name : ResourceName) (q : Option Quantity) : ResourceList :=
  match q with
  | some v => m.set name v
  | none => m

/-- The conditional store `if ok, q = compute(...); ok { m[name] = q }`. -/
def override (m : ResourceList) (name : ResourceName) (r : Bool × Quantity) : ResourceList :=
  if r.1 then m.set name r.2 else m

/-- The three-element loop that seeds the maps is unrolled in its order; the four
`computeResourceRequirements` calls follow in the order of the source. -/
def createQueueResources (d : Decls) (cfg : DeploymentConfig) (annotations : Annotations)
    (userContainer : Container) : ResourceRequirements :=
  let resourceRequests : ResourceList := []
  let resourceLimits : ResourceList := []
  let resourceRequests := seed resourceRequests ResourceCPU cfg.QueueSidecarCPURequest
  let resourceLimits := seed resourceLimits ResourceCPU cfg.QueueSidecarCPULimit
  let resourceRequests := seed resourceRequests ResourceMemory cfg.QueueSidecarMemoryRequest
  let resourceLimits := seed resourceLimits ResourceMemory cfg.QueueSidecarMemoryLimit
  let resourceRequests := seed resourceRequests ResourceEphemeralStorage cfg.QueueSidecarEphemeralStorageRequest
  let resourceLimits := seed resourceLimits ResourceEphemeralStorage cfg.QueueSidecarEphemeralStorageLimit
  let (resourceFraction, ok) := fractionFromPercentage annotations d.QueueSideCarResourcePercentageAnnotation
  let (resourceRequests, resourceLimits) :=
    if ok then
      let resourceRequests := override resourceRequests ResourceCPU
        (computeResourceRequirements (Cpu userContainer.Resources.Requests) resourceFraction d.queueContainerRequestCPU)
      let resourceLimits := override resourceLimits ResourceCPU
        (computeResourceRequirements (Cpu userContainer.Resources.Limits) resourceFraction d.queueContainerLimitCPU)
      let resourceRequests := override resourceRequests ResourceMemory
        (computeResourceRequirements (Memory userContainer.Resources.Requests) resourceFraction d.queueContainerRequestMemory)
      let resourceLimits := override resourceLimits ResourceMemory
        (computeResourceRequirements (Memory userContainer.Resources.Limits) resourceFraction d.queueContainerLimitMemory)
      (resourceRequests, resourceLimits)
    else (resourceRequests, resourceLimits)
  { Requests := some resourceRequests
    Limits := if resourceLimits.length ≠ 0 then some resourceLimits else none }

/-! ## features.go -/

/-- The type `Flag` is a string type. -/
abbrev Flag := String

def Enabled : Flag := "Enabled"

def Disabled : Flag := "Disabled"

def Allowed : Flag := "Allowed"

structure Features where
  MultiContainer : Flag
  PodSpecAffinity : Flag
  PodSpecDryRun : Flag
  PodSpecFieldRef : Flag
  PodSpecHostAliases : Flag
  PodSpecNodeSelector : Flag
  PodSpecRuntimeClassName : Flag
  PodSpecSecurityContext : Flag
  ContainerSpecAddCapabilities : Flag
  PodSpecTolerations : Flag
  TagHeaderBasedRouting : Flag
  AutoDetectHTTP2 : Flag
  InjectPodIP : Flag
deriving DecidableEq, Repr

def defaultFeaturesConfig : Features :=
  { MultiContainer := Enabled
    PodSpecAffinity := Disabled
    PodSpecDryRun := Allowed
    PodSpecHostAliases := Disabled
    PodSpecFieldRef := Disabled
    PodSpecNodeSelector := Disabled
    PodSpecRuntimeClassName := Disabled
    PodSpecSecurityContext := Disabled
    ContainerSpecAddCapabilities := Disabled
    PodSpecTolerations := Disabled
    TagHeaderBasedRouting := Disabled
    AutoDetectHTTP2 := Disabled
    InjectPodIP := Enabled }

/-! ## time.Duration -/

/-- The library `fmtFrac`: the digits of `v mod 10^prec` without trailing zeros, with
the point when there are any, and `v / 10^prec`. -/
def fmtFrac : Nat → Nat → Bool → List Char → List Char × Nat
  | 0, v, print, acc => (if print then '.' :: acc else acc, v)
  | prec + 1, v, print, acc =>
    let print := print || decide (v % 10 ≠ 0)
    fmtFrac prec (v / 10) print (if print then Char.ofNat (v % 10 + 48) :: acc else acc)

/-- Method `Duration.String`, for a number of nanoseconds. -/
def durationString (d : Int) : String :=
  let u := d.natAbs
  let body : List Char :=
    if u < 1000000000 then
      if u = 0 then "0s".toList
      else if u < 1000 then (toString u).toList ++ "ns".toList
      else if u < 1000000 then
        let (fr, v) := fmtFrac 3 u false []
        (toString v).toList ++ fr ++ "µs".toList
      else
        let (fr, v) := fmtFrac 6 u false []
        (toString v).toList ++ fr ++ "ms".toList
    else
      let (fr, v) := fmtFrac 9 u false []
      let sec := (toString (v % 60)).toList ++ fr ++ ['s']
      let v := v / 60
      if 0 < v then
        let mins := (toString (v % 60)).toList ++ ['m'] ++ sec
        let v := v / 60
        if 0 < v then (toString v).toList ++ ['h'] ++ mins else mins
      else sec
  String.mk (if d < 0 ∧ u ≠ 0 then '-' :: body else body)

/-- Method `Duration.Seconds`: `float64(d / Second) + float64(d % Second) / 1e9`. -/
def durationSeconds (d : Int) : F64 :=
  F64.add (F64.ofInt (Int.tdiv d 1000000000))
    (F64.div (F64.ofInt (Int.tmod d 1000000000)) (F64.ofInt 1000000000))

/-- Conversion `int32(x)`: truncation toward zero; outside the `int32` range Go leaves
the result to the implementation, the value modelled is `-2^31`. -/
def toInt32 : F64 → Int
  | F64.fin s m e =>
    if -2147483648 ≤ F64.truncFin s m e ∧ F64.truncFin s m e ≤ 2147483647 then F64.truncFin s m e
    else -2147483648
  | _ => -2147483648

/-! ## queue.go: probes and the container -/

def localAddress : String := "127.0.0.1"

def requestQueueHTTPPortName : String := "queue-port"

def profilingPortName : String := "profiling-port"

/-- The constant `corev1.URISchemeHTTP`. -/
def URISchemeHTTP : String := "HTTP"

def queueHTTPPort (d : Decls) : ContainerPort := ⟨requestQueueHTTPPortName, d.BackendHTTPPort⟩

def queueHTTP2Port (d : Decls) : ContainerPort := ⟨requestQueueHTTPPortName, d.BackendHTTP2Port⟩

def queueNonServingPorts (d : Decls) : List ContainerPort :=
  [⟨d.QueueAdminPortName, d.QueueAdminPort⟩,
   ⟨d.AutoscalingQueueMetricsPortName, d.AutoscalingQueueMetricsPort⟩,
   ⟨d.UserQueueMetricsPortName, d.UserQueueMetricsPort⟩]

def profilingPort (d : Decls) : ContainerPort := ⟨profilingPortName, d.ProfilingPort⟩

def queueSecurityContext : SecurityContext :=
  { AllowPrivilegeEscalation := some false
    ReadOnlyRootFilesystem := some true
    RunAsNonRoot := some true
    CapabilitiesDrop := ["all"] }

def makeStartupExecProbe (i : Option Probe) (progressDeadline : Int) : Option Probe :=
  if (match i with
      | some p => decide (0 < p.PeriodSeconds)
      | none => false) then none
  else
    let out : Probe :=
      { Handler :=
          { Exec := some ⟨["/ko-app/queue", "-probe-timeout", durationString progressDeadline]⟩
            HTTPGet := none
            TCPSocket := none }
        InitialDelaySeconds := 0
        TimeoutSeconds := toInt32 (durationSeconds progressDeadline)
        FailureThreshold := 1
        SuccessThreshold := 1
        PeriodSeconds := 1 }
    match i with
    | some p => some { out with InitialDelaySeconds := p.InitialDelaySeconds }
    | none => some out

/-- The switch of `applyReadinessProbeDefaultsForExec` on a probe that is not nil. -/
def applyHandlerDefaults (d : Decls) (p : Probe) (port : Int) : Probe :=
  match p.Handler.HTTPGet with
  | some h =>
    let h : HTTPGetAction :=
      { h with
        Host := localAddress
        Port := FromInt port
        Scheme := if h.Scheme = "" then URISchemeHTTP else h.Scheme
        HTTPHeaders := h.HTTPHeaders ++ [⟨d.KubeletProbeHeaderName, d.queueName⟩] }
    { p with Handler := { p.Handler with HTTPGet := some h } }
  | none =>
    match p.Handler.TCPSocket with
    | some t =>
      let t : TCPSocketAction := { t with Host := localAddress, Port := FromInt port }
      { p with Handler := { p.Handler with TCPSocket := some t } }
    | none =>
      match p.Handler.Exec with
      | some _ =>
        { p with Handler := { p.Handler with TCPSocket := some ⟨FromInt port, localAddress⟩, Exec := none } }
      | none => p

/-- The probe is updated in place by the source; the embedding returns the new value. -/
def applyReadinessProbeDefaultsForExec (d : Decls) (p : Option Probe) (port : Int) : Option Probe :=
  match p with
  | none => none
  | some p =>
    let p := applyHandlerDefaults d p port
    if 0 < p.PeriodSeconds ∧ p.TimeoutSeconds < 1 then some { p with TimeoutSeconds := 1 } else some p

structure OwnerReference where
  Kind : String
  Name : String
deriving DecidableEq, Repr

/-- The revision as `makeQueueContainer` reads it.  The accessor methods and helpers
declared in other files are taken by their results: `ControllerOf` is
`metav1.GetControllerOf(rev)`, `Protocol` is `rev.GetProtocol()`, `UserPort` is
`getUserPort(rev)`, `ContainerConcurrency` is `rev.Spec.GetContainerConcurrency()` and
`Container` is what `rev.Spec.GetContainer()` points to. -/
structure Revision where
  Namespace : String
  Name : String
  Labels : List (String × String)
  Annotations : Annotations
  ControllerOf : Option OwnerReference
  Protocol : String
  UserPort : Int
  TimeoutSeconds : Option Int
  ContainerConcurrency : Int
  Container : Container

/-- The logging configuration; the levels are stored by their `String()` text. -/
structure LoggingConfig where
  LoggingConfig : String
  LoggingLevel : List (String × String)

structure ObservabilityConfig where
  EnableProfiling : Bool
  RequestLogTemplate : String
  EnableRequestLog : Bool
  RequestMetricsBackend : String
  EnableProbeRequestLog : Bool
  MetricsCollectorAddress : String

/-- The tracing configuration; `SampleRate` is stored by its `fmt.Sprint` text. -/
structure TracingConfig where
  Backend : String
  ZipkinEndpoint : String
  StackdriverProjectID : String
  Debug : Bool
  SampleRate : String

/-- The struct `config.Config` of the reconciler. -/
structure Config where
  Deployment : DeploymentConfig
  Logging : LoggingConfig
  Observability : ObservabilityConfig
  Tracing : TracingConfig
  Features : Features

/-- The way a Go call ends: a value, a returned error, or a run-time panic. -/
inductive Outcome (α : Type) where
  | ok (v : α)
  | error (msg : String)
  | panic
deriving Repr

/-- The method `strconv.FormatBool`. -/
def FormatBool (b : Bool) : String := if b then "true" else "false"

/-- The method `strconv.Itoa`. -/
def Itoa (i : Int) : String := toString i

/-- The environment of the sidecar before the feature-dependent entries. -/
def queueEnv (d : Decls) (rev : Revision) (cfg : Config) (serviceName configName : String)
    (servingPort : ContainerPort) (ts userPort : Int) (loggingLevel userProbeJSON : String) : List EnvVar :=
  [ ⟨"SERVING_NAMESPACE", rev.Namespace, none⟩,
    ⟨"SERVING_SERVICE", serviceName, none⟩,
    ⟨"SERVING_CONFIGURATION", configName, none⟩,
    ⟨"SERVING_REVISION", rev.Name, none⟩,
    ⟨"QUEUE_SERVING_PORT", Itoa servingPort.ContainerPort, none⟩,
    ⟨"CONTAINER_CONCURRENCY", Itoa rev.ContainerConcurrency, none⟩,
    ⟨"REVISION_TIMEOUT_SECONDS", Itoa ts, none⟩,
    ⟨"SERVING_POD", "", some "metadata.name"⟩,
    ⟨"SERVING_LOGGING_CONFIG", cfg.Logging.LoggingConfig, none⟩,
    ⟨"SERVING_LOGGING_LEVEL", loggingLevel, none⟩,
    ⟨"SERVING_REQUEST_LOG_TEMPLATE", cfg.Observability.RequestLogTemplate, none⟩,
    ⟨"SERVING_ENABLE_REQUEST_LOG", FormatBool cfg.Observability.EnableRequestLog, none⟩,
    ⟨"SERVING_REQUEST_METRICS_BACKEND", cfg.Observability.RequestMetricsBackend, none⟩,
    ⟨"TRACING_CONFIG_BACKEND", cfg.Tracing.Backend, none⟩,
    ⟨"TRACING_CONFIG_ZIPKIN_ENDPOINT", cfg.Tracing.ZipkinEndpoint, none⟩,
    ⟨"TRACING_CONFIG_STACKDRIVER_PROJECT_ID", cfg.Tracing.StackdriverProjectID, none⟩,
    ⟨"TRACING_CONFIG_DEBUG", FormatBool cfg.Tracing.Debug, none⟩,
    ⟨"TRACING_CONFIG_SAMPLE_RATE", cfg.Tracing.SampleRate, none⟩,
    ⟨"USER_PORT", Itoa userPort, none⟩,
    ⟨d.NamespaceEnvKey, d.systemNamespace, none⟩,
    ⟨d.DomainEnv, d.metricsDomain, none⟩,
    ⟨"SERVING_READINESS_PROBE", userProbeJSON, none⟩,
    ⟨"ENABLE_PROFILING", FormatBool cfg.Observability.EnableProfiling, none⟩,
    ⟨"SERVING_ENABLE_PROBE_REQUEST_LOG", FormatBool cfg.Observability.EnableProbeRequestLog, none⟩,
    ⟨"METRICS_COLLECTOR_ADDRESS", cfg.Observability.MetricsCollectorAddress, none⟩ ]

def makeQueueContainer (d : Decls) (rev : Revision) (cfg : Config) : Outcome Container :=
  let configName :=
    match rev.ControllerOf with
    | some owner => if owner.Kind = "Configuration" then owner.Name else ""
    | none => ""
  let serviceName := (List.lookup d.ServiceLabelKey rev.Labels).getD ""
  let userPort := rev.UserPort
  let loggingLevel := (List.lookup "queueproxy" cfg.Logging.LoggingLevel).getD ""
  let ts := rev.TimeoutSeconds.getD 0
  let ports := queueNonServingPorts d
  let ports := if cfg.Observability.EnableProfiling then ports ++ [profilingPort d] else ports
  let servingPort := if rev.Protocol = d.ProtocolH2C then queueHTTP2Port d else queueHTTPPort d
  let ports := ports ++ [servingPort]
  let container := rev.Container
  let userProbe := applyReadinessProbeDefaultsForExec d container.ReadinessProbe userPort
  let execProbe := makeStartupExecProbe userProbe cfg.Deployment.ProgressDeadline
  match d.EncodeProbe userProbe with
  | Except.error err => Outcome.error ("failed to serialize readiness probe: " ++ err)
  | Except.ok userProbeJSON =>
    match container.ReadinessProbe with
    | none => Outcome.panic
    | some httpProbe =>
      let httpGet : HTTPGetAction :=
        { Path := ""
          Port := FromInt servingPort.ContainerPort
          Host := ""
          Scheme := ""
          HTTPHeaders := [⟨d.ProbeHeaderName, d.queueName⟩] }
      let httpProbe : Probe :=
        { httpProbe with Handler := { Exec := none, HTTPGet := some httpGet, TCPSocket := none } }
      let httpProbe : Probe :=
        if httpProbe.PeriodSeconds = 0 then { httpProbe with PeriodSeconds := 1 } else httpProbe
      let c : Container :=
        { Name := d.QueueContainerName
          Image := cfg.Deployment.QueueSidecarImage
          Resources := createQueueResources d cfg.Deployment rev.Annotations container
          Ports := ports
          StartupProbe := execProbe
          ReadinessProbe := some httpProbe
          SecurityContext := some queueSecurityContext
          Env := queueEnv d rev cfg serviceName configName servingPort ts userPort loggingLevel userProbeJSON }
      let c : Container :=
        if cfg.Features.InjectPodIP = Enabled
        then { c with Env := c.Env ++ [⟨"SERVING_POD_IP", "", some "status.podIP"⟩] } else c
      let c : Container :=
        if cfg.Features.AutoDetectHTTP2 = Enabled
        then { c with Env := c.Env ++ [⟨"ENABLE_HTTP2_AUTO_DETECTION", "true", none⟩] } else c
      Outcome.ok c

/-! ## features.go: parsing -/

/-- One step of the library `strings.EqualFold` against an ASCII character `t`: the
characters are equal, or are the two cases of one ASCII letter, or `c` is one of the
two characters outside ASCII that simple case folding joins to an ASCII letter (the
Kelvin sign to `k`, the long s to `s`). -/
def foldEq (c t : Char) : Bool :=
  decide (c.toNat = t.toNat) ||
  decide (65 ≤ t.toNat ∧ t.toNat ≤ 90 ∧ c.toNat = t.toNat + 32) ||
  decide (97 ≤ t.toNat ∧ t.toNat ≤ 122 ∧ c.toNat + 32 = t.toNat) ||
  decide ((t.toNat = 107 ∨ t.toNat = 75) ∧ c.toNat = 8490) ||
  decide ((t.toNat = 115 ∨ t.toNat = 83) ∧ c.toNat = 383)

def equalFoldList : List Char → List Char → Bool
  | [], [] => true
  | c :: cs, t :: ts => foldEq c t && equalFoldList cs ts
  | _, _ => false

/-- The library `strings.EqualFold(s, t)` for an ASCII text `t`, as in every call of
the package: equality under Unicode simple case folding. -/
def EqualFold (s t : String) : Bool := equalFoldList s.toList t.toList

/-- The parse function `asFlag(key, target)` applied to `data`: the value of the
target afterwards, or the error (it never returns one). -/
def asFlag (key : String) (data : List (String × String)) (target : Flag) : Except String Flag :=
  match List.lookup key data with
  | some raw =>
    match [Enabled, Allowed, Disabled].find? (fun flag => EqualFold raw flag) with
    | some flag => Except.ok flag
    | none => Except.ok target
  | none => Except.ok target

/-- The call `cm.Parse(data, ...)` runs the parse functions in order and stops at the
first error: the sequence below, in the order of the source. -/
def NewFeaturesConfigFromMap (data : List (String × String)) : Except String Features := do
  let nc := defaultFeaturesConfig
  let multiContainer ← asFlag "multi-container" data nc.MultiContainer
  let podSpecAffinity ← asFlag "kubernetes.podspec-affinity" data nc.PodSpecAffinity
  let podSpecDryRun ← asFlag "kubernetes.podspec-dryrun" data nc.PodSpecDryRun
  let podSpecHostAliases ← asFlag "kubernetes.podspec-hostaliases" data nc.PodSpecHostAliases
  let podSpecFieldRef ← asFlag "kubernetes.podspec-fieldref" data nc.PodSpecFieldRef
  let podSpecNodeSelector ← asFlag "kubernetes.podspec-nodeselector" data nc.PodSpecNodeSelector
  let podSpecRuntimeClassName ← asFlag "kubernetes.podspec-runtimeclassname" data nc.PodSpecRuntimeClassName
  let podSpecSecurityContext ← asFlag "kubernetes.podspec-securitycontext" data nc.PodSpecSecurityContext
  let containerSpecAddCapabilities ←
    asFlag "kubernetes.containerspec-addcapabilities" data nc.ContainerSpecAddCapabilities
  let podSpecTolerations ← asFlag "kubernetes.podspec-tolerations" data nc.PodSpecTolerations
  let tagHeaderBasedRouting ← asFlag "tag-header-based-routing" data nc.TagHeaderBasedRouting
  let autoDetectHTTP2 ← asFlag "autodetect-http2" data nc.AutoDetectHTTP2
  let injectPodIP ← asFlag "inject-pod-ip" data nc.InjectPodIP
  return { MultiContainer := multiContainer
           PodSpecAffinity := podSpecAffinity
           PodSpecDryRun := podSpecDryRun
           PodSpecFieldRef := podSpecFieldRef
           PodSpecHostAliases := podSpecHostAliases
           PodSpecNodeSelector := podSpecNodeSelector
           PodSpecRuntimeClassName := podSpecRuntimeClassName
           PodSpecSecurityContext := podSpecSecurityContext
           ContainerSpecAddCapabilities := containerSpecAddCapabilities
           PodSpecTolerations := podSpecTolerations
           TagHeaderBasedRouting := tagHeaderBasedRouting
           AutoDetectHTTP2 := autoDetectHTTP2
           InjectPodIP := injectPodIP }

/-! ## Reading the result of `createQueueResources` -/

/-- Map read on a possibly nil resource list. -/
def lookupResource (m : Option ResourceList) (k : ResourceName) : Option Quantity :=
  match m with
  | some l => l.get k
  | none => none

/-- The order of quantities, by the library comparison. -/
def Quantity.le (a b : Quantity) : Prop := a.Cmp b ≠ 1

instance (a b : Quantity) : Decidable (a.le b) := by unfold Quantity.le; infer_instance

/-- The requests map after the seeding loop. -/
def seededRequests (cfg : DeploymentConfig) : ResourceList :=
  seed (seed (seed [] ResourceCPU cfg.QueueSidecarCPURequest) ResourceMemory cfg.QueueSidecarMemoryRequest)
    ResourceEphemeralStorage cfg.QueueSidecarEphemeralStorageRequest

/-- The limits map after the seeding loop. -/
def seededLimits (cfg : DeploymentConfig) : ResourceList :=
  seed (seed (seed [] ResourceCPU cfg.QueueSidecarCPULimit) ResourceMemory cfg.QueueSidecarMemoryLimit)
    ResourceEphemeralStorage cfg.QueueSidecarEphemeralStorageLimit

/-- The four places a percentage can override: a resource kind with a role. -/
inductive Slot where
  | cpuRequest
  | cpuLimit
  | memoryRequest
  | memoryLimit
deriving DecidableEq, Repr

namespace Slot

def name : Slot → ResourceName
  | cpuRequest => ResourceCPU
  | cpuLimit => ResourceCPU
  | memoryRequest => ResourceMemory
  | memoryLimit => ResourceMemory

/-- The source quantity that `createQueueResources` reads from the user container. -/
def source (s : Slot) (uc : Container) : Quantity :=
  match s with
  | cpuRequest => Cpu uc.Resources.Requests
  | cpuLimit => Cpu uc.Resources.Limits
  | memoryRequest => Memory uc.Resources.Requests
  | memoryLimit => Memory uc.Resources.Limits

/-- The boundary profile that `createQueueResources` passes for the place. -/
def boundary (s : Slot) (d : Decls) : resourceBoundary :=
  match s with
  | cpuRequest => d.queueContainerRequestCPU
  | cpuLimit => d.queueContainerLimitCPU
  | memoryRequest => d.queueContainerRequestMemory
  | memoryLimit => d.queueContainerLimitMemory

/-- The fixed value of the configuration for the place. -/
def fixed (s : Slot) (cfg : DeploymentConfig) : Option Quantity :=
  match s with
  | cpuRequest => cfg.QueueSidecarCPURequest
  | cpuLimit => cfg.QueueSidecarCPULimit
  | memoryRequest => cfg.QueueSidecarMemoryRequest
  | memoryLimit => cfg.QueueSidecarMemoryLimit

/-- The value the result holds at the place, `none` when the key or the map is absent. -/
def output (s : Slot) (r : ResourceRequirements) : Option Quantity :=
  match s with
  | cpuRequest => lookupResource r.Requests ResourceCPU
  | cpuLimit => lookupResource r.Limits ResourceCPU
  | memoryRequest => lookupResource r.Requests ResourceMemory
  | memoryLimit => lookupResource r.Limits ResourceMemory

/-- The place is overridden: the percentage parsed and `computeResourceRequirements`
reported a value for the source. -/
def overridden (s : Slot) (d : Decls) (ann : Annotations) (uc : Container) : Bool :=
  (fractionFromPercentage ann d.QueueSideCarResourcePercentageAnnotation).2 &&
    (computeResourceRequirements (s.source uc)
      (fractionFromPercentage ann d.QueueSideCarResourcePercentageAnnotation).1 (s.boundary d)).1

end Slot

/-- The fixed request of the configuration for a resource name. -/
def fixedRequest (cfg : DeploymentConfig) (k : ResourceName) : Option Quantity :=
  if k = ResourceCPU then cfg.QueueSidecarCPURequest
  else if k = ResourceMemory then cfg.QueueSidecarMemoryRequest
  else if k = ResourceEphemeralStorage then cfg.QueueSidecarEphemeralStorageRequest
  else none

/-- The fixed limit of the configuration for a resource name. -/
def fixedLimit (cfg : DeploymentConfig) (k : ResourceName) : Option Quantity :=
  if k = ResourceCPU then cfg.QueueSidecarCPULimit
  else if k = ResourceMemory then cfg.QueueSidecarMemoryLimit
  else if k = ResourceEphemeralStorage then cfg.QueueSidecarEphemeralStorageLimit
  else none

/-- The limits map built by `createQueueResources` before the final emptiness test. -/
def finalLimits (d : Decls) (cfg : DeploymentConfig) (ann : Annotations) (uc : Container) : ResourceList :=
  if (fractionFromPercentage ann d.QueueSideCarResourcePercentageAnnotation).2 = true then
    override (override (seededLimits cfg) ResourceCPU
      (computeResourceRequirements (Cpu uc.Resources.Limits)
        (fractionFromPercentage ann d.QueueSideCarResourcePercentageAnnotation).1 d.queueContainerLimitCPU))
      ResourceMemory
      (computeResourceRequirements (Memory uc.Resources.Limits)
        (fractionFromPercentage ann d.QueueSideCarResourcePercentageAnnotation).1 d.queueContainerLimitMemory)
  else seededLimits cfg

/-- The quantities the library can hold: the value of an `int64` amount is an `int64`,
and the scale is an `int32` in the one form and its negation is one in the other; the
scales that both forms admit are taken. -/
def Quantity.valid (q : Quantity) : Prop :=
  (q.dec = true ∨ fitsInt64 q.unscaled) ∧ -2147483648 < q.scale ∧ q.scale < 2147483648

instance (q : Quantity) : Decidable q.valid := by unfold Quantity.valid; infer_instance

/-- The quantities that the library scales down by rounding away from zero: the
`int64` amounts and the arbitrary-precision decimals that are not negative. -/
def Quantity.roundedAway (q : Quantity) : Prop := q.dec = false ∨ 0 ≤ q.unscaled

instance (q : Quantity) : Decidable q.roundedAway := by unfold Quantity.roundedAway; infer_instance

/-! ## Example data -/

/-- The quantity of so many thousandths, as `resource.MustParse` reads `"<n>m"`. -/
def milli (n : Int) : Quantity := ⟨n, -3, Format.DecimalSI, false⟩

/-- The quantity of so many whole units, as `resource.MustParse` reads `"<n>"`. -/
def units (n : Int) : Quantity := ⟨n, 0, Format.DecimalSI, false⟩

/-- The quantity of so many units of `10^18`, as `resource.MustParse` reads `"<n>E"`. -/
def exa (n : Int) : Quantity := ⟨n, 18, Format.DecimalSI, false⟩

/-- The quantity of so many whole units held as an arbitrary-precision decimal, as
`resource.MustParse` reads a number of more than eighteen digits: the parser keeps
nine digits after the point. -/
def decimalUnits (n : Int) : Quantity := ⟨n * 1000000000, -9, Format.DecimalSI, true⟩

/-- The quantity `-1024.000512`, as `resource.MustParse` reads `"-1.0000005Ki"`: an
arbitrary-precision decimal with nine digits after the point. -/
def negativeDecimal : Quantity := ⟨-1024000512000, -9, Format.BinarySI, true⟩

/-- The boundary `[25m, 1000m]` of the examples. -/
def exampleBoundary : resourceBoundary := ⟨milli 25, milli 1000⟩

/-- A serialiser for the examples: a nil probe is an error, any other has a text. -/
def exampleEncodeProbe (p : Option Probe) : Except String String :=
  match p with
  | none => Except.error "cannot encode nil probe"
  | some _ => Except.ok "probe"

/-- Package declarations for the examples, every boundary being `[25m, 1000m]`. -/
def exampleDecls : Decls :=
  { QueueSideCarResourcePercentageAnnotation := "queue.sidecar.serving.knative.dev/resourcePercentage"
    queueContainerRequestCPU := exampleBoundary
    queueContainerLimitCPU := exampleBoundary
    queueContainerRequestMemory := exampleBoundary
    queueContainerLimitMemory := exampleBoundary
    ServiceLabelKey := "serving.knative.dev/service"
    QueueContainerName := "queue-proxy"
    BackendHTTPPort := 8012
    BackendHTTP2Port := 8013
    QueueAdminPortName := "http-queueadm"
    QueueAdminPort := 8022
    AutoscalingQueueMetricsPortName := "http-autometric"
    AutoscalingQueueMetricsPort := 9090
    UserQueueMetricsPortName := "http-usermetric"
    UserQueueMetricsPort := 9091
    ProfilingPort := 8008
    ProtocolH2C := "h2c"
    ProbeHeaderName := "K-Network-Probe"
    KubeletProbeHeaderName := "K-Kubelet-Probe"
    queueName := "queue"
    NamespaceEnvKey := "SYSTEM_NAMESPACE"
    systemNamespace := "knative-serving"
    DomainEnv := "METRICS_DOMAIN"
    metricsDomain := "knative.dev/internal/serving"
    EncodeProbe := exampleEncodeProbe }

/-- The annotations that carry the given text as the resource percentage. -/
def percentage (text : String) : Annotations :=
  [("queue.sidecar.serving.knative.dev/resourcePercentage", text)]

/-- The fraction `createQueueResources` derives from the given percentage text. -/
def fractionOf (text : String) : F64 :=
  (fractionFromPercentage (percentage text) exampleDecls.QueueSideCarResourcePercentageAnnotation).1

/-- A configuration without any fixed sidecar resource. -/
def noFixed : DeploymentConfig :=
  { QueueSidecarImage := "queue"
    ProgressDeadline := 600000000000
    QueueSidecarCPURequest := none
    QueueSidecarCPULimit := none
    QueueSidecarMemoryRequest := none
    QueueSidecarMemoryLimit := none
    QueueSidecarEphemeralStorageRequest := none
    QueueSidecarEphemeralStorageLimit := none }

/-- A configuration with a fixed CPU request and fixed ephemeral storage. -/
def someFixed : DeploymentConfig :=
  { noFixed with
    QueueSidecarCPURequest := some (milli 25)
    QueueSidecarEphemeralStorageRequest := some (units 512)
    QueueSidecarEphemeralStorageLimit := some (units 1024) }

/-- A user container with the given resources and readiness probe. -/
def userContainer (requests limits : Option ResourceList) (probe : Option Probe) : Container :=
  { Name := "user-container"
    Image := "busybox"
    Resources := ⟨limits, requests⟩
    Ports := []
    StartupProbe := none
    ReadinessProbe := probe
    SecurityContext := none
    Env := [] }

/-! ## Reading `computeResourceRequirements` and `makeQueueContainer` -/

namespace F64

def zero : F64 := fin false 0 0

def one : F64 := fin false 1 0

end F64

/-- The call `resourceQuantity.MilliValue()` is reached in `computeResourceRequirements`:
the quantity is not zero and passes the test on `Value()`. -/
def evaluatesMilliValue (q : Quantity) : Bool :=
  !q.IsZero && decide (q.Value < MaxInt64 / 1000)

/-- The binary64 product of the milli value `m` and the fraction `f`, truncated toward
zero when it is below `2^63`, and `MaxInt64` otherwise. -/
def cappedProduct (m : Int) (f : F64) : Int :=
  if F64.lt (F64.mul (F64.ofInt m) f) maxInt64AsFloat
  then F64.toInt64 (F64.mul (F64.ofInt m) f)
  else MaxInt64

/-- The product of the spec in exact arithmetic: `m * p / 100` for a finite percentage
`p`, truncated toward zero to a whole milli-unit. -/
def exactScaled (m : Int) (p : F64) : Option Int :=
  match p with
  | F64.fin s n e =>
    let x : Int := if s then -(n : Int) else (n : Int)
    if 0 ≤ e then some (Int.tdiv (m * x * 2 ^ e.toNat) 100)
    else some (Int.tdiv (m * x) (100 * 2 ^ (-e).toNat))
  | _ => none

/-- Skip the leading decimal digits. -/
def dropDigits : List Char → List Char
  | [] => []
  | c :: cs => if isDigit c then dropDigits cs else c :: cs

/-- Skip one leading sign. -/
def dropSign : List Char → List Char
  | '+' :: cs => cs
  | '-' :: cs => cs
  | cs => cs

/-- The text of a base-10 floating-point value: an optional sign, decimal digits with
an optional point among them (at least one digit), and an optional exponent part, `e`
or `E` with an optional sign and at least one decimal digit. -/
def decimalFloatText (s : String) : Bool :=
  let body := dropSign s.toList
  let afterInt := dropDigits body
  let fraction := match afterInt with
    | '.' :: r => r
    | _ => []
  let afterFrac := match afterInt with
    | '.' :: r => dropDigits r
    | r => r
  let digits := (body.length - afterInt.length) + (fraction.length - afterFrac.length)
  decide (0 < digits) &&
    (match afterFrac with
      | [] => true
      | c :: r =>
        (decide (c = 'e') || decide (c = 'E')) && !(dropSign r).isEmpty &&
          (dropDigits (dropSign r)).isEmpty)

/-- The container port number the sidecar serves on for the revision. -/
def servingPortNumber (d : Decls) (rev : Revision) : Int :=
  if rev.Protocol = d.ProtocolH2C then d.BackendHTTP2Port else d.BackendHTTPPort

/-- The readiness probe of the sidecar for a user probe: the handler is an HTTP GET on
the given port with the one probe header, a period of `0` becomes `1`. -/
def rewrittenReadiness (d : Decls) (port : Int) (p : Probe) : Probe :=
  { Handler :=
      { Exec := none
        HTTPGet := some ⟨"", IntOrString.int port, "", "", [⟨d.ProbeHeaderName, d.queueName⟩]⟩
        TCPSocket := none }
    InitialDelaySeconds := p.InitialDelaySeconds
    TimeoutSeconds := p.TimeoutSeconds
    PeriodSeconds := if p.PeriodSeconds = 0 then 1 else p.PeriodSeconds
    SuccessThreshold := p.SuccessThreshold
    FailureThreshold := p.FailureThreshold }

/-- A user readiness probe that runs a command, with period `0`. -/
def execProbe : Probe :=
  { Handler := ⟨some ⟨["/bin/ready"]⟩, none, none⟩
    InitialDelaySeconds := 3
    TimeoutSeconds := 7
    PeriodSeconds := 0
    SuccessThreshold := 1
    FailureThreshold := 3 }

/-- A revision of the examples around a user container. -/
def exampleRevision (c : Container) : Revision :=
  { Namespace := "default"
    Name := "hello-00001"
    Labels := [("serving.knative.dev/service", "hello")]
    Annotations := percentage "10"
    ControllerOf := some ⟨"Configuration", "hello"⟩
    Protocol := "http1"
    UserPort := 8080
    TimeoutSeconds := some 300
    ContainerConcurrency := 0
    Container := c }

/-- A reconciler configuration of the examples with the default features. -/
def exampleConfig : Config :=
  { Deployment := someFixed
    Logging := ⟨"", [("queueproxy", "info")]⟩
    Observability := ⟨false, "", false, "prometheus", false, ""⟩
    Tracing := ⟨"none", "", "", false, "0.1"⟩
    Features := defaultFeaturesConfig }

/-! ## Reading the probes -/

/-- The startup probe that `makeStartupExecProbe` builds for an initial delay and a
progress deadline: one exec handler, timeout `int32(progressDeadline.Seconds())`,
period and thresholds `1`. -/
def startupProbe (initialDelay progressDeadline : Int) : Probe :=
  { Handler := ⟨some ⟨["/ko-app/queue", "-probe-timeout", durationString progressDeadline]⟩, none, none⟩
    InitialDelaySeconds := initialDelay
    TimeoutSeconds := toInt32 (durationSeconds progressDeadline)
    PeriodSeconds := 1
    SuccessThreshold := 1
    FailureThreshold := 1 }

/-- The header that `applyReadinessProbeDefaultsForExec` appends to an HTTP check. -/
def kubeletProbeHeader (d : Decls) : HTTPHeader := ⟨d.KubeletProbeHeaderName, d.queueName⟩

/-- The TCP check on the loopback address at a port. -/
def loopbackTCP (port : Int) : TCPSocketAction := ⟨IntOrString.int port, "127.0.0.1"⟩

/-- A duration rounded to the nearest whole second, halves away from zero, as the
method `Duration.Round(time.Second)` does. -/
def nearestSeconds (d : Int) : Int :=
  if 0 ≤ d then (d + 500000000) / 1000000000 else -((-d + 500000000) / 1000000000)

/-- A user readiness probe with an HTTP check, a period of five seconds and no timeout. -/
def httpProbe : Probe :=
  { Handler := ⟨none, some ⟨"/healthz", IntOrString.int 80, "", "", [⟨"X-User", "1"⟩]⟩, none⟩
    InitialDelaySeconds := 3
    TimeoutSeconds := 0
    PeriodSeconds := 5
    SuccessThreshold := 1
    FailureThreshold := 3 }

/-- A user readiness probe with a TCP check. -/
def tcpProbe : Probe :=
  { Handler := ⟨none, none, some ⟨IntOrString.int 1234, "example.com"⟩⟩
    InitialDelaySeconds := 0
    TimeoutSeconds := 2
    PeriodSeconds := 0
    SuccessThreshold := 1
    FailureThreshold := 3 }

/-! ## Reading the features and the container -/

/-- The three canonical flags, in the order `asFlag` tries them. -/
def canonicalFlags : List Flag := [Enabled, Allowed, Disabled]

/-- The value `v` of a feature field is what the configuration map prescribes for its
key: the canonical flag that equals the value at the key ignoring letter case when
there is one, and the default `dflt` when the key is missing or its value matches none
of the three. -/
def FlagSpec (data : List (String × String)) (key : String) (dflt v : Flag) : Prop :=
  (∀ raw flag, List.lookup key data = some raw → flag ∈ canonicalFlags →
    EqualFold raw flag = true → v = flag) ∧
  (List.lookup key data = none → v = dflt) ∧
  (∀ raw, List.lookup key data = some raw →
    (∀ flag, flag ∈ canonicalFlags → EqualFold raw flag = false) → v = dflt)

/-- The environment entry is the one named `SERVING_POD_IP` that refers to the field
`status.podIP`. -/
def isPodIP (e : EnvVar) : Bool :=
  decide (e.Name = "SERVING_POD_IP") && decide (e.FieldPath = some "status.podIP")

/-- The package declarations of the examples with a serialiser that accepts every
probe, a nil one too. -/
def lenientDecls : Decls := { exampleDecls with EncodeProbe := fun _ => Except.ok "null" }

/-- The value `asFlag` leaves in a target that held `dflt`. -/
def parsedFlag (key : String) (data : List (String × String)) (dflt : Flag) : Flag :=
  match List.lookup key data with
  | some raw =>
    match canonicalFlags.find? (fun flag => EqualFold raw flag) with
    | some flag => flag
    | none => dflt
  | none => dflt

/-- The features whose fields are the values `asFlag` leaves for the keys of
`NewFeaturesConfigFromMap`, starting from the defaults. -/
def parsedFeatures (data : List (String × String)) : Features :=
  { MultiContainer := parsedFlag "multi-container" data defaultFeaturesConfig.MultiContainer
    PodSpecAffinity := parsedFlag "kubernetes.podspec-affinity" data defaultFeaturesConfig.PodSpecAffinity
    PodSpecDryRun := parsedFlag "kubernetes.podspec-dryrun" data defaultFeaturesConfig.PodSpecDryRun
    PodSpecFieldRef := parsedFlag "kubernetes.podspec-fieldref" data defaultFeaturesConfig.PodSpecFieldRef
    PodSpecHostAliases :=
      parsedFlag "kubernetes.podspec-hostaliases" data defaultFeaturesConfig.PodSpecHostAliases
    PodSpecNodeSelector :=
      parsedFlag "kubernetes.podspec-nodeselector" data defaultFeaturesConfig.PodSpecNodeSelector
    PodSpecRuntimeClassName :=
      parsedFlag "kubernetes.podspec-runtimeclassname" data defaultFeaturesConfig.PodSpecRuntimeClassName
    PodSpecSecurityContext :=
      parsedFlag "kubernetes.podspec-securitycontext" data defaultFeaturesConfig.PodSpecSecurityContext
    ContainerSpecAddCapabilities :=
      parsedFlag "kubernetes.containerspec-addcapabilities" data
        defaultFeaturesConfig.ContainerSpecAddCapabilities
    PodSpecTolerations :=
      parsedFlag "kubernetes.podspec-tolerations" data defaultFeaturesConfig.PodSpecTolerations
    TagHeaderBasedRouting :=
      parsedFlag "tag-header-based-routing" data defaultFeaturesConfig.TagHeaderBasedRouting
    AutoDetectHTTP2 := parsedFlag "autodetect-http2" data defaultFeaturesConfig.AutoDetectHTTP2
    InjectPodIP := parsedFlag "inject-pod-ip" data defaultFeaturesConfig.InjectPodIP }

/-- The probe with one more copy of the internal-probe header on its HTTP check. -/
def withOneMoreHeader (d : Decls) (q : Probe) : Probe :=
  match q.Handler.HTTPGet with
  | some h =>
    let h2 : HTTPGetAction := { h with HTTPHeaders := h.HTTPHeaders ++ [kubeletProbeHeader d] }
    { q with Handler := { q.Handler with HTTPGet := some h2 } }
  | none => q

/-! ## Lemmas: quantities and maps -/

theorem Cmp_self (q : Quantity) : q.Cmp q = 0 := by
  unfold Quantity.Cmp; simp

theorem Cmp_swap (a b : Quantity) : a.Cmp b = -1 ↔ b.Cmp a = 1 := by
  unfold Quantity.Cmp
  simp only [min_comm b.scale a.scale]
  split_ifs <;> simp_all
  omega

theorem applyBoundary_within (b : resourceBoundary) (x : Quantity) (hb : b.min.le b.max) :
    b.min.le (b.applyBoundary x) ∧ (b.applyBoundary x).le b.max := by
  unfold Quantity.le at *
  unfold resourceBoundary.applyBoundary
  split_ifs with h1 h2
  · exact ⟨by rw [Cmp_self]; decide, hb⟩
  · exact ⟨hb, by rw [Cmp_self]; decide⟩
  · exact ⟨fun h => h1 ((Cmp_swap _ _).2 h), h2⟩

theorem get_set (m : ResourceList) (k k' : ResourceName) (v : Quantity) :
    (m.set k' v).get k = if k' = k then some v else m.get k := by
  induction m with
  | nil =>
    by_cases h : k' = k
    · subst h; simp [ResourceList.set, ResourceList.get, List.lookup]
    · have h' : (k == k') = false := by simpa using fun e => h e.symm
      simp [ResourceList.set, ResourceList.get, List.lookup, h, h']
  | cons a m ih =>
    obtain ⟨k0, v0⟩ := a
    unfold ResourceList.set
    by_cases h0 : k0 = k'
    · subst h0
      by_cases h : k0 = k
      · subst h; simp [ResourceList.get, List.lookup]
      · have h' : (k == k0) = false := by simpa using fun e => h e.symm
        simp [ResourceList.get, List.lookup, h, h']
    · simp only [h0, if_false]
      by_cases h1 : k = k0
      · subst h1
        have : ¬ k' = k := fun e => h0 e.symm
        simp [ResourceList.get, List.lookup, this]
      · have h' : (k == k0) = false := by simpa using h1
        have ih' := ih
        simp only [ResourceList.get] at ih' ⊢
        simp [List.lookup, h', ih']

theorem get_seed (m : ResourceList) (k name : ResourceName) (q : Option Quantity) :
    (seed m name q).get k = if name = k ∧ q.isSome then q else m.get k := by
  cases q with
  | none => simp [seed]
  | some v => simp only [seed, get_set]; by_cases h : name = k <;> simp [h]

theorem get_override (m : ResourceList) (k name : ResourceName) (r : Bool × Quantity) :
    (override m name r).get k = if r.1 = true ∧ name = k then some r.2 else m.get k := by
  unfold override
  by_cases h : r.1 = true
  · simp only [h, if_true, get_set, true_and]
  · simp [h]

theorem set_ne_nil (m : ResourceList) (k : ResourceName) (v : Quantity) : m.set k v ≠ [] := by
  cases m with
  | nil => simp [ResourceList.set]
  | cons a m => obtain ⟨k0, v0⟩ := a; unfold ResourceList.set; split_ifs <;> simp

theorem names_distinct :
    ResourceCPU ≠ ResourceMemory ∧ ResourceMemory ≠ ResourceCPU ∧
    ResourceCPU ≠ ResourceEphemeralStorage ∧ ResourceEphemeralStorage ≠ ResourceCPU ∧
    ResourceMemory ≠ ResourceEphemeralStorage ∧ ResourceEphemeralStorage ≠ ResourceMemory := by
  decide

theorem get_seededRequests (cfg : DeploymentConfig) (k : ResourceName) :
    (seededRequests cfg).get k = fixedRequest cfg k := by
  obtain ⟨n1, n2, n3, n4, n5, n6⟩ := names_distinct
  unfold seededRequests fixedRequest
  simp only [get_seed]
  have hnil : ResourceList.get [] k = none := rfl
  rw [hnil]
  by_cases h1 : k = ResourceCPU
  · subst h1
    rcases cfg.QueueSidecarCPURequest with _ | a <;> rcases cfg.QueueSidecarMemoryRequest with _ | b <;>
      rcases cfg.QueueSidecarEphemeralStorageRequest with _ | c <;> simp [n1, n2, n3, n4, n5, n6]
  · by_cases h2 : k = ResourceMemory
    · subst h2
      rcases cfg.QueueSidecarCPURequest with _ | a <;> rcases cfg.QueueSidecarMemoryRequest with _ | b <;>
        rcases cfg.QueueSidecarEphemeralStorageRequest with _ | c <;> simp [n1, n2, n3, n4, n5, n6]
    · by_cases h3 : k = ResourceEphemeralStorage
      · subst h3
        rcases cfg.QueueSidecarCPURequest with _ | a <;> rcases cfg.QueueSidecarMemoryRequest with _ | b <;>
          rcases cfg.QueueSidecarEphemeralStorageRequest with _ | c <;> simp [n1, n2, n3, n4, n5, n6]
      · have e1 : ¬ ResourceCPU = k := fun e => h1 e.symm
        have e2 : ¬ ResourceMemory = k := fun e => h2 e.symm
        have e3 : ¬ ResourceEphemeralStorage = k := fun e => h3 e.symm
        simp [h1, h2, h3, e1, e2, e3]

theorem get_seededLimits (cfg : DeploymentConfig) (k : ResourceName) :
    (seededLimits cfg).get k = fixedLimit cfg k := by
  obtain ⟨n1, n2, n3, n4, n5, n6⟩ := names_distinct
  unfold seededLimits fixedLimit
  simp only [get_seed]
  have hnil : ResourceList.get [] k = none := rfl
  rw [hnil]
  by_cases h1 : k = ResourceCPU
  · subst h1
    rcases cfg.QueueSidecarCPULimit with _ | a <;> rcases cfg.QueueSidecarMemoryLimit with _ | b <;>
      rcases cfg.QueueSidecarEphemeralStorageLimit with _ | c <;> simp [n1, n2, n3, n4, n5, n6]
  · by_cases h2 : k = ResourceMemory
    · subst h2
      rcases cfg.QueueSidecarCPULimit with _ | a <;> rcases cfg.QueueSidecarMemoryLimit with _ | b <;>
        rcases cfg.QueueSidecarEphemeralStorageLimit with _ | c <;> simp [n1, n2, n3, n4, n5, n6]
    · by_cases h3 : k = ResourceEphemeralStorage
      · subst h3
        rcases cfg.QueueSidecarCPULimit with _ | a <;> rcases cfg.QueueSidecarMemoryLimit with _ | b <;>
          rcases cfg.QueueSidecarEphemeralStorageLimit with _ | c <;> simp [n1, n2, n3, n4, n5, n6]
      · have e1 : ¬ ResourceCPU = k := fun e => h1 e.symm
        have e2 : ¬ ResourceMemory = k := fun e => h2 e.symm
        have e3 : ¬ ResourceEphemeralStorage = k := fun e => h3 e.symm
        simp [h1, h2, h3, e1, e2, e3]

/-- The requests map of the result, as the seeded map with the two stores. -/
theorem createQueueResources_requests (d : Decls) (cfg : DeploymentConfig) (ann : Annotations)
    (uc : Container) :
    (createQueueResources d cfg ann uc).Requests = some
      (if (fractionFromPercentage ann d.QueueSideCarResourcePercentageAnnotation).2 = true then
        override (override (seededRequests cfg) ResourceCPU
          (computeResourceRequirements (Cpu uc.Resources.Requests)
            (fractionFromPercentage ann d.QueueSideCarResourcePercentageAnnotation).1 d.queueContainerRequestCPU))
          ResourceMemory
          (computeResourceRequirements (Memory uc.Resources.Requests)
            (fractionFromPercentage ann d.QueueSideCarResourcePercentageAnnotation).1 d.queueContainerRequestMemory)
      else seededRequests cfg) := by
  unfold createQueueResources seededRequests
  rcases fractionFromPercentage ann d.QueueSideCarResourcePercentageAnnotation with ⟨f, ok⟩
  cases ok <;> simp

theorem createQueueResources_limits (d : Decls) (cfg : DeploymentConfig) (ann : Annotations)
    (uc : Container) :
    (createQueueResources d cfg ann uc).Limits =
      if (finalLimits d cfg ann uc).length ≠ 0 then some (finalLimits d cfg ann uc) else none := by
  unfold createQueueResources finalLimits seededLimits
  rcases fractionFromPercentage ann d.QueueSideCarResourcePercentageAnnotation with ⟨f, ok⟩
  cases ok <;> simp

theorem lookup_limits (d : Decls) (cfg : DeploymentConfig) (ann : Annotations) (uc : Container)
    (k : ResourceName) :
    lookupResource (createQueueResources d cfg ann uc).Limits k = (finalLimits d cfg ann uc).get k := by
  rw [createQueueResources_limits]
  by_cases h : (finalLimits d cfg ann uc).length ≠ 0
  · simp [h, lookupResource]
  · have h0 : finalLimits d cfg ann uc = [] := by
      simpa using h
    simp [h0, lookupResource, ResourceList.get]

/-- What the result holds at each of the four places. -/
theorem output_eq (s : Slot) (d : Decls) (cfg : DeploymentConfig) (ann : Annotations) (uc : Container) :
    s.output (createQueueResources d cfg ann uc) =
      if s.overridden d ann uc = true then
        some (computeResourceRequirements (s.source uc)
          (fractionFromPercentage ann d.QueueSideCarResourcePercentageAnnotation).1 (s.boundary d)).2
      else s.fixed cfg := by
  obtain ⟨n1, n2, n3, n4, n5, n6⟩ := names_distinct
  cases s <;>
    simp only [Slot.output, lookup_limits] <;>
    simp only [Slot.overridden, Slot.source, Slot.boundary, Slot.fixed,
      createQueueResources_requests, lookupResource, finalLimits] <;>
    by_cases hok : (fractionFromPercentage ann d.QueueSideCarResourcePercentageAnnotation).2 = true <;>
    simp [hok, get_override, get_seededRequests, get_seededLimits, fixedRequest, fixedLimit,
      n1, n2, n3, n4, n5, n6]

/-! ## Lemmas: floating point -/

theorem maxInt64AsFloat_eq : maxInt64AsFloat = F64.fin false 9007199254740992 10 := by decide

theorem ofInt_cap : F64.ofInt (MaxInt64 - 1) = F64.fin false 9007199254740992 10 := by decide

theorem round_cases (neg : Bool) (m : Nat) (e : Int) :
    F64.round neg m e = F64.inf neg ∨ ∃ m' e', F64.round neg m e = F64.fin neg m' e' := by
  unfold F64.round
  simp only []
  split_ifs <;> simp

/-- Below `2^63` the conversion to `int64` of a non-negative value is its integer part. -/
theorem toInt64_of_lt (m : Nat) (e : Int)
    (h : F64.lt (F64.fin false m e) maxInt64AsFloat = true) :
    F64.toInt64 (F64.fin false m e) = F64.truncFin false m e ∧
    0 ≤ F64.truncFin false m e ∧ F64.truncFin false m e ≤ MaxInt64 := by
  rw [maxInt64AsFloat_eq] at h
  simp only [F64.lt, F64.scaled, decide_eq_true_eq, Bool.false_eq_true, if_false] at h
  have hb : 0 ≤ F64.truncFin false m e ∧ F64.truncFin false m e ≤ MaxInt64 := by
    unfold F64.truncFin MaxInt64
    simp only [Bool.false_eq_true, if_false]
    refine ⟨Int.natCast_nonneg _, ?_⟩
    by_cases he : 0 ≤ e
    · simp only [he, if_true]
      by_cases h10 : 10 ≤ e
      · have hk : min e 10 = 10 := min_eq_right h10
        rw [hk] at h
        obtain ⟨a, ha⟩ : ∃ a : Nat, e = 10 + a := ⟨(e - 10).toNat, by omega⟩
        subst ha
        have e1 : (10 + (a : Int) - 10).toNat = a := by omega
        have e2 : ((10 : Int) - 10).toNat = 0 := by decide
        have e3 : (10 + (a : Int)).toNat = 10 + a := by omega
        rw [e1, e2] at h
        rw [e3, pow_add]
        have h' : m * 2 ^ a < 9007199254740992 := by
          have : ((m * 2 ^ a : Nat) : Int) < ((9007199254740992 : Nat) : Int) := by
            push_cast; simpa using h
          exact_mod_cast this
        have : m * (2 ^ 10 * 2 ^ a) = (m * 2 ^ a) * 1024 := by ring
        rw [this]
        have : (m * 2 ^ a) * 1024 ≤ 9223372036854775807 := by omega
        exact_mod_cast this
      · have hk : min e 10 = e := min_eq_left (by omega)
        rw [hk] at h
        obtain ⟨a, ha⟩ : ∃ a : Nat, e = a := ⟨e.toNat, by omega⟩
        subst ha
        have ha10 : a < 10 := by omega
        have e1 : ((a : Int) - a).toNat = 0 := by omega
        have e2 : ((10 : Int) - a).toNat = 10 - a := by omega
        have e3 : (a : Int).toNat = a := by omega
        rw [e1, e2] at h
        rw [e3]
        have h' : m < 9007199254740992 * 2 ^ (10 - a) := by
          have : ((m : Nat) : Int) < ((9007199254740992 * 2 ^ (10 - a) : Nat) : Int) := by
            push_cast; simpa using h
          exact_mod_cast this
        have hp : 2 ^ (10 - a) * 2 ^ a = 1024 := by
          rw [← pow_add]; have : 10 - a + a = 10 := by omega
          rw [this]; norm_num
        have : m * 2 ^ a < 9007199254740992 * 2 ^ (10 - a) * 2 ^ a :=
          Nat.mul_lt_mul_of_pos_right h' (by positivity)
        rw [mul_assoc, hp] at this
        have : m * 2 ^ a ≤ 9223372036854775807 := by omega
        exact_mod_cast this
    · simp only [he, if_false]
      have hk : min e 10 = e := min_eq_left (by omega)
      rw [hk] at h
      obtain ⟨a, ha⟩ : ∃ a : Nat, e = -(a : Int) := ⟨(-e).toNat, by omega⟩
      subst ha
      have e1 : (-(a : Int) - -(a : Int)).toNat = 0 := by omega
      have e2 : ((10 : Int) - -(a : Int)).toNat = 10 + a := by omega
      have e3 : (- -(a : Int)).toNat = a := by omega
      rw [e1, e2] at h
      rw [e3]
      have h' : m < 9007199254740992 * 2 ^ (10 + a) := by
        have : ((m : Nat) : Int) < ((9007199254740992 * 2 ^ (10 + a) : Nat) : Int) := by
          push_cast; simpa using h
        exact_mod_cast this
      have : m / 2 ^ a < 9223372036854775808 := by
        rw [Nat.div_lt_iff_lt_mul (by positivity)]
        calc m < 9007199254740992 * 2 ^ (10 + a) := h'
          _ = 9223372036854775808 * 2 ^ a := by rw [pow_add]; ring
      have : m / 2 ^ a ≤ 9223372036854775807 := by omega
      exact_mod_cast this
  refine ⟨?_, hb⟩
  unfold F64.toInt64 fitsInt64
  have : MinInt64 ≤ F64.truncFin false m e := le_trans (by decide) hb.1
  simp [this, hb.2]

/-! ## Lemmas: the milli conversion -/

theorem wrapInt64_of_fits (v : Int) (h : fitsInt64 v) : wrapInt64 v = v := by
  unfold fitsInt64 MinInt64 MaxInt64 at h
  unfold wrapInt64
  omega

theorem divAway_nonpos (n : Int) (d : Nat) (h : n ≤ 0) : divAway n d ≤ 0 := by
  unfold divAway
  simp only []
  by_cases h0 : n < 0
  · simp only [h0, if_true]; omega
  · have : n = 0 := by omega
    subst this
    simp

theorem divAway_mul_ge (n : Int) (d : Nat) (hn : 0 < n) (hd : 0 < d) :
    0 < divAway n d ∧ n ≤ divAway n d * d := by
  obtain ⟨k, rfl⟩ : ∃ k : Nat, n = k := ⟨n.toNat, by omega⟩
  have hk : 0 < k := by exact_mod_cast hn
  unfold divAway
  have hlt : ¬ ((k : Int) < 0) := by omega
  simp only [hlt, if_false, Int.natAbs_ofNat]
  have hdm := Nat.div_add_mod k d
  have hml := Nat.mod_lt k hd
  by_cases hm : k % d = 0
  · simp only [hm, if_true]
    rw [hm] at hdm
    have h1 : k = k / d * d := by rw [Nat.mul_comm]; omega
    have h2 : 0 < k / d := by
      rcases Nat.eq_zero_or_pos (k / d) with h0 | h0
      · rw [h0] at h1; omega
      · exact h0
    constructor
    · exact_mod_cast h2
    · have : k ≤ k / d * d := by omega
      exact_mod_cast this
  · simp only [hm, if_false]
    constructor
    · exact_mod_cast Nat.succ_pos _
    · have : k ≤ (k / d + 1) * d := by
        rw [Nat.add_mul, Nat.mul_comm (k / d) d]; omega
      exact_mod_cast this

theorem divAway_le (n : Int) (d : Nat) (N : Int) (hn : 0 < n) (hd : 0 < d) (h : n ≤ N * d) :
    divAway n d ≤ N := by
  obtain ⟨k, rfl⟩ : ∃ k : Nat, n = k := ⟨n.toNat, by omega⟩
  have hN : 0 ≤ N := by
    by_contra hneg
    have : N * (d : Int) < 0 := mul_neg_of_neg_of_pos (by omega) (by exact_mod_cast hd)
    omega
  obtain ⟨M, rfl⟩ : ∃ M : Nat, N = M := ⟨N.toNat, by omega⟩
  have h' : k ≤ M * d := by exact_mod_cast h
  unfold divAway
  have hlt : ¬ ((k : Int) < 0) := by omega
  simp only [hlt, if_false, Int.natAbs_ofNat]
  by_cases hm : k % d = 0
  · simp only [hm, if_true]
    have : k / d ≤ M := Nat.div_le_of_le_mul (by rw [Nat.mul_comm]; exact h')
    exact_mod_cast this
  · simp only [hm, if_false]
    have hne : k ≠ M * d := by
      intro e; rw [e] at hm; simp at hm
    have : k / d < M := by
      rw [Nat.div_lt_iff_lt_mul hd]; omega
    have : k / d + 1 ≤ M := this
    exact_mod_cast this

theorem scaledExact_nonpos (q : Quantity) (scale : Int) (h : q.unscaled ≤ 0) :
    q.scaledExact scale ≤ 0 := by
  unfold Quantity.scaledExact
  split_ifs
  · exact mul_nonpos_of_nonpos_of_nonneg h (by positivity)
  · exact divAway_nonpos _ _ h

/-- For a positive quantity the milli value is at most a thousand times the value in
whole units, both rounded up. -/
theorem milli_le_whole (q : Quantity) (h : 0 < q.unscaled) :
    q.scaledExact (-3) ≤ 1000 * q.scaledExact 0 := by
  unfold Quantity.scaledExact
  by_cases h0 : 0 ≤ q.scale
  · have h3 : (-3 : Int) ≤ q.scale := by omega
    simp only [h0, h3, if_true]
    obtain ⟨a, ha⟩ : ∃ a : Nat, q.scale = a := ⟨q.scale.toNat, by omega⟩
    rw [ha]
    have e1 : ((a : Int) - -3).toNat = a + 3 := by omega
    have e2 : ((a : Int) - 0).toNat = a := by omega
    rw [e1, e2, pow_add]
    have : q.unscaled * (10 ^ a * 10 ^ 3) = 1000 * (q.unscaled * 10 ^ a) := by ring
    rw [this]
  · simp only [h0, if_false]
    obtain ⟨a, ha⟩ : ∃ a : Nat, q.scale = -(a : Int) := ⟨(-q.scale).toNat, by omega⟩
    have ha0 : 0 < a := by omega
    have e2 : ((0 : Int) - q.scale).toNat = a := by omega
    rw [e2]
    have hw := divAway_mul_ge q.unscaled (10 ^ a) h (by positivity)
    by_cases h3 : (-3 : Int) ≤ q.scale
    · simp only [h3, if_true]
      have e1 : (q.scale - -3).toNat = 3 - a := by omega
      rw [e1]
      have hp : (10 : Int) ^ a * 10 ^ (3 - a) = 1000 := by
        rw [← pow_add]; have : a + (3 - a) = 3 := by omega
        rw [this]; norm_num
      have hpos : (0 : Int) ≤ 10 ^ (3 - a) := by positivity
      have := mul_le_mul_of_nonneg_right hw.2 hpos
      calc q.unscaled * 10 ^ (3 - a) ≤ divAway q.unscaled (10 ^ a) * ((10 ^ a : Nat) : Int) * 10 ^ (3 - a) := this
        _ = 1000 * divAway q.unscaled (10 ^ a) := by
          push_cast; rw [mul_assoc, hp]; ring
    · simp only [h3, if_false]
      have e1 : ((-3 : Int) - q.scale).toNat = a - 3 := by omega
      rw [e1]
      apply divAway_le _ _ _ h (by positivity)
      have hp : (1000 : Int) * 10 ^ (a - 3) = 10 ^ a := by
        have : a = 3 + (a - 3) := by omega
        conv_rhs => rw [this, pow_add]
        norm_num
      calc q.unscaled ≤ divAway q.unscaled (10 ^ a) * ((10 ^ a : Nat) : Int) := hw.2
        _ = 1000 * divAway q.unscaled (10 ^ a) * ((10 ^ (a - 3) : Nat) : Int) := by
          push_cast; rw [← hp]; ring

theorem pos_of_le (a x : Quantity) (ha : 0 < a.unscaled) (h : a.le x) : 0 < x.unscaled := by
  unfold Quantity.le Quantity.Cmp at h
  simp only [] at h
  have hA : 0 < a.unscaled * 10 ^ (a.scale - min a.scale x.scale).toNat :=
    mul_pos ha (by positivity)
  have hp : (0 : Int) < 10 ^ (x.scale - min a.scale x.scale).toNat := by positivity
  have hX : 0 < x.unscaled * 10 ^ (x.scale - min a.scale x.scale).toNat := by
    split_ifs at h with h1 h2
    · omega
    · exact absurd rfl h
    · omega
  exact pos_of_mul_pos_left hX hp.le

/-! ## Lemmas: whole seconds -/

theorem log2Aux_le (fuel : Nat) : ∀ (n b : Nat), n < 2 ^ (b + 1) → F64.log2Aux fuel n ≤ b := by
  induction fuel with
  | zero => intro n b _; simp [F64.log2Aux]
  | succ fuel ih =>
    intro n b h
    unfold F64.log2Aux
    by_cases h2 : n < 2
    · simp [h2]
    · simp only [h2, if_false]
      cases b with
      | zero => simp at h; omega
      | succ b =>
        have : n / 2 < 2 ^ (b + 1) := by
          rw [Nat.div_lt_iff_lt_mul (by decide)]
          rw [pow_succ] at h
          exact h
        have := ih (n / 2) b this
        omega

/-- A natural number below `2^53` converts to `float64` without rounding. -/
theorem round_exact (m : Nat) (h : m < 2 ^ 53) : F64.round false m 0 = F64.fin false m 0 := by
  unfold F64.round
  by_cases h0 : m = 0
  · subst h0; simp
  · simp only [h0, if_false]
    have hl : F64.log2 m ≤ 52 := log2Aux_le m m 52 h
    have h1 : max ((0 : Int) + (F64.log2 m : Int) - 52) (-1074) ≤ 0 := by
      apply max_le <;> omega
    have h2 : ¬ (1023 : Int) < 0 + (F64.log2 m : Int) := by omega
    simp only [h1, h2, if_true, if_false]

/-- A deadline of a whole number of seconds below `2^31` has that number as its
`int32(d.Seconds())`: the conversion is exact. -/
theorem wholeSeconds_exact (k : Int) (h0 : 0 ≤ k) (h1 : k < 2147483648) :
    toInt32 (durationSeconds (k * 1000000000)) = k := by
  obtain ⟨n, rfl⟩ : ∃ n : Nat, k = n := ⟨k.toNat, by omega⟩
  have hn : n < 2147483648 := by exact_mod_cast h1
  unfold durationSeconds
  have e1 : Int.tdiv ((n : Int) * 1000000000) 1000000000 = n :=
    Int.mul_tdiv_cancel _ (by decide)
  have e2 : Int.tmod ((n : Int) * 1000000000) 1000000000 = 0 := Int.mul_tmod_left _ _
  rw [e1, e2]
  have e3 : F64.div (F64.ofInt 0) (F64.ofInt 1000000000) = F64.fin false 0 0 := by decide
  have e4 : F64.ofInt (n : Int) = F64.fin false n 0 := by
    unfold F64.ofInt
    have : ¬ ((n : Int) < 0) := by omega
    simp only [this, decide_False, Int.natAbs_ofNat]
    exact round_exact n (by omega)
  rw [e3, e4]
  unfold F64.add
  simp only [min_self, sub_self, Int.toNat_zero, pow_zero, mul_one, Bool.false_eq_true, if_false,
    Nat.cast_zero, add_zero, Int.natAbs_ofNat, Bool.and_self]
  by_cases hz : (n : Int) = 0
  · have : n = 0 := by exact_mod_cast hz
    subst this
    decide
  · have hlt : ¬ ((n : Int) < 0) := by omega
    simp only [hz, if_false, hlt, decide_False]
    rw [round_exact n (by omega)]
    unfold toInt32 F64.truncFin
    simp
    omega

/-! ## Lemmas: feature flags -/

theorem equalFoldList_length : ∀ (a b : List Char), equalFoldList a b = true → a.length = b.length := by
  intro a
  induction a with
  | nil => intro b h; cases b with
    | nil => rfl
    | cons t ts => simp [equalFoldList] at h
  | cons c cs ih => intro b h; cases b with
    | nil => simp [equalFoldList] at h
    | cons t ts =>
      simp only [equalFoldList, Bool.and_eq_true] at h
      simp [ih ts h.2]

theorem enabled_not_allowed (raw : String) (h : EqualFold raw Enabled = true) :
    EqualFold raw Allowed = false := by
  unfold EqualFold at *
  have e1 : Enabled.toList = ['E', 'n', 'a', 'b', 'l', 'e', 'd'] := by decide
  have e2 : Allowed.toList = ['A', 'l', 'l', 'o', 'w', 'e', 'd'] := by decide
  rw [e1] at h
  rw [e2]
  cases hr : raw.toList with
  | nil => rfl
  | cons c cs =>
    rw [hr] at h
    simp only [equalFoldList, Bool.and_eq_true] at h
    have hE := h.1
    have n1 : ('E' : Char).toNat = 69 := by decide
    have n2 : ('A' : Char).toNat = 65 := by decide
    have hA : foldEq c 'A' = false := by
      unfold foldEq at hE ⊢
      rw [n1] at hE
      rw [n2]
      simp at hE ⊢
      omega
    simp [equalFoldList, hA]

theorem disabled_not_others (raw : String) (h : EqualFold raw Disabled = true) :
    EqualFold raw Enabled = false ∧ EqualFold raw Allowed = false := by
  unfold EqualFold at *
  have hl := equalFoldList_length _ _ h
  have l1 : Disabled.toList.length = 8 := by decide
  have l2 : Enabled.toList.length = 7 := by decide
  have l3 : Allowed.toList.length = 7 := by decide
  rw [l1] at hl
  constructor
  · by_contra hc
    have h7 := equalFoldList_length raw.toList Enabled.toList (by simpa using hc)
    rw [l2, hl] at h7
    exact absurd h7 (by decide)
  · by_contra hc
    have h7 := equalFoldList_length raw.toList Allowed.toList (by simpa using hc)
    rw [l3, hl] at h7
    exact absurd h7 (by decide)

theorem asFlag_eq (key : String) (data : List (String × String)) (t : Flag) :
    asFlag key data t = Except.ok (parsedFlag key data t) := by
  unfold asFlag parsedFlag canonicalFlags
  cases List.lookup key data with
  | none => rfl
  | some raw =>
    simp only []
    cases List.find? (fun flag => EqualFold raw flag) [Enabled, Allowed, Disabled] <;> rfl

theorem parsedFlag_spec (key : String) (data : List (String × String)) (dflt : Flag) :
    FlagSpec data key dflt (parsedFlag key data dflt) := by
  unfold FlagSpec parsedFlag canonicalFlags
  refine ⟨?_, ?_, ?_⟩
  · intro raw flag hl hf he
    rw [hl]
    simp only [List.mem_cons, List.mem_singleton, List.not_mem_nil, or_false] at hf
    rcases hf with rfl | rfl | rfl
    · simp [List.find?, he]
    · have h1 : EqualFold raw Enabled = false := by
        by_contra hc
        have := enabled_not_allowed raw (by simpa using hc)
        rw [he] at this; exact absurd this (by decide)
      simp [List.find?, he, h1]
    · have := disabled_not_others raw he
      simp [List.find?, he, this.1, this.2]
  · intro hl; rw [hl]
  · intro raw hl hn
    rw [hl]
    have h1 := hn Enabled (by simp)
    have h2 := hn Allowed (by simp)
    have h3 := hn Disabled (by simp)
    simp [List.find?, h1, h2, h3]

theorem parsedFlag_canonical (key : String) (data : List (String × String)) (dflt : Flag)
    (hd : dflt ∈ canonicalFlags) : parsedFlag key data dflt ∈ canonicalFlags := by
  unfold parsedFlag
  cases List.lookup key data with
  | none => exact hd
  | some raw =>
    simp only []
    cases hf : List.find? (fun flag => EqualFold raw flag) canonicalFlags with
    | none => exact hd
    | some flag => exact List.mem_of_find?_eq_some hf

/-! ## Lemmas: seconds with a fraction -/

theorem le_log2Aux (fuel : Nat) : ∀ (n b : Nat), n ≤ fuel → 2 ^ b ≤ n → b ≤ F64.log2Aux fuel n := by
  induction fuel with
  | zero =>
    intro n b h1 h2
    have : 0 < 2 ^ b := by positivity
    omega
  | succ fuel ih =>
    intro n b h1 h2
    unfold F64.log2Aux
    by_cases hn : n < 2
    · simp only [hn, if_true]
      cases b with
      | zero => exact le_refl _
      | succ b =>
        have : 2 ^ 1 ≤ 2 ^ (b + 1) := Nat.pow_le_pow_right (by decide) (by omega)
        omega
    · simp only [hn, if_false]
      cases b with
      | zero => omega
      | succ b =>
        have h3 : 2 ^ b ≤ n / 2 := by
          rw [Nat.le_div_iff_mul_le (by decide)]
          rw [pow_succ] at h2
          exact h2
        have := ih (n / 2) b (by omega) h3
        omega

/-- The two facts about rounding a quotient that the bounds below use. -/
theorem roundShift_bounds (m s : Nat) (hs : 0 < s) :
    m / 2 ^ s ≤ F64.roundShift m s ∧ F64.roundShift m s * 2 ^ s ≤ m + 2 ^ (s - 1) := by
  unfold F64.roundShift
  have hs0 : ¬ s = 0 := by omega
  simp only [hs0, if_false]
  have hp : 2 ^ s = 2 * 2 ^ (s - 1) := by
    conv_lhs => rw [show s = (s - 1) + 1 by omega, pow_succ]
    ring
  have hdm := Nat.div_add_mod m (2 ^ s)
  have hH : 0 < 2 ^ (s - 1) := by positivity
  split_ifs with hc
  · refine ⟨by omega, ?_⟩
    have hr : 2 ^ (s - 1) ≤ m % 2 ^ s := by
      rcases hc with h | h
      · omega
      · omega
    have : (m / 2 ^ s + 1) * 2 ^ s = 2 ^ s * (m / 2 ^ s) + 2 ^ s := by ring
    rw [this]
    omega
  · refine ⟨le_refl _, ?_⟩
    have : m / 2 ^ s * 2 ^ s = 2 ^ s * (m / 2 ^ s) := by ring
    rw [this]
    omega

/-- Rounding keeps the integer part: an exact value `m * 2^(-a)` in the interval from
`N` to below `N + 1 - 2^(-30)`, with `N < 2^24`, rounds to a `float64` whose `int32`
conversion is `N`. -/
theorem round_trunc (m a N : Nat) (hN : N < 2 ^ 24) (h1 : N * 2 ^ a ≤ m)
    (h2 : m * 2 ^ 30 + 2 ^ a < (N + 1) * 2 ^ 30 * 2 ^ a) :
    toInt32 (F64.round false m (-(a : Int))) = N := by
  have hA : 0 < 2 ^ a := by positivity
  have hint : ∀ x : Nat, x = N → toInt32 (F64.fin false x 0) = N := by
    intro x hx
    subst hx
    unfold toInt32 F64.truncFin
    simp
    omega
  by_cases hm : m = 0
  · subst hm
    have hN0 : N = 0 := by
      rcases Nat.eq_zero_or_pos N with h | h
      · exact h
      · have : 0 < N * 2 ^ a := Nat.mul_pos h hA
        omega
    subst hN0
    unfold F64.round
    simp only [if_true]
    exact hint 0 rfl
  · have hlt : m < (N + 1) * 2 ^ a := by
      by_contra hge
      have hge' : (N + 1) * 2 ^ a ≤ m := by omega
      have := Nat.mul_le_mul_right (2 ^ 30) hge'
      have e : (N + 1) * 2 ^ a * 2 ^ 30 = (N + 1) * 2 ^ 30 * 2 ^ a := by ring
      omega
    have hm24 : m < 2 ^ (23 + a + 1) := by
      have : (N + 1) * 2 ^ a ≤ 2 ^ 24 * 2 ^ a := Nat.mul_le_mul_right _ (by omega)
      have e : 2 ^ (23 + a + 1) = 2 ^ 24 * 2 ^ a := by
        rw [show 23 + a + 1 = 24 + a by omega, pow_add]
      omega
    have hL : F64.log2 m ≤ 23 + a := log2Aux_le m m (23 + a) hm24
    unfold F64.round
    simp only [hm, if_false]
    have hmax : max (-(a : Int) + (F64.log2 m : Int) - 52) (-1074) ≤ -29 := by
      apply max_le <;> omega
    generalize max (-(a : Int) + (F64.log2 m : Int) - 52) (-1074) = u at hmax ⊢
    by_cases hx : u ≤ -(a : Int)
    · have h3 : ¬ (1023 : Int) < -(a : Int) + (F64.log2 m : Int) := by omega
      simp only [hx, h3, if_true, if_false]
      unfold toInt32 F64.truncFin
      by_cases ha : a = 0
      · subst ha
        simp only [pow_zero, mul_one] at h1 hlt
        have : m = N := by omega
        subst this
        simp
        omega
      · have hneg : ¬ (0 : Int) ≤ -(a : Int) := by omega
        have e1 : (- -(a : Int)).toNat = a := by omega
        simp only [hneg, if_false, e1, Bool.false_eq_true]
        have hq : m / 2 ^ a = N := by
          have l1 : N ≤ m / 2 ^ a := (Nat.le_div_iff_mul_le hA).2 h1
          have l2 : m / 2 ^ a < N + 1 := (Nat.div_lt_iff_lt_mul hA).2 hlt
          omega
        rw [hq]
        have c1 : (-2147483648 : Int) ≤ (N : Int) := by omega
        have c2 : (N : Int) ≤ 2147483647 := by
          have : N ≤ 2147483647 := by omega
          exact_mod_cast this
        simp [c1, c2]
    · have h4 : ¬ ((971 : Int) < u ∨ (u = 971 ∧ 2 ^ 53 ≤ F64.roundShift m (u - -(a : Int)).toNat)) := by
        rintro (h | ⟨h, _⟩) <;> omega
      simp only [hx, h4, if_false]
      obtain ⟨U, rfl⟩ : ∃ U : Nat, u = -(U : Int) := ⟨(-u).toNat, by omega⟩
      have hU : 29 ≤ U := by omega
      have haU : U < a := by omega
      have es : (-(U : Int) - -(a : Int)).toNat = a - U := by omega
      rw [es]
      obtain ⟨b1, b2⟩ := roundShift_bounds m (a - U) (by omega)
      generalize F64.roundShift m (a - U) = r at b1 b2 ⊢
      have hV : 0 < 2 ^ U := by positivity
      have hP : 0 < 2 ^ (a - U) := by positivity
      have hAV : 2 ^ a = 2 ^ U * 2 ^ (a - U) := by
        rw [← pow_add]; congr 1; omega
      have hPH : 2 ^ (a - U) = 2 * 2 ^ (a - U - 1) := by
        conv_lhs => rw [show a - U = (a - U - 1) + 1 by omega, pow_succ]
        ring
      have hV29 : 2 ^ 29 ≤ 2 ^ U := Nat.pow_le_pow_right (by decide) hU
      have low : N * 2 ^ U ≤ r := by
        have : N * 2 ^ U ≤ m / 2 ^ (a - U) := by
          rw [Nat.le_div_iff_mul_le hP]
          calc N * 2 ^ U * 2 ^ (a - U) = N * 2 ^ a := by rw [hAV]; ring
            _ ≤ m := h1
        omega
      have high : r < (N + 1) * 2 ^ U := by
        by_contra hge
        have hge' : (N + 1) * 2 ^ U ≤ r := by omega
        have k1 : (N + 1) * 2 ^ U * 2 ^ (a - U) ≤ r * 2 ^ (a - U) := Nat.mul_le_mul_right _ hge'
        have k2 : (N + 1) * 2 ^ a ≤ m + 2 ^ (a - U - 1) := by
          calc (N + 1) * 2 ^ a = (N + 1) * 2 ^ U * 2 ^ (a - U) := by rw [hAV]; ring
            _ ≤ r * 2 ^ (a - U) := k1
            _ ≤ m + 2 ^ (a - U - 1) := b2
        have k3 : (N + 1) * 2 ^ a * 2 ^ 30 ≤ (m + 2 ^ (a - U - 1)) * 2 ^ 30 := Nat.mul_le_mul_right _ k2
        have k4 : 2 ^ a = 2 ^ U * (2 * 2 ^ (a - U - 1)) := by rw [hAV, hPH]
        have k5 : 2 ^ 29 * 2 ^ (a - U - 1) ≤ 2 ^ U * 2 ^ (a - U - 1) := Nat.mul_le_mul_right _ hV29
        have e1 : (N + 1) * 2 ^ a * 2 ^ 30 = (N + 1) * 2 ^ 30 * 2 ^ a := by ring
        have e2 : (m + 2 ^ (a - U - 1)) * 2 ^ 30 = m * 2 ^ 30 + 2 * (2 ^ 29 * 2 ^ (a - U - 1)) := by ring
        have e3 : 2 ^ a = 2 * (2 ^ U * 2 ^ (a - U - 1)) := by rw [k4]; ring
        omega
      unfold toInt32 F64.truncFin
      have hneg : ¬ (0 : Int) ≤ -(U : Int) := by omega
      have e1 : (- -(U : Int)).toNat = U := by omega
      simp only [hneg, if_false, e1, Bool.false_eq_true]
      have hq : r / 2 ^ U = N := by
        have l1 : N ≤ r / 2 ^ U := (Nat.le_div_iff_mul_le hV).2 low
        have l2 : r / 2 ^ U < N + 1 := (Nat.div_lt_iff_lt_mul hV).2 high
        omega
      rw [hq]
      have c1 : (-2147483648 : Int) ≤ (N : Int) := by omega
      have c2 : (N : Int) ≤ 2147483647 := by
        have : N ≤ 2147483647 := by omega
        exact_mod_cast this
      simp [c1, c2]

theorem ofInt_nat (n : Nat) (h : n < 2 ^ 53) : F64.ofInt (n : Int) = F64.fin false n 0 := by
  unfold F64.ofInt
  have : ¬ ((n : Int) < 0) := by omega
  simp only [this, decide_False, Int.natAbs_ofNat]
  exact round_exact n h

/-- The fraction of a second as a `float64`: for `0 < ns < 10^9` the quotient
`float64(ns) / 1e9` is a finite value below `1 - 2^(-30)`. -/
theorem frac_bound (ns : Nat) (h0 : 0 < ns) (h1 : ns < 1000000000) :
    ∃ r A : Nat, F64.div (F64.ofInt (ns : Int)) (F64.ofInt 1000000000) = F64.fin false r (-(A : Int)) ∧
      r * 2 ^ 30 + 2 ^ A < 2 ^ 30 * 2 ^ A := by
  have e1 : F64.ofInt (ns : Int) = F64.fin false ns 0 := ofInt_nat ns (by omega)
  have e2 : F64.ofInt 1000000000 = F64.fin false 1000000000 0 := by decide
  have e3 : F64.log2 1000000000 = 29 := by decide
  rw [e1, e2]
  have hns : ¬ ns = 0 := by omega
  simp only [F64.div, hns, if_false, Nat.reduceEqDiff, F64.roundRat, e3, Bool.xor_false, sub_self]
  -- the quotient with its sticky bit
  have hq1 : 2 ^ 94 / 1000000000 ≤ ns * 2 ^ 94 / 1000000000 :=
    Nat.div_le_div_right (by
      calc 2 ^ 94 = 1 * 2 ^ 94 := by ring
        _ ≤ ns * 2 ^ 94 := Nat.mul_le_mul_right _ h0)
  have hq2 : ns * 2 ^ 94 / 1000000000 ≤ 999999999 * 2 ^ 94 / 1000000000 :=
    Nat.div_le_div_right (Nat.mul_le_mul_right _ (by omega))
  have c1 : 2 ^ 94 / 1000000000 = 19807040628566084398 := by norm_num
  have c2 : 999999999 * 2 ^ 94 / 1000000000 = 19807040608759043769819903185 := by norm_num
  rw [c1] at hq1
  rw [c2] at hq2
  have hk : 65 + 29 = 94 := rfl
  simp only [hk]
  have hst : (if ns * 2 ^ 94 % 1000000000 = 0 then 0 else 1) ≤ 1 := by split_ifs <;> omega
  generalize ns * 2 ^ 94 / 1000000000 = q at hq1 hq2 ⊢
  generalize (if ns * 2 ^ 94 % 1000000000 = 0 then 0 else 1) = sticky at hst ⊢
  have hM1 : 2 ^ 65 ≤ 2 * q + sticky := by norm_num; omega
  have hM2 : 2 * q + sticky ≤ 39614081217518087539639806371 := by omega
  generalize 2 * q + sticky = M at hM1 hM2 ⊢
  have he : ((0 : Int) - ((94 : Nat) : Int) - 1) = -95 := by norm_num
  rw [he]
  have hL1 : 65 ≤ F64.log2 M := le_log2Aux M M 65 (le_refl _) hM1
  have hL2 : F64.log2 M ≤ 94 := log2Aux_le M M 94 (by norm_num; omega)
  have hM0 : ¬ M = 0 := by
    intro h; rw [h] at hM1; norm_num at hM1
  unfold F64.round
  simp only [hM0, if_false]
  have hmax : max ((-95 : Int) + (F64.log2 M : Int) - 52) (-1074) = -((147 - F64.log2 M : Nat) : Int) := by
    rw [max_eq_left (by omega)]; omega
  rw [hmax]
  have hx : ¬ (-((147 - F64.log2 M : Nat) : Int) ≤ -95) := by omega
  have hs : (-((147 - F64.log2 M : Nat) : Int) - -95).toNat = F64.log2 M - 52 := by omega
  have hinf : ¬ ((971 : Int) < -((147 - F64.log2 M : Nat) : Int) ∨
      (-((147 - F64.log2 M : Nat) : Int) = 971 ∧ 2 ^ 53 ≤ F64.roundShift M (F64.log2 M - 52))) := by
    rintro (h | ⟨h, _⟩) <;> omega
  simp only [hx, hs, hinf, if_false]
  refine ⟨_, _, rfl, ?_⟩
  obtain ⟨_, b2⟩ := roundShift_bounds M (F64.log2 M - 52) (by omega)
  generalize F64.roundShift M (F64.log2 M - 52) = r at b2 ⊢
  generalize hLdef : F64.log2 M = L at hL1 hL2 b2 ⊢
  have hH : 2 ^ (L - 52 - 1) ≤ 2 ^ 41 := Nat.pow_le_pow_right (by decide) (by omega)
  have hprod : 2 ^ (147 - L) * 2 ^ (L - 52) = 2 ^ 95 := by
    rw [← pow_add]; congr 1; omega
  have hP : 0 < 2 ^ (L - 52) := by positivity
  by_contra hge
  have hge' : 2 ^ 30 * 2 ^ (147 - L) ≤ r * 2 ^ 30 + 2 ^ (147 - L) := by omega
  have k1 := Nat.mul_le_mul_right (2 ^ (L - 52)) hge'
  have e1 : 2 ^ 30 * 2 ^ (147 - L) * 2 ^ (L - 52) = 2 ^ 30 * 2 ^ 95 := by rw [mul_assoc, hprod]
  have e2 : (r * 2 ^ 30 + 2 ^ (147 - L)) * 2 ^ (L - 52) = r * 2 ^ (L - 52) * 2 ^ 30 + 2 ^ 95 := by
    rw [add_mul, hprod]; ring
  rw [e1, e2] at k1
  have k2 : r * 2 ^ (L - 52) * 2 ^ 30 ≤ (M + 2 ^ (L - 52 - 1)) * 2 ^ 30 := Nat.mul_le_mul_right _ b2
  have k3 : (M + 2 ^ (L - 52 - 1)) * 2 ^ 30 ≤ (39614081217518087539639806371 + 2 ^ 41) * 2 ^ 30 :=
    Nat.mul_le_mul_right _ (by omega)
  norm_num at k1 k2 k3
  omega

/-- Below `2^24` seconds the conversion `int32(d.Seconds())` of a non-negative duration
drops the fraction: it is the number of whole seconds of `d`. -/
theorem seconds_truncated (d : Int) (h0 : 0 ≤ d) (h1 : d < 16777216000000000) :
    toInt32 (durationSeconds d) = d / 1000000000 := by
  obtain ⟨n, rfl⟩ : ∃ n : Nat, d = n := ⟨d.toNat, by omega⟩
  have hn : n < 16777216000000000 := by exact_mod_cast h1
  have hsec : n / 1000000000 < 2 ^ 24 := by
    rw [Nat.div_lt_iff_lt_mul (by decide)]; norm_num; omega
  have hns : n % 1000000000 < 1000000000 := Nat.mod_lt _ (by decide)
  unfold durationSeconds
  have e1 : Int.tdiv (n : Int) 1000000000 = ((n / 1000000000 : Nat) : Int) := rfl
  have e2 : Int.tmod (n : Int) 1000000000 = ((n % 1000000000 : Nat) : Int) := rfl
  have e3 : ((n : Int) / 1000000000) = ((n / 1000000000 : Nat) : Int) := rfl
  rw [e1, e2, e3]
  generalize n / 1000000000 = sec at hsec ⊢
  generalize n % 1000000000 = ns at hns ⊢
  rw [ofInt_nat sec (by
    have : (2 : Nat) ^ 24 ≤ 2 ^ 53 := Nat.pow_le_pow_right (by decide) (by decide)
    omega)]
  by_cases hz : ns = 0
  · subst hz
    have e4 : F64.div (F64.ofInt ((0 : Nat) : Int)) (F64.ofInt 1000000000) = F64.fin false 0 0 := by
      decide
    rw [e4]
    unfold F64.add
    simp only [min_self, sub_self, Int.toNat_zero, pow_zero, mul_one, Bool.false_eq_true, if_false,
      Nat.cast_zero, add_zero, Int.natAbs_ofNat, Bool.and_self]
    by_cases hs0 : (sec : Int) = 0
    · have : sec = 0 := by exact_mod_cast hs0
      subst this
      decide
    · have hlt : ¬ ((sec : Int) < 0) := by omega
      simp only [hs0, if_false, hlt, decide_False]
      have := round_trunc sec 0 sec hsec (by simp) (by norm_num; omega)
      simpa using this
  · obtain ⟨r, A, hdiv, hb⟩ := frac_bound ns (by omega) hns
    rw [hdiv]
    unfold F64.add
    have hk : min (0 : Int) (-(A : Int)) = -(A : Int) := min_eq_right (by omega)
    have t1 : ((0 : Int) - -(A : Int)).toNat = A := by omega
    have t2 : (-(A : Int) - -(A : Int)).toNat = 0 := by omega
    simp only [hk, t1, t2, pow_zero, mul_one, Bool.false_eq_true, if_false, Bool.and_self]
    have hsum : (sec : Int) * 2 ^ A + (r : Int) = ((sec * 2 ^ A + r : Nat) : Int) := by push_cast; ring
    rw [hsum]
    by_cases hs0 : ((sec * 2 ^ A + r : Nat) : Int) = 0
    · simp only [hs0, if_true]
      have h00 : sec * 2 ^ A + r = 0 := by exact_mod_cast hs0
      have hA : 0 < 2 ^ A := by positivity
      have : sec = 0 := by
        rcases Nat.eq_zero_or_pos sec with h | h
        · exact h
        · have : 0 < sec * 2 ^ A := Nat.mul_pos h hA
          omega
      subst this
      decide
    · have hlt : ¬ (((sec * 2 ^ A + r : Nat) : Int) < 0) := by omega
      simp only [hs0, if_false, hlt, decide_False, Int.natAbs_ofNat]
      apply round_trunc _ A sec hsec (by omega)
      have e : (sec * 2 ^ A + r) * 2 ^ 30 + 2 ^ A = sec * 2 ^ A * 2 ^ 30 + (r * 2 ^ 30 + 2 ^ A) := by ring
      have e' : (sec + 1) * 2 ^ 30 * 2 ^ A = sec * 2 ^ A * 2 ^ 30 + 2 ^ 30 * 2 ^ A := by ring
      rw [e, e']
      omega

/-! ## Lemmas: the scaling functions of the quantity library -/

theorem int64MultiplyScale_exact (a b : Int) (hb : 1 < b) (h : fitsInt64 (a * b)) :
    int64MultiplyScale a b = (a * b, true) := by
  unfold int64MultiplyScale
  by_cases h01 : a = 0 ∨ a = 1
  · simp only [h01, if_true]
  · simp only [h01, if_false]
    have hmin : ¬ (a = MinInt64 ∧ b ≠ 1) := by
      rintro ⟨ha, -⟩
      subst ha
      unfold fitsInt64 MinInt64 MaxInt64 at h
      have : (-9223372036854775808 : Int) * b ≤ -9223372036854775808 * 2 := by
        have : (2 : Int) ≤ b := by omega
        nlinarith
      omega
    simp only [hmin, if_false]
    rw [wrapInt64_of_fits _ h]
    have : Int.tdiv (a * b) b = a := Int.mul_tdiv_cancel _ (by omega)
    simp [this]

theorem int64MultiplyScale_zero (b : Int) : int64MultiplyScale 0 b = (0, true) := by
  simp [int64MultiplyScale]

theorem positiveScaleLoop_zero (n : Nat) : positiveScaleLoop n 0 = (0, true) := by
  induction n with
  | zero => rfl
  | succ n ih =>
    unfold positiveScaleLoop
    rw [int64MultiplyScale_zero]
    simpa using ih

theorem fits_of_mul_pow (a : Int) (d : Int) (hd : 1 ≤ d) (h : fitsInt64 (a * d)) :
    fitsInt64 a := by
  unfold fitsInt64 MinInt64 MaxInt64 at *
  constructor
  · by_contra hc
    have : a * d ≤ a * 1 := by nlinarith
    omega
  · by_contra hc
    have : a * 1 ≤ a * d := by nlinarith
    omega

theorem positiveScaleLoop_exact (n : Nat) : ∀ (a : Int), fitsInt64 (a * 10 ^ n) →
    positiveScaleLoop n a = (a * 10 ^ n, true) := by
  induction n with
  | zero => intro a _; simp [positiveScaleLoop]
  | succ n ih =>
    intro a h
    have e : a * 10 ^ (n + 1) = (a * 10) * 10 ^ n := by ring
    rw [e] at h
    have h10 : fitsInt64 (a * 10) := fits_of_mul_pow (a * 10) (10 ^ n) (by exact one_le_pow₀ (by norm_num)) h
    unfold positiveScaleLoop
    rw [int64MultiplyScale_exact a 10 (by norm_num) h10]
    simp only [if_true]
    rw [ih (a * 10) h, e]

theorem positiveScaleInt64_exact (a : Int) (n : Nat) (h : fitsInt64 (a * 10 ^ n)) :
    (positiveScaleInt64 a (n : Int)).1 = a * 10 ^ n := by
  unfold positiveScaleInt64
  by_cases h0 : n = 0
  · subst h0; simp
  by_cases h1 : n = 1
  · subst h1
    have : int64MultiplyScale a 10 = (a * 10, true) := int64MultiplyScale_exact a 10 (by norm_num) (by simpa using h)
    simp [this]
  by_cases h2 : n = 2
  · subst h2
    have : int64MultiplyScale a 100 = (a * 100, true) := int64MultiplyScale_exact a 100 (by norm_num) (by simpa using h)
    simp [this]
  by_cases h3 : n = 3
  · subst h3
    have : int64MultiplyScale a 1000 = (a * 1000, true) := int64MultiplyScale_exact a 1000 (by norm_num) (by simpa using h)
    simp [this]
  by_cases h6 : n = 6
  · subst h6
    have : int64MultiplyScale a 1000000 = (a * 1000000, true) := int64MultiplyScale_exact a 1000000 (by norm_num) (by simpa using h)
    simp [this]
  by_cases h9 : n = 9
  · subst h9
    have : int64MultiplyScale a 1000000000 = (a * 1000000000, true) := int64MultiplyScale_exact a 1000000000 (by norm_num) (by simpa using h)
    simp [this]
  have c0 : ¬ (n : Int) = 0 := by omega
  have c1 : ¬ (n : Int) = 1 := by omega
  have c2 : ¬ (n : Int) = 2 := by omega
  have c3 : ¬ (n : Int) = 3 := by omega
  have c6 : ¬ (n : Int) = 6 := by omega
  have c9 : ¬ (n : Int) = 9 := by omega
  simp only [c0, c1, c2, c3, c6, c9, if_false, Int.toNat_ofNat]
  rw [positiveScaleLoop_exact n a h]

theorem positiveScaleInt64_zero (k : Int) : (positiveScaleInt64 0 k).1 = 0 := by
  unfold positiveScaleInt64
  split_ifs <;> simp [int64MultiplyScale_zero, positiveScaleLoop_zero]
theorem tdiv_neg_cast (N d : Nat) : Int.tdiv (-(N : Int)) (d : Int) = -((N / d : Nat) : Int) := by
  rw [Int.neg_tdiv]; rfl

theorem tmod_neg_cast (N d : Nat) : Int.tmod (-(N : Int)) (d : Int) = -((N % d : Nat) : Int) := by
  have h1 := Int.tmod_add_tdiv (-(N : Int)) (d : Int)
  rw [tdiv_neg_cast] at h1
  have h2 := Nat.mod_add_div N d
  have h3 : ((N % d : Nat) : Int) + (d : Int) * ((N / d : Nat) : Int) = (N : Int) := by exact_mod_cast h2
  linarith

theorem mod_pow_succ_zero (N i : Nat) :
    N % 10 ^ (i + 1) = 0 ↔ (N % 10 ^ i = 0 ∧ N / 10 ^ i % 10 = 0) := by
  rw [Nat.mod_pow_succ]
  have hp : 0 < 10 ^ i := by positivity
  constructor
  · intro h
    have h1 : N % 10 ^ i = 0 := by omega
    have h2 : 10 ^ i * (N / 10 ^ i % 10) = 0 := by omega
    rcases Nat.mul_eq_zero.mp h2 with h3 | h3
    · omega
    · exact ⟨h1, h3⟩
  · rintro ⟨h1, h2⟩
    rw [h1, h2]; simp

theorem divAway_small (b : Int) (D : Nat) (h : b.natAbs < D) :
    divAway b D = if b = 0 then 0 else if 0 < b then 1 else -1 := by
  unfold divAway
  have h1 : b.natAbs / D = 0 := Nat.div_eq_of_lt h
  have h2 : b.natAbs % D = b.natAbs := Nat.mod_eq_of_lt h
  rw [h1, h2]
  by_cases hb : b = 0
  · subst hb; simp
  · have : b.natAbs ≠ 0 := by simpa using hb
    simp only [this, if_false, hb]
    by_cases hp : 0 < b
    · have : ¬ b < 0 := by omega
      simp [hp, this]
    · have : b < 0 := by omega
      simp [hp, this]

theorem negativeScaleLoop_pos (N : Nat) : ∀ (n i : Nat),
    negativeScaleLoop (N : Int) n ((N / 10 ^ i : Nat) : Int) (decide (N % 10 ^ i ≠ 0)) =
      divAway (N : Int) (10 ^ (i + n)) := by
  intro n
  induction n with
  | zero =>
    intro i
    unfold negativeScaleLoop divAway
    simp only [Nat.add_zero, Int.natAbs_ofNat]
    have hneg : ¬ ((N : Int) < 0) := by omega
    simp only [hneg, if_false]
    by_cases hr : N % 10 ^ i = 0
    · simp [hr]
    · have hN : 0 < (N : Int) := by
        rcases Nat.eq_zero_or_pos N with h | h
        · subst h; simp at hr
        · exact_mod_cast h
      simp [hr, hN]
  | succ n ih =>
    intro i
    unfold negativeScaleLoop
    have hv : Int.tdiv ((N / 10 ^ i : Nat) : Int) 10 = ((N / 10 ^ (i + 1) : Nat) : Int) := by
      have : Int.tdiv ((N / 10 ^ i : Nat) : Int) ((10 : Nat) : Int) = ((N / 10 ^ i / 10 : Nat) : Int) := rfl
      rw [Nat.div_div_eq_div_mul, ← pow_succ] at this
      exact this
    have hm : Int.tmod ((N / 10 ^ i : Nat) : Int) 10 = ((N / 10 ^ i % 10 : Nat) : Int) := rfl
    have hf : (decide (N % 10 ^ i ≠ 0) || decide (Int.tmod ((N / 10 ^ i : Nat) : Int) 10 ≠ 0)) =
        decide (N % 10 ^ (i + 1) ≠ 0) := by
      rw [hm]
      have key := mod_pow_succ_zero N i
      have e1 : (((N / 10 ^ i % 10 : Nat) : Int) ≠ 0) ↔ (N / 10 ^ i % 10 ≠ 0) := Nat.cast_ne_zero
      rw [Bool.eq_iff_iff]
      simp only [Bool.or_eq_true, decide_eq_true_eq]
      rw [e1, Ne, Ne, Ne, key]
      tauto
    simp only [hv, hf]
    by_cases hz : N / 10 ^ (i + 1) = 0
    · have hlt : N < 10 ^ (i + 1) := by
        by_contra hc
        have : 0 < N / 10 ^ (i + 1) := Nat.div_pos (by omega) (by positivity)
        omega
      have hlt' : N < 10 ^ (i + (n + 1)) :=
        lt_of_lt_of_le hlt (Nat.pow_le_pow_right (by norm_num) (by omega))
      rw [divAway_small (N : Int) _ (by simpa using hlt')]
      have hmod : N % 10 ^ (i + 1) = N := Nat.mod_eq_of_lt hlt
      simp only [hz, hmod, Nat.cast_zero, if_true]
      by_cases hN : N = 0
      · subst hN; simp
      · have : 0 < (N : Int) := by omega
        have hN' : ¬ (N : Int) = 0 := by omega
        simp [hN, this, hN']
    · have hz' : ¬ ((N / 10 ^ (i + 1) : Nat) : Int) = 0 := by exact_mod_cast hz
      simp only [hz', if_false]
      have := ih (i + 1)
      rw [this]
      congr 2
      omega

theorem negativeScaleLoop_neg (N : Nat) (hN : 0 < N) : ∀ (n i : Nat),
    negativeScaleLoop (-(N : Int)) n (-((N / 10 ^ i : Nat) : Int)) (decide (N % 10 ^ i ≠ 0)) =
      divAway (-(N : Int)) (10 ^ (i + n)) := by
  intro n
  have hb : ¬ (0 < -(N : Int)) := by omega
  have hb' : -(N : Int) < 0 := by omega
  induction n with
  | zero =>
    intro i
    unfold negativeScaleLoop divAway
    simp only [Nat.add_zero, Int.natAbs_neg, Int.natAbs_ofNat, hb, hb', if_true, if_false]
    by_cases hr : N % 10 ^ i = 0
    · simp [hr]
    · simp [hr]
      ring
  | succ n ih =>
    intro i
    unfold negativeScaleLoop
    have hv : Int.tdiv (-((N / 10 ^ i : Nat) : Int)) 10 = -((N / 10 ^ (i + 1) : Nat) : Int) := by
      have := tdiv_neg_cast (N / 10 ^ i) 10
      rw [Nat.div_div_eq_div_mul, ← pow_succ] at this
      exact this
    have hm : Int.tmod (-((N / 10 ^ i : Nat) : Int)) 10 = -((N / 10 ^ i % 10 : Nat) : Int) :=
      tmod_neg_cast (N / 10 ^ i) 10
    have hf : (decide (N % 10 ^ i ≠ 0) || decide (Int.tmod (-((N / 10 ^ i : Nat) : Int)) 10 ≠ 0)) =
        decide (N % 10 ^ (i + 1) ≠ 0) := by
      rw [hm]
      have key := mod_pow_succ_zero N i
      have e1 : (-((N / 10 ^ i % 10 : Nat) : Int) ≠ 0) ↔ (N / 10 ^ i % 10 ≠ 0) := by
        rw [Ne, neg_eq_zero]; exact Nat.cast_ne_zero
      rw [Bool.eq_iff_iff]
      simp only [Bool.or_eq_true, decide_eq_true_eq]
      rw [e1, Ne, Ne, Ne, key]
      tauto
    simp only [hv, hf]
    by_cases hz : N / 10 ^ (i + 1) = 0
    · have hlt : N < 10 ^ (i + 1) := by
        by_contra hc
        have : 0 < N / 10 ^ (i + 1) := Nat.div_pos (by omega) (by positivity)
        omega
      have hlt' : N < 10 ^ (i + (n + 1)) :=
        lt_of_lt_of_le hlt (Nat.pow_le_pow_right (by norm_num) (by omega))
      rw [divAway_small (-(N : Int)) _ (by simpa using hlt')]
      have hmod : N % 10 ^ (i + 1) = N := Nat.mod_eq_of_lt hlt
      have hN0 : ¬ N = 0 := by omega
      have hN' : ¬ (-(N : Int)) = 0 := by omega
      simp [hz, hmod, hN0, hb, hN']
    · have hz' : ¬ (-((N / 10 ^ (i + 1) : Nat) : Int)) = 0 := by
        have : ¬ ((N / 10 ^ (i + 1) : Nat) : Int) = 0 := by exact_mod_cast hz
        omega
      simp only [hz', if_false]
      have := ih (i + 1)
      rw [this]
      congr 2
      omega

/-- The library's `negativeScaleInt64` divides by the power of ten and rounds away from
zero. -/
theorem negativeScaleInt64_eq (base : Int) (n : Nat) :
    negativeScaleInt64 base (n : Int) = divAway base (10 ^ n) := by
  unfold negativeScaleInt64
  by_cases h0 : n = 0
  · subst h0
    simp only [Nat.cast_zero, if_true, pow_zero]
    unfold divAway
    simp only [Nat.mod_one, if_true, Nat.div_one]
    by_cases hb : base < 0
    · simp only [hb, if_true]; omega
    · simp only [hb, if_false]; omega
  · have : ¬ (n : Int) = 0 := by omega
    simp only [this, if_false, Int.toNat_ofNat]
    rcases Int.eq_nat_or_neg base with ⟨N, hN | hN⟩
    · subst hN
      have := negativeScaleLoop_pos N n 0
      simp only [pow_zero, Nat.div_one, Nat.mod_one, zero_add, ne_eq, not_true_eq_false,
        decide_False] at this
      exact this
    · subst hN
      rcases Nat.eq_zero_or_pos N with h | h
      · subst h
        have := negativeScaleLoop_pos 0 n 0
        simp only [pow_zero, Nat.div_one, Nat.mod_one, zero_add, ne_eq, not_true_eq_false,
          decide_False] at this
        simpa using this
      · have := negativeScaleLoop_neg N h n 0
        simp only [pow_zero, Nat.div_one, Nat.mod_one, zero_add, ne_eq, not_true_eq_false,
          decide_False] at this
        exact this

theorem wrapInt32_of_fits (v : Int) (h1 : -2147483648 ≤ v) (h2 : v ≤ 2147483647) : wrapInt32 v = v := by
  unfold wrapInt32
  omega

theorem scale_le_of_fits (a : Int) (n : Nat) (ha : a ≠ 0) (h : fitsInt64 (a * 10 ^ n)) : n ≤ 18 := by
  by_contra hc
  have h19 : (10 : Int) ^ 19 ≤ 10 ^ n := pow_le_pow_right₀ (by norm_num) (by omega)
  have hv : (10 : Int) ^ 19 = 10000000000000000000 := by norm_num
  rw [hv] at h19
  unfold fitsInt64 MinInt64 MaxInt64 at h
  rcases lt_or_gt_of_ne ha with h1 | h1
  · have : a * 10 ^ n ≤ (-1) * 10 ^ n := by nlinarith
    omega
  · have : 1 * 10 ^ n ≤ a * 10 ^ n := by nlinarith
    omega

theorem divAway_cast (N D : Nat) :
    divAway (N : Int) D = if N % D = 0 then ((N / D : Nat) : Int) else ((N / D : Nat) : Int) + 1 := by
  unfold divAway
  have : ¬ ((N : Int) < 0) := by omega
  simp only [this, if_false, Int.natAbs_ofNat]
  split_ifs <;> simp

/-- The library's `ScaledValue` is the exact value rounded away from zero whenever that
fits `int64`, for the whole-unit and the milli scale and every quantity that is an
`int64` amount or not negative. -/
theorem ScaledValue_exact (q : Quantity) (t : Int) (ht : t = 0 ∨ t = -3) (hv : q.valid)
    (hr : q.roundedAway) (hfit : fitsInt64 (q.scaledExact t)) :
    q.ScaledValue t = q.scaledExact t := by
  obtain ⟨hrep, hs1, hs2⟩ := hv
  have ht1 : -3 ≤ t ∧ t ≤ 0 := by rcases ht with h | h <;> omega
  unfold Quantity.ScaledValue
  by_cases hd : q.dec = true
  · -- arbitrary-precision decimal
    have hu : 0 ≤ q.unscaled := by
      rcases hr with h | h
      · rw [hd] at h; exact absurd h (by decide)
      · exact h
    obtain ⟨N, hN⟩ : ∃ N : Nat, q.unscaled = N := ⟨q.unscaled.toNat, by omega⟩
    have hw : wrapInt32 (-t) = -t := wrapInt32_of_fits _ (by omega) (by omega)
    simp only [hd, if_true, hw]
    unfold scaledValue
    simp only []
    have hdif : -q.scale - -t = t - q.scale := by ring
    rw [hdif]
    by_cases h0 : t - q.scale = 0
    · simp only [h0, if_true]
      have e : q.scaledExact t = q.unscaled := by
        unfold Quantity.scaledExact
        have : t ≤ q.scale := by omega
        have e0 : (q.scale - t).toNat = 0 := by omega
        simp [this, e0]
      rw [e] at hfit ⊢
      exact wrapInt64_of_fits _ hfit
    · simp only [h0, if_false]
      by_cases hneg : t - q.scale < 0
      · simp only [hneg, if_true]
        obtain ⟨n, hn⟩ : ∃ n : Nat, q.scale - t = n := ⟨(q.scale - t).toNat, by omega⟩
        have e : q.scaledExact t = q.unscaled * 10 ^ n := by
          unfold Quantity.scaledExact
          have : t ≤ q.scale := by omega
          simp only [this, if_true, hn, Int.toNat_ofNat]
        rw [e] at hfit ⊢
        have hm : -(t - q.scale) = (n : Int) := by omega
        rw [hm]
        by_cases hz : q.unscaled = 0
        · rw [hz]
          have : wrapInt64 0 = 0 := by decide
          simp [this]
        · have hn18 := scale_le_of_fits _ n hz hfit
          have hp : pow10Int64 (n : Int) = 10 ^ n := by
            unfold pow10Int64
            have : (n : Int) ≤ 18 := by omega
            simp [this]
          rw [hp]
          have hfu : fitsInt64 q.unscaled :=
            fits_of_mul_pow _ (10 ^ n) (one_le_pow₀ (by norm_num)) hfit
          rw [wrapInt64_of_fits _ hfu, wrapInt64_of_fits _ hfit]
      · simp only [hneg, if_false]
        obtain ⟨n, hn⟩ : ∃ n : Nat, t - q.scale = n := ⟨(t - q.scale).toNat, by omega⟩
        have hn0 : 0 < n := by omega
        have e : q.scaledExact t = divAway q.unscaled (10 ^ n) := by
          unfold Quantity.scaledExact
          have : ¬ t ≤ q.scale := by omega
          simp only [this, if_false, hn, Int.toNat_ofNat]
        rw [e] at hfit ⊢
        rw [hn, hN] at *
        rw [divAway_cast] at hfit ⊢
        have hdiv : ((N : Int) / (10 : Int) ^ n) = ((N / 10 ^ n : Nat) : Int) := by norm_cast
        have hmod : ((N : Int) % (10 : Int) ^ n) = ((N % 10 ^ n : Nat) : Int) := by norm_cast
        have hq0 : (0 : Int) ≤ ((N / 10 ^ n : Nat) : Int) := Int.natCast_nonneg _
        by_cases hfast : (N : Int) < MaxInt64 ∧ (n : Int) < 19
        · simp only [hfast, and_self, if_true]
          have hp : pow10Int64 (n : Int) = ((10 ^ n : Nat) : Int) := by
            unfold pow10Int64
            have : (n : Int) ≤ 18 := by omega
            simp [this]
          rw [hp]
          have hfu : fitsInt64 (N : Int) := by
            unfold fitsInt64 MinInt64
            exact ⟨by omega, le_of_lt hfast.1⟩
          rw [wrapInt64_of_fits _ hfu]
          have e1 : Int.tdiv (N : Int) ((10 ^ n : Nat) : Int) = ((N / 10 ^ n : Nat) : Int) := rfl
          have e2 : Int.tmod (N : Int) ((10 ^ n : Nat) : Int) = ((N % 10 ^ n : Nat) : Int) := rfl
          rw [e1, e2]
          by_cases hm0 : N % 10 ^ n = 0
          · simp [hm0]
          · have : ¬ ((N % 10 ^ n : Nat) : Int) = 0 := by exact_mod_cast hm0
            simp only [hm0, this, ne_eq, not_false_eq_true, if_true, if_false]
        · simp only [hfast, if_false, Int.toNat_ofNat]
          rw [hdiv, hmod]
          by_cases hm0 : N % 10 ^ n = 0
          · simp only [hm0, if_true] at hfit ⊢
            simp only [Nat.cast_zero, ne_eq, not_true_eq_false, if_false]
            exact wrapInt64_of_fits _ hfit
          · simp only [hm0, if_false] at hfit ⊢
            have : ¬ ((N % 10 ^ n : Nat) : Int) = 0 := by exact_mod_cast hm0
            simp only [ne_eq, this, not_false_eq_true, if_true]
            have hfq : fitsInt64 ((N / 10 ^ n : Nat) : Int) := by
              unfold fitsInt64 MinInt64 MaxInt64 at *
              omega
            rw [wrapInt64_of_fits _ hfq, wrapInt64_of_fits _ hfit]
  · -- int64 amount
    have hd' : q.dec = false := by simpa using hd
    have hfu : fitsInt64 q.unscaled := by
      rcases hrep with h | h
      · exact absurd h hd
      · exact h
    simp only [hd', Bool.false_eq_true, if_false]
    unfold AsScaledInt64
    by_cases hlt : q.scale < t
    · simp only [hlt, if_true]
      obtain ⟨n, hn⟩ : ∃ n : Nat, t - q.scale = n := ⟨(t - q.scale).toNat, by omega⟩
      rw [wrapInt32_of_fits _ (by omega) (by omega), hn, negativeScaleInt64_eq]
      unfold Quantity.scaledExact
      have : ¬ t ≤ q.scale := by omega
      simp only [this, if_false, hn, Int.toNat_ofNat]
    · simp only [hlt, if_false]
      obtain ⟨n, hn⟩ : ∃ n : Nat, q.scale - t = n := ⟨(q.scale - t).toNat, by omega⟩
      have e : q.scaledExact t = q.unscaled * 10 ^ n := by
        unfold Quantity.scaledExact
        have : t ≤ q.scale := by omega
        simp only [this, if_true, hn, Int.toNat_ofNat]
      rw [e] at hfit ⊢
      by_cases hz : q.unscaled = 0
      · rw [hz, positiveScaleInt64_zero]; simp
      · have hn18 := scale_le_of_fits _ n hz hfit
        rw [wrapInt32_of_fits _ (by omega) (by omega), hn]
        exact positiveScaleInt64_exact _ n hfit

theorem log2_pow (k : Nat) : F64.log2 (2 ^ k) = k := by
  unfold F64.log2
  apply le_antisymm
  · exact log2Aux_le _ _ _ (Nat.pow_lt_pow_right (by norm_num) (by omega))
  · exact le_log2Aux _ _ _ (le_refl _) (le_refl _)

/-- A fraction that equals one, in whatever representation, leaves the capped source
`2^63` unchanged. -/
theorem mul_cap_one (f : F64) (h1 : F64.le F64.one f = true) (h2 : F64.le f F64.one = true) :
    F64.lt (F64.mul maxInt64AsFloat f) maxInt64AsFloat = false := by
  rw [maxInt64AsFloat_eq]
  cases f with
  | nan => simp [F64.le] at h2
  | inf t => cases t <;> simp [F64.le, F64.one] at h1 h2
  | fin s n e =>
    cases s with
    | true =>
      exfalso
      simp only [F64.le, F64.one, F64.scaled, decide_eq_true_eq, if_true, Bool.false_eq_true,
        if_false] at h1
      have hp : (0 : Int) < 1 * 2 ^ (0 - min 0 e).toNat := by positivity
      have hq : (0 : Int) ≤ (n : Int) * 2 ^ (e - min 0 e).toNat := by positivity
      rw [neg_mul] at h1
      omega
    | false =>
      simp only [F64.le, F64.one, F64.scaled, decide_eq_true_eq, Bool.false_eq_true,
        if_false] at h1 h2
      have heq : (1 : Int) * 2 ^ (0 - min 0 e).toNat = (n : Int) * 2 ^ (e - min e 0).toNat := by
        rw [min_comm e 0] at h2 ⊢
        omega
      -- the fraction is `2^k * 2^(-k)`
      obtain ⟨k, hn, he⟩ : ∃ k : Nat, n = 2 ^ k ∧ e = -(k : Int) := by
        by_cases hpos : 0 ≤ e
        · have m1 : min 0 e = 0 := min_eq_left hpos
          have m2 : min e 0 = 0 := min_eq_right hpos
          rw [m1, m2] at heq
          simp only [sub_zero, Int.toNat_zero, pow_zero, mul_one] at heq
          have hpw : (1 : Int) ≤ 2 ^ e.toNat := one_le_pow₀ (by norm_num)
          have hn1 : (1 : Int) ≤ n := by
            by_contra hc
            have : (n : Int) = 0 := by omega
            rw [this] at heq; simp at heq
          have h2e : (2 : Int) ^ e.toNat = 1 := by nlinarith
          have hn' : (n : Int) = 1 := by rw [h2e] at heq; omega
          have he0 : e.toNat = 0 := by
            by_contra hc
            have : (2 : Int) ^ 1 ≤ 2 ^ e.toNat := pow_le_pow_right₀ (by norm_num) (by omega)
            omega
          exact ⟨0, by simpa using hn', by omega⟩
        · have m1 : min 0 e = e := min_eq_right (by omega)
          have m2 : min e 0 = e := min_eq_left (by omega)
          rw [m1, m2] at heq
          simp only [sub_self, Int.toNat_zero, pow_zero, mul_one, one_mul] at heq
          refine ⟨(0 - e).toNat, ?_, by omega⟩
          have : ((2 ^ (0 - e).toNat : Nat) : Int) = (n : Int) := by push_cast; exact heq
          exact_mod_cast this.symm
      subst hn he
      simp only [F64.mul, Bool.false_bne]
      have hM : 9007199254740992 * 2 ^ k = 2 ^ (53 + k) := by rw [pow_add]; norm_num
      rw [hM]
      unfold F64.round
      have hne : ¬ (2 ^ (53 + k) = 0) := by positivity
      simp only [hne, if_false, log2_pow]
      have htop : (10 : Int) + -(k : Int) + ((53 + k : Nat) : Int) = 63 := by push_cast; ring
      rw [htop]
      have hulp : max ((63 : Int) - 52) (-1074) = 11 := by decide
      rw [hulp]
      have hnle : ¬ ((11 : Int) ≤ 10 + -(k : Int)) := by omega
      simp only [hnle, if_false]
      have hs : ((11 : Int) - (10 + -(k : Int))).toNat = k + 1 := by omega
      rw [hs]
      have hr : F64.roundShift (2 ^ (53 + k)) (k + 1) = 2 ^ 52 := by
        unfold F64.roundShift
        have e1 : 2 ^ (53 + k) = 2 ^ 52 * 2 ^ (k + 1) := by rw [← pow_add]; congr 1; omega
        have hd : 2 ^ (53 + k) / 2 ^ (k + 1) = 2 ^ 52 := by
          rw [e1]; exact Nat.mul_div_cancel _ (by positivity)
        have hm : 2 ^ (53 + k) % 2 ^ (k + 1) = 0 := by
          rw [e1]; exact Nat.mul_mod_left _ _
        have hh : 0 < 2 ^ (k + 1 - 1) := by positivity
        simp only [Nat.succ_ne_zero, if_false, hd, hm]
        have c : ¬ (2 ^ (k + 1 - 1) < 0 ∨ (0 = 2 ^ (k + 1 - 1) ∧ 2 ^ 52 % 2 = 1)) := by
          rintro (h | ⟨h, -⟩) <;> omega
        simp only [c, if_false]
      rw [hr]
      decide

theorem scaledExact_pos (q : Quantity) (t : Int) (h : 0 < q.unscaled) : 0 < q.scaledExact t := by
  unfold Quantity.scaledExact
  split_ifs
  · exact mul_pos h (by positivity)
  · exact (divAway_mul_ge _ _ h (by positivity)).1

theorem divAway_neg (n : Int) (d : Nat) : divAway (-n) d = -divAway n d := by
  unfold divAway
  simp only [Int.natAbs_neg]
  rcases lt_trichotomy n 0 with h | h | h
  · have h1 : ¬ (-n < 0) := by omega
    simp only [h1, h, if_true, if_false, neg_neg]
  · subst h; simp
  · have h1 : -n < 0 := by omega
    have h2 : ¬ (n < 0) := by omega
    simp only [h1, h2, if_true, if_false]

theorem whole_le_milli (u s : Int) (f : Format) (d : Bool) (h : 0 < u) :
    (Quantity.mk u s f d).scaledExact 0 ≤ (Quantity.mk u s f d).scaledExact (-3) := by
  unfold Quantity.scaledExact
  simp only []
  by_cases h0 : 0 ≤ s
  · have h3 : (-3 : Int) ≤ s := by omega
    simp only [h0, h3, if_true]
    have : (10 : Int) ^ (s - 0).toNat ≤ 10 ^ (s - -3).toNat :=
      pow_le_pow_right₀ (by norm_num) (by omega)
    nlinarith
  · simp only [h0, if_false]
    obtain ⟨a, ha⟩ : ∃ a : Nat, s = -(a : Int) := ⟨(-s).toNat, by omega⟩
    subst ha
    have e2 : ((0 : Int) - -(a : Int)).toNat = a := by omega
    rw [e2]
    by_cases h3 : (-3 : Int) ≤ -(a : Int)
    · simp only [h3, if_true]
      have hp : (1 : Int) ≤ 10 ^ (-(a : Int) - -3).toNat := one_le_pow₀ (by norm_num)
      have hq : (1 : Int) ≤ ((10 ^ a : Nat) : Int) := by
        have : 1 ≤ 10 ^ a := Nat.one_le_pow _ _ (by norm_num)
        exact_mod_cast this
      have h1 : divAway u (10 ^ a) ≤ u := divAway_le u (10 ^ a) u h (by positivity) (by nlinarith)
      nlinarith
    · simp only [h3, if_false]
      have e1 : ((-3 : Int) - -(a : Int)).toNat = a - 3 := by omega
      rw [e1]
      have hw := divAway_mul_ge u (10 ^ (a - 3)) h (by positivity)
      apply divAway_le u (10 ^ a) _ h (by positivity)
      have hle : ((10 ^ (a - 3) : Nat) : Int) ≤ ((10 ^ a : Nat) : Int) := by
        have : 10 ^ (a - 3) ≤ 10 ^ a := Nat.pow_le_pow_right (by norm_num) (by omega)
        exact_mod_cast this
      nlinarith [hw.1, hw.2]

theorem milli_le_whole_neg (q : Quantity) (h : q.unscaled < 0) :
    q.scaledExact (-3) ≤ q.scaledExact 0 := by
  have key := whole_le_milli (-q.unscaled) q.scale q.format q.dec (by omega)
  unfold Quantity.scaledExact at key ⊢
  simp only [] at key
  split_ifs at key ⊢ <;> simp only [neg_mul, divAway_neg] at key <;> omega

/-- The two conversions are exact in the range the guard of `computeResourceRequirements`
lets through: a whole-unit value below `MaxInt64/1000` and a milli value from
`MinInt64` on. -/
theorem conversions_exact (q : Quantity) (hv : q.valid) (hr : q.roundedAway)
    (hw : q.scaledExact 0 < MaxInt64 / 1000) (hm : MinInt64 ≤ q.scaledExact (-3)) :
    q.Value = q.scaledExact 0 ∧ q.MilliValue = q.scaledExact (-3) ∧
    fitsInt64 (q.scaledExact (-3)) := by
  have hthr : MaxInt64 / 1000 = 9223372036854775 := by decide
  rw [hthr] at hw
  have hfit : fitsInt64 (q.scaledExact 0) ∧ fitsInt64 (q.scaledExact (-3)) := by
    unfold fitsInt64 MinInt64 MaxInt64 at *
    rcases lt_trichotomy q.unscaled 0 with h | h | h
    · have h1 := milli_le_whole_neg q h
      have h2 := scaledExact_nonpos q (-3) (le_of_lt h)
      omega
    · have h1 := scaledExact_nonpos q (-3) (le_of_eq h)
      have h2 : 0 ≤ q.scaledExact 0 := by
        unfold Quantity.scaledExact
        rw [h]
        split_ifs
        · simp
        · simp [divAway]
      omega
    · have h1 := milli_le_whole q h
      have h2 := scaledExact_pos q 0 h
      omega
  exact ⟨ScaledValue_exact q 0 (Or.inl rfl) hv hr hfit.1,
    ScaledValue_exact q (-3) (Or.inr rfl) hv hr hfit.2, hfit.2⟩

/-- For a positive quantity whose whole-unit value fits `int64` the method `Value`
returns that value. -/
theorem Value_exact_pos (q : Quantity) (hv : q.valid) (hp : 0 < q.unscaled)
    (hfit : q.scaledExact 0 ≤ MaxInt64) : q.Value = q.scaledExact 0 := by
  have h0 := scaledExact_pos q 0 hp
  exact ScaledValue_exact q 0 (Or.inl rfl) hv (Or.inr (le_of_lt hp))
    ⟨le_trans (by decide) (le_of_lt h0), hfit⟩
/-! ## Lemmas: the accuracy of the binary64 product -/

theorem pow_log2_le (M : Nat) (h : 1 ≤ M) : 2 ^ F64.log2 M ≤ M := by
  by_contra hc
  have hlt : M < 2 ^ F64.log2 M := by omega
  cases hb : F64.log2 M with
  | zero => rw [hb] at hlt; simp at hlt; omega
  | succ b =>
    rw [hb] at hlt
    have := log2Aux_le M M b hlt
    unfold F64.log2 at hb
    omega

/-- The error of one rounding: a positive exact value below `2^1000` rounds to a
finite value that is off by at most one unit in the last place, which is at most the
`2^52`-th part of the exact value, and `2^(-1074)` for the subnormal results. -/
theorem round_error (M : Nat) (E : Int) (hM : 1 ≤ M) (hb : (M : ℚ) * 2 ^ E < 2 ^ (1000 : Int)) :
    ∃ (r : Nat) (u : Int), F64.round false M E = F64.fin false r u ∧
      (r : ℚ) * 2 ^ u ≤ M * 2 ^ E + (M * 2 ^ E * 2 ^ (-52 : Int) + 2 ^ (-1074 : Int)) ∧
      (M : ℚ) * 2 ^ E ≤ r * 2 ^ u + (M * 2 ^ E * 2 ^ (-52 : Int) + 2 ^ (-1074 : Int)) := by
  have h2 : (2 : ℚ) ≠ 0 := by norm_num
  have hE : (0 : ℚ) < 2 ^ E := zpow_pos (by norm_num) _
  have hval : (0 : ℚ) ≤ (M : ℚ) * 2 ^ E := by positivity
  have herr : (0 : ℚ) ≤ (M : ℚ) * 2 ^ E * 2 ^ (-52 : Int) + 2 ^ (-1074 : Int) := by positivity
  have hlog : ((2 : ℚ) ^ (F64.log2 M)) ≤ (M : ℚ) := by
    have := pow_log2_le M hM
    exact_mod_cast this
  have htopv : (2 : ℚ) ^ (E + (F64.log2 M : Int)) ≤ (M : ℚ) * 2 ^ E := by
    rw [zpow_add₀ h2, zpow_natCast, mul_comm]
    exact mul_le_mul_of_nonneg_right hlog (le_of_lt hE)
  have htop : E + (F64.log2 M : Int) < 1000 := by
    by_contra hc
    have : (2 : ℚ) ^ (1000 : Int) ≤ 2 ^ (E + (F64.log2 M : Int)) :=
      zpow_le_zpow_right₀ (by norm_num) (by omega)
    linarith
  have hulpv : (2 : ℚ) ^ (max (E + (F64.log2 M : Int) - 52) (-1074)) ≤
      (M : ℚ) * 2 ^ E * 2 ^ (-52 : Int) + 2 ^ (-1074 : Int) := by
    rcases le_total (E + (F64.log2 M : Int) - 52) (-1074) with h | h
    · rw [max_eq_right h]
      have : (0 : ℚ) ≤ (M : ℚ) * 2 ^ E * 2 ^ (-52 : Int) := by positivity
      linarith
    · rw [max_eq_left h]
      have e1 : (2 : ℚ) ^ (E + (F64.log2 M : Int) - 52) =
          2 ^ (E + (F64.log2 M : Int)) * 2 ^ (-52 : Int) := by
        rw [← zpow_add₀ h2]; congr 1
      rw [e1]
      have h52 : (0 : ℚ) < 2 ^ (-52 : Int) := zpow_pos (by norm_num) _
      have h1074 : (0 : ℚ) < 2 ^ (-1074 : Int) := zpow_pos (by norm_num) _
      have := mul_le_mul_of_nonneg_right htopv (le_of_lt h52)
      linarith
  unfold F64.round
  have hM0 : ¬ M = 0 := by omega
  simp only [hM0, if_false]
  by_cases hex : max (E + (F64.log2 M : Int) - 52) (-1074) ≤ E
  · simp only [hex, if_true]
    have : ¬ (1023 < E + (F64.log2 M : Int)) := by omega
    simp only [this, if_false]
    exact ⟨M, E, rfl, by linarith, by linarith⟩
  · simp only [hex, if_false]
    set ulp := max (E + (F64.log2 M : Int) - 52) (-1074) with hulp
    have hult : ulp < 948 := by
      rw [hulp]
      rcases le_total (E + (F64.log2 M : Int) - 52) (-1074) with h | h
      · rw [max_eq_right h]; norm_num
      · rw [max_eq_left h]; omega
    have hc : ¬ (971 < ulp ∨ (ulp = 971 ∧ 2 ^ 53 ≤ F64.roundShift M (ulp - E).toNat)) := by
      rintro (h | ⟨h, -⟩) <;> omega
    simp only [hc, if_false]
    refine ⟨F64.roundShift M (ulp - E).toNat, ulp, rfl, ?_, ?_⟩
    all_goals
      obtain ⟨s, hs⟩ : ∃ s : Nat, ulp - E = s := ⟨(ulp - E).toNat, by omega⟩
      have hs0 : 0 < s := by omega
      have hsn : (ulp - E).toNat = s := by omega
      rw [hsn]
      obtain ⟨b1, b2⟩ := roundShift_bounds M s hs0
      have hu : (2 : ℚ) ^ ulp = 2 ^ s * 2 ^ E := by
        have : ulp = (s : Int) + E := by omega
        rw [this, zpow_add₀ h2, zpow_natCast]
      have hsp : (0 : ℚ) < 2 ^ s := by positivity
    · -- upper bound
      have b2' : ((F64.roundShift M s : Nat) : ℚ) * 2 ^ s ≤ (M : ℚ) + 2 ^ (s - 1) := by
        exact_mod_cast b2
      have hhalf : (2 : ℚ) ^ (s - 1) ≤ 2 ^ s := pow_le_pow_right₀ (by norm_num) (by omega)
      rw [hu]
      have : ((F64.roundShift M s : Nat) : ℚ) * (2 ^ s * 2 ^ E) ≤ ((M : ℚ) + 2 ^ s) * 2 ^ E := by
        rw [← mul_assoc]
        exact mul_le_mul_of_nonneg_right (by linarith) (le_of_lt hE)
      rw [hu] at hulpv
      nlinarith
    · -- lower bound
      have hlt : M < (M / 2 ^ s + 1) * 2 ^ s := by
        have := Nat.lt_div_mul_add (a := M) (b := 2 ^ s) (by positivity)
        calc M < M / 2 ^ s * 2 ^ s + 2 ^ s := this
          _ = (M / 2 ^ s + 1) * 2 ^ s := by ring
      have hle : (M / 2 ^ s + 1) * 2 ^ s ≤ (F64.roundShift M s + 1) * 2 ^ s :=
        Nat.mul_le_mul_right _ (by omega)
      have hq : (M : ℚ) ≤ ((F64.roundShift M s : Nat) + 1) * 2 ^ s := by
        have : M ≤ (F64.roundShift M s + 1) * 2 ^ s := by omega
        exact_mod_cast this
      rw [hu]
      rw [hu] at hulpv
      have := mul_le_mul_of_nonneg_right hq (le_of_lt hE)
      nlinarith

/-- The error of the division by one hundred: for a positive `P * 2^e` with quotient
`A` up to `2^60` the computed fraction is finite and off by at most `A * 2^(-51)`, or
`2^(-1074)` for a subnormal result. -/
theorem div100_error (P : Nat) (e : Int) (hP : 1 ≤ P)
    (hb : (P : ℚ) * 2 ^ e / 100 ≤ 2 ^ (60 : Int)) :
    ∃ (F : Nat) (u : Int), F64.div (F64.fin false P e) (F64.ofInt 100) = F64.fin false F u ∧
      (F : ℚ) * 2 ^ u ≤ P * 2 ^ e / 100 + (P * 2 ^ e / 100 * 2 ^ (-51 : Int) + 2 ^ (-1074 : Int)) ∧
      (P : ℚ) * 2 ^ e / 100 ≤ F * 2 ^ u + (P * 2 ^ e / 100 * 2 ^ (-51 : Int) + 2 ^ (-1074 : Int)) := by
  have h2 : (2 : ℚ) ≠ 0 := by norm_num
  have h100 : F64.ofInt 100 = F64.fin false 100 0 := by decide
  have hlog : F64.log2 100 = 6 := by decide
  have hP0 : ¬ P = 0 := by omega
  rw [h100]
  unfold F64.div
  simp only [hP0, if_false, Bool.xor_false, show ¬ (100 = 0) by decide]
  unfold F64.roundRat
  simp only [hlog]
  have hk : e - 0 - ((65 + 6 : Nat) : Int) - 1 = e - 72 := by norm_num; ring
  rw [hk]
  have h71 : (65 + 6 : Nat) = 71 := rfl
  rw [h71]
  obtain ⟨N, hN⟩ : ∃ N : Nat, P * 2 ^ 71 = N := ⟨_, rfl⟩
  rw [hN]
  have hNq : (P : ℚ) * 2 ^ 71 = (N : ℚ) := by exact_mod_cast congrArg (Nat.cast (R := ℚ)) hN
  have hNge : 100 ≤ N := by
    have : 1 * 2 ^ 71 ≤ P * 2 ^ 71 := Nat.mul_le_mul_right _ hP
    rw [hN] at this
    have h71v : 1 * 2 ^ 71 = 2361183241434822606848 := by norm_num
    omega
  obtain ⟨sticky, hst, hst1⟩ : ∃ st : Nat, (if N % 100 = 0 then 0 else 1 : Nat) = st ∧ st ≤ 1 := by
    split_ifs
    · exact ⟨0, rfl, by omega⟩
    · exact ⟨1, rfl, by omega⟩
  rw [hst]
  obtain ⟨q, hq⟩ : ∃ q : Nat, N / 100 = q := ⟨_, rfl⟩
  rw [hq]
  set A : ℚ := (P : ℚ) * 2 ^ e / 100 with hA
  have hdm := Nat.div_add_mod N 100
  rw [hq] at hdm
  have hmod : N % 100 < 100 := Nat.mod_lt _ (by norm_num)
  have hqpos : 1 ≤ q := by omega
  -- the value of `A` in units of `2^(e-71)`
  have hE : (0 : ℚ) < 2 ^ (e - 71) := zpow_pos (by norm_num) _
  have hAeq : A = ((P : ℚ) * 2 ^ 71 / 100) * 2 ^ (e - 71) := by
    rw [hA]
    have : (2 : ℚ) ^ e = 2 ^ (71 : Int) * 2 ^ (e - 71) := by
      rw [← zpow_add₀ h2]; congr 1; ring
    rw [this]
    have : (2 : ℚ) ^ (71 : Int) = 2 ^ 71 := by norm_cast
    rw [this]; ring
  have hPq1 : (q : ℚ) ≤ (P : ℚ) * 2 ^ 71 / 100 := by
    rw [hNq, le_div_iff₀ (by norm_num)]
    have : q * 100 ≤ N := by omega
    exact_mod_cast this
  have hPq2 : (P : ℚ) * 2 ^ 71 / 100 ≤ (q : ℚ) + 1 := by
    rw [hNq, div_le_iff₀ (by norm_num)]
    have : N ≤ (q + 1) * 100 := by omega
    exact_mod_cast this
  have hA1 : (q : ℚ) * 2 ^ (e - 71) ≤ A := by
    rw [hAeq]; exact mul_le_mul_of_nonneg_right hPq1 (le_of_lt hE)
  have hA2 : A ≤ ((q : ℚ) + 1) * 2 ^ (e - 71) := by
    rw [hAeq]; exact mul_le_mul_of_nonneg_right hPq2 (le_of_lt hE)
  -- the value that is rounded
  have hE2 : (2 : ℚ) ^ (e - 72) * 2 = 2 ^ (e - 71) := by
    have : (2 : ℚ) ^ (e - 71) = 2 ^ (e - 72) * 2 ^ (1 : Int) := by
      rw [← zpow_add₀ h2]; congr 1; ring
    rw [this]; norm_num
  set a1 : ℚ := ((2 * q + sticky : Nat) : ℚ) * 2 ^ (e - 72) with ha1
  have ha1eq : a1 = ((q : ℚ) + (sticky : ℚ) / 2) * 2 ^ (e - 71) := by
    rw [ha1, ← hE2]; push_cast; ring
  have hs1 : (sticky : ℚ) ≤ 1 := by exact_mod_cast hst1
  have hs0 : (0 : ℚ) ≤ (sticky : ℚ) := by positivity
  have hB1 : (q : ℚ) * 2 ^ (e - 71) ≤ a1 := by
    rw [ha1eq]; exact mul_le_mul_of_nonneg_right (by linarith) (le_of_lt hE)
  have hB2 : a1 ≤ ((q : ℚ) + 1) * 2 ^ (e - 71) := by
    rw [ha1eq]; exact mul_le_mul_of_nonneg_right (by linarith) (le_of_lt hE)
  -- the unit `2^(e-71)` is small against `A`
  have hunit : (2 : ℚ) ^ (e - 71) ≤ A * 2 ^ (-64 : Int) := by
    -- 2^(e-71) = 2^e * 2^(-71) and A = P * 2^e / 100 with P ≥ 1
    have hP1 : (1 : ℚ) ≤ (P : ℚ) := by exact_mod_cast hP
    have he : (0 : ℚ) < 2 ^ e := zpow_pos (by norm_num) _
    have e71 : (2 : ℚ) ^ (e - 71) = 2 ^ e * 2 ^ (-71 : Int) := by
      rw [← zpow_add₀ h2]; congr 1
    rw [e71, hA]
    have c1 : (2 : ℚ) ^ (-71 : Int) ≤ 1 / 100 * 2 ^ (-64 : Int) := by
      rw [zpow_neg, zpow_neg]; norm_num
    have c2 : (0 : ℚ) < 2 ^ (-64 : Int) := zpow_pos (by norm_num) _
    calc (2 : ℚ) ^ e * 2 ^ (-71 : Int) ≤ 2 ^ e * (1 / 100 * 2 ^ (-64 : Int)) :=
          mul_le_mul_of_nonneg_left c1 (le_of_lt he)
      _ = 1 * 2 ^ e / 100 * 2 ^ (-64 : Int) := by ring
      _ ≤ (P : ℚ) * 2 ^ e / 100 * 2 ^ (-64 : Int) := by
          apply mul_le_mul_of_nonneg_right _ (le_of_lt c2)
          apply div_le_div_of_nonneg_right _ (by norm_num)
          exact mul_le_mul_of_nonneg_right hP1 (le_of_lt he)
  have hApos : (0 : ℚ) ≤ A := by rw [hA]; positivity
  have c64 : (2 : ℚ) ^ (-64 : Int) ≤ 1 := by rw [zpow_neg]; norm_num
  have hexp : ((q : ℚ) + 1) * 2 ^ (e - 71) = (q : ℚ) * 2 ^ (e - 71) + 2 ^ (e - 71) := by ring
  have hdiff1 : a1 ≤ A + A * 2 ^ (-64 : Int) := by linarith
  have hdiff2 : A ≤ a1 + A * 2 ^ (-64 : Int) := by linarith
  have hA64 : A * 2 ^ (-64 : Int) ≤ A := mul_le_of_le_one_right hApos c64
  have ha1b : a1 < 2 ^ (1000 : Int) := by
    have h60 : (2 : ℚ) ^ (60 : Int) * 2 < 2 ^ (1000 : Int) := by norm_num
    linarith
  have hM1 : 1 ≤ 2 * q + sticky := by omega
  obtain ⟨F, u, hr, r1, r2⟩ := round_error (2 * q + sticky) (e - 72) hM1 ha1b
  refine ⟨F, u, hr, ?_, ?_⟩
  all_goals
    rw [← ha1] at r1 r2
    have c52 : (2 : ℚ) ^ (-52 : Int) + 2 ^ (-64 : Int) + 2 ^ (-64 : Int) * 2 ^ (-52 : Int) ≤
        2 ^ (-51 : Int) := by
      rw [zpow_neg, zpow_neg, zpow_neg]; norm_num
    have p52 : (0 : ℚ) < 2 ^ (-52 : Int) := zpow_pos (by norm_num) _
    have p64 : (0 : ℚ) < 2 ^ (-64 : Int) := zpow_pos (by norm_num) _
    have hmain : a1 * 2 ^ (-52 : Int) + A * 2 ^ (-64 : Int) ≤ A * 2 ^ (-51 : Int) := by
      have t1 : a1 * 2 ^ (-52 : Int) ≤ (A + A * 2 ^ (-64 : Int)) * 2 ^ (-52 : Int) :=
        mul_le_mul_of_nonneg_right hdiff1 (le_of_lt p52)
      have t2 : A * (2 ^ (-52 : Int) + 2 ^ (-64 : Int) + 2 ^ (-64 : Int) * 2 ^ (-52 : Int)) ≤
          A * 2 ^ (-51 : Int) := mul_le_mul_of_nonneg_left c52 hApos
      have t3 : (A + A * 2 ^ (-64 : Int)) * 2 ^ (-52 : Int) + A * 2 ^ (-64 : Int) =
          A * (2 ^ (-52 : Int) + 2 ^ (-64 : Int) + 2 ^ (-64 : Int) * 2 ^ (-52 : Int)) := by ring
      linarith
  · linarith
  · linarith

theorem zpow_toNat (e : Int) (h : 0 ≤ e) : (2 : ℚ) ^ e.toNat = 2 ^ e := by
  rw [← zpow_natCast]; congr 1; omega

theorem lt_cap_of_val (X : Nat) (u : Int) (h : (X : ℚ) * 2 ^ u < 2 ^ (63 : Int)) :
    F64.lt (F64.fin false X u) maxInt64AsFloat = true := by
  have h2 : (2 : ℚ) ≠ 0 := by norm_num
  rw [maxInt64AsFloat_eq]
  simp only [F64.lt, F64.scaled, Bool.false_eq_true, if_false, decide_eq_true_eq]
  by_contra hc
  have hge : ((9007199254740992 : Nat) : Int) * 2 ^ ((10 : Int) - min u 10).toNat ≤
      (X : Int) * 2 ^ (u - min u 10).toNat := by
    push_cast; omega
  have hq : (((9007199254740992 : Nat) : Int) * 2 ^ ((10 : Int) - min u 10).toNat : ℚ) ≤
      ((X : Int) * 2 ^ (u - min u 10).toNat : ℚ) := by exact_mod_cast hge
  push_cast at hq
  rw [zpow_toNat _ (by omega), zpow_toNat _ (by omega)] at hq
  have hk : (0 : ℚ) < 2 ^ (min u 10) := zpow_pos (by norm_num) _
  have e1 : (2 : ℚ) ^ (u - min u 10) * 2 ^ (min u 10) = 2 ^ u := by
    rw [← zpow_add₀ h2]; congr 1; ring
  have e2 : (2 : ℚ) ^ ((10 : Int) - min u 10) * 2 ^ (min u 10) = 2 ^ (10 : Int) := by
    rw [← zpow_add₀ h2]; congr 1; ring
  have := mul_le_mul_of_nonneg_right hq (le_of_lt hk)
  rw [mul_assoc, mul_assoc, e1, e2] at this
  have e3 : (9007199254740992 : ℚ) * 2 ^ (10 : Int) = 2 ^ (63 : Int) := by norm_num
  linarith

theorem truncFin_floor (X : Nat) (u : Int) :
    ((F64.truncFin false X u : Int) : ℚ) ≤ (X : ℚ) * 2 ^ u ∧
    (X : ℚ) * 2 ^ u < ((F64.truncFin false X u : Int) : ℚ) + 1 := by
  unfold F64.truncFin
  simp only [Bool.false_eq_true, if_false]
  by_cases hu : 0 ≤ u
  · simp only [hu, if_true]
    push_cast
    rw [zpow_toNat u hu]
    constructor <;> linarith
  · simp only [hu, if_false]
    obtain ⟨a, ha⟩ : ∃ a : Nat, -u = a := ⟨(-u).toNat, by omega⟩
    have hna : (-u).toNat = a := by omega
    rw [hna]
    have hu' : u = -(a : Int) := by omega
    rw [hu', zpow_neg, zpow_natCast]
    have hp : (0 : ℚ) < 2 ^ a := by positivity
    have h1 : X / 2 ^ a * 2 ^ a ≤ X := Nat.div_mul_le_self _ _
    have h2 : X < X / 2 ^ a * 2 ^ a + 2 ^ a := Nat.lt_div_mul_add (by positivity)
    have h1q : ((X / 2 ^ a : Nat) : ℚ) * 2 ^ a ≤ (X : ℚ) := by exact_mod_cast h1
    have h2q : (X : ℚ) < ((X / 2 ^ a : Nat) : ℚ) * 2 ^ a + 2 ^ a := by exact_mod_cast h2
    rw [Int.cast_natCast]
    constructor
    · rw [← div_eq_mul_inv, le_div_iff₀ hp]; exact h1q
    · rw [← div_eq_mul_inv, div_lt_iff₀ hp]; linarith

theorem exactScaled_floor (mn P : Nat) (e : Int) :
    ∃ t : Int, exactScaled (mn : Int) (F64.fin false P e) = some t ∧
      (t : ℚ) ≤ (mn : ℚ) * P * 2 ^ e / 100 ∧ (mn : ℚ) * P * 2 ^ e / 100 < (t : ℚ) + 1 := by
  unfold exactScaled
  simp only [Bool.false_eq_true, if_false]
  by_cases he : 0 ≤ e
  · simp only [he, if_true]
    refine ⟨_, rfl, ?_⟩
    have e1 : ((mn : Int) * (P : Int) * 2 ^ e.toNat) = ((mn * P * 2 ^ e.toNat : Nat) : Int) := by
      push_cast; ring
    rw [e1]
    have e2 : Int.tdiv ((mn * P * 2 ^ e.toNat : Nat) : Int) 100 =
        ((mn * P * 2 ^ e.toNat / 100 : Nat) : Int) := rfl
    rw [e2]
    obtain ⟨N, hN⟩ : ∃ N : Nat, mn * P * 2 ^ e.toNat = N := ⟨_, rfl⟩
    rw [hN]
    have hNq : (mn : ℚ) * P * 2 ^ e = (N : ℚ) := by
      rw [← zpow_toNat e he, ← hN]; push_cast; ring
    rw [hNq]
    have h1 : N / 100 * 100 ≤ N := Nat.div_mul_le_self _ _
    have h2 : N < N / 100 * 100 + 100 := Nat.lt_div_mul_add (by norm_num)
    have h1q : ((N / 100 : Nat) : ℚ) * 100 ≤ (N : ℚ) := by exact_mod_cast h1
    have h2q : (N : ℚ) < ((N / 100 : Nat) : ℚ) * 100 + 100 := by exact_mod_cast h2
    rw [Int.cast_natCast]
    constructor
    · rw [le_div_iff₀ (by norm_num)]; exact h1q
    · rw [div_lt_iff₀ (by norm_num)]; linarith
  · simp only [he, if_false]
    refine ⟨_, rfl, ?_⟩
    obtain ⟨a, ha⟩ : ∃ a : Nat, -e = a := ⟨(-e).toNat, by omega⟩
    have hna : (-e).toNat = a := by omega
    rw [hna]
    have e1 : ((mn : Int) * (P : Int)) = ((mn * P : Nat) : Int) := by push_cast; ring
    have e3 : ((100 : Int) * 2 ^ a) = ((100 * 2 ^ a : Nat) : Int) := by push_cast; ring
    rw [e1, e3]
    have e2 : Int.tdiv ((mn * P : Nat) : Int) ((100 * 2 ^ a : Nat) : Int) =
        ((mn * P / (100 * 2 ^ a) : Nat) : Int) := rfl
    rw [e2]
    obtain ⟨N, hN⟩ : ∃ N : Nat, mn * P = N := ⟨_, rfl⟩
    obtain ⟨D, hD⟩ : ∃ D : Nat, 100 * 2 ^ a = D := ⟨_, rfl⟩
    have hDpos : 0 < D := by rw [← hD]; positivity
    rw [hN, hD]
    have he' : e = -(a : Int) := by omega
    have hval : (mn : ℚ) * P * 2 ^ e / 100 = (N : ℚ) / (D : ℚ) := by
      rw [he', zpow_neg, zpow_natCast, ← hN, ← hD]; push_cast
      rw [← div_eq_mul_inv, div_div]
      congr 1
      ring
    rw [hval]
    have hDq : (0 : ℚ) < (D : ℚ) := by exact_mod_cast hDpos
    have h1 : N / D * D ≤ N := Nat.div_mul_le_self _ _
    have h2 : N < N / D * D + D := Nat.lt_div_mul_add hDpos
    have h1q : ((N / D : Nat) : ℚ) * D ≤ (N : ℚ) := by exact_mod_cast h1
    have h2q : (N : ℚ) < ((N / D : Nat) : ℚ) * D + D := by exact_mod_cast h2
    rw [Int.cast_natCast]
    constructor
    · rw [le_div_iff₀ hDq]; exact h1q
    · rw [div_lt_iff₀ hDq]; linarith

/-- The computed product against the exact one: for a milli value `0 < m < 2^53` and a
finite non-negative percentage whose exact product `m * p / 100` truncates to
`t < 2^50`, the value computed in binary64 differs from `t` by at most one. -/
theorem cappedProduct_accuracy (m : Int) (P : Nat) (e : Int) (t : Int)
    (hm1 : 0 < m) (hm2 : m < 2 ^ 53) (ht : exactScaled m (F64.fin false P e) = some t)
    (hb : t < 2 ^ 50) :
    cappedProduct m (F64.div (F64.fin false P e) (F64.ofInt 100)) - t ≤ 1 ∧
    t - cappedProduct m (F64.div (F64.fin false P e) (F64.ofInt 100)) ≤ 1 := by
  obtain ⟨mn, hmn⟩ : ∃ mn : Nat, m = mn := ⟨m.toNat, by omega⟩
  subst hmn
  have hmn1 : 1 ≤ mn := by omega
  have hmn2 : mn < 2 ^ 53 := by exact_mod_cast hm2
  obtain ⟨t', ht', f1, f2⟩ := exactScaled_floor mn P e
  rw [ht] at ht'
  have htt : t = t' := by injection ht'
  subst htt
  -- constants
  have c51 : (2 : ℚ) ^ (-51 : Int) = 1 / 2251799813685248 := by rw [zpow_neg]; norm_num
  have c52 : (2 : ℚ) ^ (-52 : Int) = 1 / 4503599627370496 := by rw [zpow_neg]; norm_num
  obtain ⟨δ, hδ⟩ : ∃ δ : ℚ, (2 : ℚ) ^ (-1074 : Int) = δ := ⟨_, rfl⟩
  have hδ0 : 0 < δ := by rw [← hδ]; exact zpow_pos (by norm_num) _
  have hδ1 : 18014398509481984 * δ ≤ 1 / 1024 := by rw [← hδ, zpow_neg]; norm_num
  have hmq1 : (1 : ℚ) ≤ (mn : ℚ) := by exact_mod_cast hmn1
  have hmq2 : (mn : ℚ) ≤ 9007199254740992 := by
    have : mn ≤ 9007199254740992 := by norm_num at hmn2; omega
    exact_mod_cast this
  have hmδ : (mn : ℚ) * δ ≤ 1 / 1024 := by nlinarith
  set y : ℚ := (mn : ℚ) * P * 2 ^ e / 100 with hy
  have hyB : y ≤ 1125899906842624 := by
    have : t + 1 ≤ 1125899906842624 := by norm_num at hb; omega
    have : ((t : Int) : ℚ) + 1 ≤ 1125899906842624 := by exact_mod_cast this
    linarith
  have hy0 : 0 ≤ y := by rw [hy]; positivity
  -- the computed product is finite and within one of the exact product
  have core : ∃ (X : Nat) (u2 : Int),
      F64.mul (F64.ofInt (mn : Int)) (F64.div (F64.fin false P e) (F64.ofInt 100)) =
        F64.fin false X u2 ∧
      (X : ℚ) * 2 ^ u2 < y + 1 ∧ y < (X : ℚ) * 2 ^ u2 + 1 := by
    rw [ofInt_nat mn hmn2]
    by_cases hP : P = 0
    · subst hP
      have h100 : F64.ofInt 100 = F64.fin false 100 0 := by decide
      refine ⟨0, 0, ?_, ?_, ?_⟩
      · rw [h100]
        simp [F64.div, F64.mul, F64.round]
      · simp [hy]
      · simp [hy]
    · have hP1 : 1 ≤ P := by omega
      set A : ℚ := (P : ℚ) * 2 ^ e / 100 with hA
      have hA0 : 0 ≤ A := by rw [hA]; positivity
      have hyA : y = (mn : ℚ) * A := by rw [hy, hA]; ring
      have hAy : A ≤ y := by rw [hyA]; nlinarith
      have hA60 : A ≤ 2 ^ (60 : Int) := by
        have : (1125899906842624 : ℚ) ≤ 2 ^ (60 : Int) := by norm_num
        linarith
      obtain ⟨F, u, hdiv, d1, d2⟩ := div100_error P e hP1 hA60
      rw [← hA, c51, hδ] at d1 d2
      rw [hdiv]
      obtain ⟨fv, hfv⟩ : ∃ fv : ℚ, (F : ℚ) * 2 ^ u = fv := ⟨_, rfl⟩
      rw [hfv] at d1 d2
      have hfv0 : 0 ≤ fv := by rw [← hfv]; positivity
      -- times the milli value
      have hyc : y * (1 / 2251799813685248) ≤ 1 / 2 := by linarith
      have m1 : (mn : ℚ) * fv ≤ y + (y * (1 / 2251799813685248) + (mn : ℚ) * δ) := by
        have := mul_le_mul_of_nonneg_left d1 (by positivity : (0 : ℚ) ≤ (mn : ℚ))
        rw [hyA]; linarith
      have m2 : y ≤ (mn : ℚ) * fv + (y * (1 / 2251799813685248) + (mn : ℚ) * δ) := by
        have := mul_le_mul_of_nonneg_left d2 (by positivity : (0 : ℚ) ≤ (mn : ℚ))
        rw [hyA]; linarith
      have hW0 : 0 ≤ (mn : ℚ) * fv := by positivity
      have hWB : (mn : ℚ) * fv ≤ 1125899906842625 := by linarith
      have hWc : (mn : ℚ) * fv * (1 / 4503599627370496) ≤ 1 / 4 + 1 / 4503599627370496 := by
        linarith
      simp only [F64.mul, Bool.false_bne, zero_add]
      by_cases hz : mn * F = 0
      · rw [hz]
        refine ⟨0, 0, by simp [F64.round], ?_, ?_⟩
        · simp only [Nat.cast_zero, zero_mul]; linarith
        · have hF0 : F = 0 := by
            rcases Nat.mul_eq_zero.mp hz with h | h
            · omega
            · exact h
          have hfv00 : fv = 0 := by rw [← hfv, hF0]; simp
          rw [hfv00] at m2
          simp only [Nat.cast_zero, zero_mul, mul_zero, zero_add] at m2 ⊢
          linarith
      · have hM1 : 1 ≤ mn * F := by omega
        have hWq : ((mn * F : Nat) : ℚ) * 2 ^ u = (mn : ℚ) * fv := by
          rw [← hfv]; push_cast; ring
        have hbnd : ((mn * F : Nat) : ℚ) * 2 ^ u < 2 ^ (1000 : Int) := by
          rw [hWq]
          have : (1125899906842625 : ℚ) < 2 ^ (1000 : Int) := by norm_num
          linarith
        obtain ⟨X, u2, hr, r1, r2⟩ := round_error (mn * F) u hM1 hbnd
        rw [hWq, c52, hδ] at r1 r2
        exact ⟨X, u2, hr, by linarith, by linarith⟩
  obtain ⟨X, u2, hmul, x1, x2⟩ := core
  have hlt : F64.lt (F64.fin false X u2) maxInt64AsFloat = true := by
    apply lt_cap_of_val
    have : (1125899906842624 : ℚ) + 1 < 2 ^ (63 : Int) := by norm_num
    linarith
  obtain ⟨hto, -, -⟩ := toInt64_of_lt X u2 hlt
  obtain ⟨g1, g2⟩ := truncFin_floor X u2
  have hcp : cappedProduct (mn : Int) (F64.div (F64.fin false P e) (F64.ofInt 100)) =
      F64.truncFin false X u2 := by
    unfold cappedProduct
    rw [hmul, hlt, if_pos rfl, hto]
  rw [hcp]
  have k1 : ((F64.truncFin false X u2 : Int) : ℚ) < (t : ℚ) + 2 := by linarith
  have k2 : (t : ℚ) < ((F64.truncFin false X u2 : Int) : ℚ) + 2 := by linarith
  have k1' : F64.truncFin false X u2 < t + 2 := by exact_mod_cast k1
  have k2' : t < F64.truncFin false X u2 + 2 := by exact_mod_cast k2
  constructor <;> omega

/-! ## The claims -/

set_option maxRecDepth 100000

/-- C1 (boundary clamping): for every non-zero source quantity, every fraction (in
particular every one in `(0,1]`) and every boundary with floor at most ceiling,
`computeResourceRequirements` reports a value and that value is at least the floor and
at most the ceiling of the boundary; the fraction of the percentage `"200"`, a source
of two cores and the boundary `[25m, 1000m]` give `1000m`. -/
theorem C1_boundary_clamping :
    (∀ (q : Quantity) (f : F64) (b : resourceBoundary), q.IsZero = false → b.min.le b.max →
      (computeResourceRequirements q f b).1 = true ∧
      b.min.le (computeResourceRequirements q f b).2 ∧
      (computeResourceRequirements q f b).2.le b.max) ∧
    computeResourceRequirements (units 2) (fractionOf "200") exampleBoundary = (true, milli 1000) := by
  refine ⟨?_, by decide⟩
  intro q f b hq hb
  unfold computeResourceRequirements
  rw [hq]
  exact ⟨rfl, applyBoundary_within b _ hb⟩

/-- C1, at a source of one core, the fraction of `"50"` and the boundary `[25m, 1000m]`. -/
theorem C1_boundary_clamping_witness :
    (units 1).IsZero = false ∧ exampleBoundary.min.le exampleBoundary.max ∧
    ((computeResourceRequirements (units 1) (fractionOf "50") exampleBoundary).1 = true ∧
      exampleBoundary.min.le (computeResourceRequirements (units 1) (fractionOf "50") exampleBoundary).2 ∧
      (computeResourceRequirements (units 1) (fractionOf "50") exampleBoundary).2.le exampleBoundary.max) :=
  ⟨by decide, by decide, C1_boundary_clamping.1 _ _ _ (by decide) (by decide)⟩

/-- C2 (scaled value), amended.  When `strconv.ParseFloat` accepts the percentage
text with value `p`, then at each of the four places whose source quantity is not
zero, is held as an `int64` amount or is positive, and has a whole-unit value below
`MaxInt64/1000` and a milli value `m` (the exact value in thousandths, rounded away
from zero) of at least `MinInt64`, `createQueueResources` stores the boundary's clamp
of this milli quantity: the binary64 product `float64(m) * (p / 100)` truncated toward
zero when that product is below `2^63`, and `MaxInt64` otherwise.  That milli value is
the product of the claim up to one unit: for `0 < m < 2^53` and a finite percentage
`p ≥ 0` whose exact product `m * p / 100` truncates to `t < 2^50`, it differs from `t`
by at most one.  The stored value does not depend on the fixed configuration, which it
replaces: with a fixed CPU request of `25m`, the percentage `"10"`, a user CPU request
of `1000m` and the boundary `[25m, 1000m]` the CPU request is `100m`. -/
theorem C2_scaled_value :
    (∀ (s : Slot) (d : Decls) (cfg : DeploymentConfig) (ann : Annotations) (uc : Container) (p : F64),
      ParseFloat (ann.get d.QueueSideCarResourcePercentageAnnotation) = (p, true) →
      (s.source uc).valid → (s.source uc).roundedAway → (s.source uc).IsZero = false →
      (s.source uc).scaledExact 0 < MaxInt64 / 1000 → MinInt64 ≤ (s.source uc).scaledExact (-3) →
      s.output (createQueueResources d cfg ann uc) = some ((s.boundary d).applyBoundary
        (NewMilliQuantity (cappedProduct ((s.source uc).scaledExact (-3)) (F64.div p (F64.ofInt 100)))
          Format.BinarySI))) ∧
    (∀ (m : Int) (P : Nat) (e t : Int), 0 < m → m < 2 ^ 53 →
      exactScaled m (F64.fin false P e) = some t → t < 2 ^ 50 →
      cappedProduct m (F64.div (F64.fin false P e) (F64.ofInt 100)) - t ≤ 1 ∧
      t - cappedProduct m (F64.div (F64.fin false P e) (F64.ofInt 100)) ≤ 1) ∧
    Slot.cpuRequest.output (createQueueResources exampleDecls someFixed (percentage "10")
      (userContainer (some [(ResourceCPU, milli 1000)]) none none)) =
        some (NewMilliQuantity 100 Format.BinarySI) := by
  refine ⟨?_, cappedProduct_accuracy, by decide⟩
  intro s d cfg ann uc p hp hvalid hround hz hw hm
  obtain ⟨hval, hmil, -⟩ := conversions_exact _ hvalid hround hw hm
  have hf : fractionFromPercentage ann d.QueueSideCarResourcePercentageAnnotation =
      (F64.div p (F64.ofInt 100), true) := by
    unfold fractionFromPercentage; rw [hp]
  rw [output_eq]
  have ho : s.overridden d ann uc = true := by
    unfold Slot.overridden computeResourceRequirements
    rw [hf, hz]; simp
  rw [if_pos ho, hf]
  unfold computeResourceRequirements
  rw [hz]
  simp only [Bool.false_eq_true, if_false]
  unfold newValue percentageValue scaledMilliValue cappedProduct
  rw [hval, hmil]
  simp only [hw, if_true]

/-- C2 amended, at the percentage `"57"` and a user CPU request of `100m`, whose exact
product truncates to `57`. -/
theorem C2_scaled_value_witness :
    ParseFloat ((percentage "57").get exampleDecls.QueueSideCarResourcePercentageAnnotation) =
      (F64.fin false 57 0, true) ∧
    (Slot.cpuRequest.source (userContainer (some [(ResourceCPU, milli 100)]) none none)).valid ∧
    (Slot.cpuRequest.source (userContainer (some [(ResourceCPU, milli 100)]) none none)).roundedAway ∧
    (Slot.cpuRequest.source (userContainer (some [(ResourceCPU, milli 100)]) none none)).IsZero = false ∧
    (Slot.cpuRequest.source (userContainer (some [(ResourceCPU, milli 100)]) none none)).scaledExact 0 <
      MaxInt64 / 1000 ∧
    MinInt64 ≤
      (Slot.cpuRequest.source (userContainer (some [(ResourceCPU, milli 100)]) none none)).scaledExact (-3) ∧
    Slot.cpuRequest.output (createQueueResources exampleDecls noFixed (percentage "57")
      (userContainer (some [(ResourceCPU, milli 100)]) none none)) =
      some ((Slot.cpuRequest.boundary exampleDecls).applyBoundary
        (NewMilliQuantity (cappedProduct
          ((Slot.cpuRequest.source (userContainer (some [(ResourceCPU, milli 100)]) none none)).scaledExact (-3))
          (F64.div (F64.fin false 57 0) (F64.ofInt 100))) Format.BinarySI)) ∧
    ((0 : Int) < 100 ∧ (100 : Int) < 2 ^ 53 ∧ exactScaled 100 (F64.fin false 57 0) = some 57 ∧
      (57 : Int) < 2 ^ 50 ∧
      cappedProduct 100 (F64.div (F64.fin false 57 0) (F64.ofInt 100)) - 57 ≤ 1 ∧
      57 - cappedProduct 100 (F64.div (F64.fin false 57 0) (F64.ofInt 100)) ≤ 1) :=
  ⟨by decide, by decide, by decide, by decide, by decide, by decide,
    C2_scaled_value.1 Slot.cpuRequest exampleDecls noFixed (percentage "57")
      (userContainer (some [(ResourceCPU, milli 100)]) none none) (F64.fin false 57 0)
      (by decide) (by decide) (by decide) (by decide) (by decide) (by decide),
    by decide, by decide, by decide, by decide,
    C2_scaled_value.2.1 100 57 0 57 (by decide) (by decide) (by decide) (by decide)⟩

/-- C2 as stated fails: with the percentage `"57"`, a user CPU request of `100m` (milli
value `100`, which fits) and the boundary `[25m, 1000m]`, the product `100 * 57 / 100`
truncated is `57`, inside the boundary, but `createQueueResources` stores `56m`: the
binary64 product of `100` and the fraction nearest to `0.57` lies below `57`.  And
with the percentage `"NaN"`, which `strconv.ParseFloat` accepts, the product with the
milli value `1000` is a NaN, which has no truncation, and `createQueueResources`
stores the ceiling `1000m`.  The two bounds on the source are needed as well: a source
of `9223372036854775` whole units has a milli value that fits `int64`, yet the test on
`Value()` replaces it, and with the percentage `"50"` the value computed is `2^62`,
not the truncated product of its milli value; and the library converts the negative
decimal `-1024.000512`, milli value `-1024001`, to `-1023999`, which is what is
scaled. -/
theorem C2_counterexample :
    (ParseFloat ((percentage "57").get exampleDecls.QueueSideCarResourcePercentageAnnotation) =
      (F64.fin false 57 0, true) ∧
    (milli 100).MilliValue = 100 ∧ (milli 100).scaledExact (-3) = 100 ∧
    (milli 100).Value < MaxInt64 / 1000 ∧
    exactScaled 100 (F64.fin false 57 0) = some 57 ∧
    exampleBoundary.applyBoundary (NewMilliQuantity 57 Format.BinarySI) =
      NewMilliQuantity 57 Format.BinarySI ∧
    Slot.cpuRequest.output (createQueueResources exampleDecls noFixed (percentage "57")
      (userContainer (some [(ResourceCPU, milli 100)]) none none)) =
      some (NewMilliQuantity 56 Format.BinarySI) ∧
    Slot.cpuRequest.output (createQueueResources exampleDecls noFixed (percentage "57")
      (userContainer (some [(ResourceCPU, milli 100)]) none none)) ≠
      some (exampleBoundary.applyBoundary (NewMilliQuantity 57 Format.BinarySI))) ∧
    (ParseFloat ((percentage "NaN").get exampleDecls.QueueSideCarResourcePercentageAnnotation) =
      (F64.nan, true) ∧
    (milli 1000).MilliValue = 1000 ∧ (milli 1000).Value < MaxInt64 / 1000 ∧
    exactScaled 1000 F64.nan = none ∧
    F64.mul (F64.ofInt 1000) (fractionOf "NaN") = F64.nan ∧
    Slot.cpuRequest.output (createQueueResources exampleDecls noFixed (percentage "NaN")
      (userContainer (some [(ResourceCPU, milli 1000)]) none none)) = some (milli 1000)) ∧
    ((units 9223372036854775).valid ∧ (units 9223372036854775).IsZero = false ∧
    (units 9223372036854775).scaledExact (-3) = 9223372036854775000 ∧
    fitsInt64 ((units 9223372036854775).scaledExact (-3)) ∧
    ¬ (units 9223372036854775).scaledExact 0 < MaxInt64 / 1000 ∧
    scaledMilliValue (units 9223372036854775) = MaxInt64 - 1 ∧
    exactScaled 9223372036854775000 (F64.fin false 50 0) = some 4611686018427387500 ∧
    cappedProduct 9223372036854775000 (fractionOf "50") = 4611686018427387392 ∧
    newValue (units 9223372036854775) (fractionOf "50") = 4611686018427387904) ∧
    (negativeDecimal.valid ∧ negativeDecimal.IsZero = false ∧ ¬ negativeDecimal.roundedAway ∧
    negativeDecimal.scaledExact 0 < MaxInt64 / 1000 ∧
    negativeDecimal.scaledExact (-3) = -1024001 ∧
    negativeDecimal.Value < MaxInt64 / 1000 ∧ negativeDecimal.MilliValue = -1023999 ∧
    cappedProduct (-1024001) (fractionOf "100") = -1024001 ∧
    newValue negativeDecimal (fractionOf "100") = -1023999) := by
  decide

/-- C3 (overflow safety), amended.  For every source quantity whose whole-unit value
lies between `MaxInt64/1000` and `MaxInt64`, and every fraction `f` in `(0,1]`: the
source is not zero, `Value()` returns its whole-unit value, the value scaled is
`float64(MaxInt64 - 1) = 2^63`, and the milli value computed is never negative and
never above `MaxInt64` (it does not wrap around); it is the capped maximum `MaxInt64`
when `f` equals one, and the result is the boundary's clamp of that milli value. -/
theorem C3_overflow_safety (q : Quantity) (f : F64) (b : resourceBoundary)
    (hv : q.valid) (hbig : MaxInt64 / 1000 ≤ q.scaledExact 0) (hfit : q.scaledExact 0 ≤ MaxInt64)
    (hpos : F64.lt F64.zero f = true) (hle : F64.le f F64.one = true) :
    q.IsZero = false ∧ q.Value = q.scaledExact 0 ∧
    percentageValue q f = F64.mul maxInt64AsFloat f ∧
    0 ≤ newValue q f ∧ newValue q f ≤ MaxInt64 ∧
    (F64.le F64.one f = true → newValue q f = MaxInt64) ∧
    computeResourceRequirements q f b =
      (true, b.applyBoundary (NewMilliQuantity (newValue q f) Format.BinarySI)) := by
  have hthr : MaxInt64 / 1000 = 9223372036854775 := by decide
  have hu : 0 < q.unscaled := by
    by_contra hc
    have := scaledExact_nonpos q 0 (by omega)
    rw [hthr] at hbig
    omega
  have hq : q.IsZero = false := by
    unfold Quantity.IsZero
    simp only [decide_eq_false_iff_not]
    omega
  have hval : q.Value = q.scaledExact 0 := Value_exact_pos q hv hu hfit
  have hs : scaledMilliValue q = MaxInt64 - 1 := by
    unfold scaledMilliValue
    rw [hval]
    have : ¬ q.scaledExact 0 < MaxInt64 / 1000 := not_lt.mpr hbig
    simp [this]
  have hpv : percentageValue q f = F64.mul maxInt64AsFloat f := by
    unfold percentageValue; rw [hs, ofInt_cap, maxInt64AsFloat_eq]
  have hcomp : computeResourceRequirements q f b =
      (true, b.applyBoundary (NewMilliQuantity (newValue q f) Format.BinarySI)) := by
    unfold computeResourceRequirements; rw [hq]; rfl
  have hone : F64.le F64.one f = true → newValue q f = MaxInt64 := by
    intro h1
    unfold newValue
    rw [hpv, mul_cap_one f h1 hle]
    simp
  have hb : 0 ≤ newValue q f ∧ newValue q f ≤ MaxInt64 := by
    have hm : (0 : Int) ≤ MaxInt64 ∧ MaxInt64 ≤ MaxInt64 := by decide
    unfold newValue
    rw [hpv, maxInt64AsFloat_eq]
    cases f with
    | nan => simp [F64.lt, F64.zero] at hpos
    | inf t =>
      cases t
      · simp [F64.le, F64.one] at hle
      · simp [F64.lt, F64.zero] at hpos
    | fin s n e =>
      cases s
      · simp only [F64.mul, Bool.xor_false, Bool.false_bne]
        rcases round_cases false (9007199254740992 * n) (10 + e) with hr | ⟨m', e', hr⟩
        · rw [hr]
          have : F64.lt (F64.inf false) (F64.fin false 9007199254740992 10) = false := rfl
          rw [this]
          exact hm
        · rw [hr]
          by_cases hlt : F64.lt (F64.fin false m' e') (F64.fin false 9007199254740992 10) = true
          · rw [if_pos hlt]
            rw [← maxInt64AsFloat_eq] at hlt
            have := toInt64_of_lt m' e' hlt
            rw [this.1]
            exact this.2
          · rw [if_neg hlt]
            exact hm
      · exfalso
        simp only [F64.lt, F64.zero, F64.scaled, decide_eq_true_eq, if_true, Bool.false_eq_true,
          if_false] at hpos
        have h1 : (0 : Int) ≤ (n : Int) * 2 ^ (e - min 0 e).toNat := by positivity
        simp at hpos
        omega
  exact ⟨hq, hval, hpv, hb.1, hb.2, hone, hcomp⟩

/-- C3 amended, at a source of `9223372036854776` whole units and the fraction of the
percentage `"100"`. -/
theorem C3_overflow_safety_witness :
    (units 9223372036854776).valid ∧ MaxInt64 / 1000 ≤ (units 9223372036854776).scaledExact 0 ∧
    (units 9223372036854776).scaledExact 0 ≤ MaxInt64 ∧
    F64.lt F64.zero (fractionOf "100") = true ∧ F64.le (fractionOf "100") F64.one = true ∧
    F64.le F64.one (fractionOf "100") = true ∧
    0 ≤ newValue (units 9223372036854776) (fractionOf "100") ∧
    newValue (units 9223372036854776) (fractionOf "100") = MaxInt64 :=
  ⟨by decide, by decide, by decide, by decide, by decide, by decide,
    (C3_overflow_safety (units 9223372036854776) (fractionOf "100") exampleBoundary
      (by decide) (by decide) (by decide) (by decide) (by decide)).2.2.2.1,
    (C3_overflow_safety (units 9223372036854776) (fractionOf "100") exampleBoundary
      (by decide) (by decide) (by decide) (by decide) (by decide)).2.2.2.2.2.1 (by decide)⟩

/-- C3 as stated fails.  A source of `9223372036854776` whole units has a milli value
that does not fit `int64`, yet with the fraction of the percentage `"50"` the milli
value computed is `2^62`, not the capped maximum `MaxInt64`, and with the fraction of
the percentage `"1e-16"` it is `9`, so that the result under the boundary
`[25m, 1000m]` is the floor `25m`.  Beyond `MaxInt64` whole units the value computed
does wrap around: for the source of `2^64 - 1000` whole units `Value()` returns
`-1000`, the test passes, `MilliValue()` returns `-1000000`, and with the fraction of
the percentage `"100"` the milli value computed is the negative `-1000000`; for the
source `20E` both `Value()` and `MilliValue()` return `0` and the milli value computed
is `0`.  In either case the result is the floor `25m`. -/
theorem C3_counterexample :
    ((units 9223372036854776).valid ∧ (units 9223372036854776).IsZero = false ∧
    MaxInt64 / 1000 ≤ (units 9223372036854776).scaledExact 0 ∧
    MaxInt64 / 1000 ≤ (units 9223372036854776).Value ∧
    ¬ fitsInt64 ((units 9223372036854776).scaledExact (-3)) ∧
    F64.lt F64.zero (fractionOf "50") = true ∧ F64.le (fractionOf "50") F64.one = true ∧
    newValue (units 9223372036854776) (fractionOf "50") = 4611686018427387904 ∧
    newValue (units 9223372036854776) (fractionOf "50") ≠ MaxInt64 ∧
    F64.lt F64.zero (fractionOf "1e-16") = true ∧ F64.le (fractionOf "1e-16") F64.one = true ∧
    newValue (units 9223372036854776) (fractionOf "1e-16") = 9 ∧
    computeResourceRequirements (units 9223372036854776) (fractionOf "1e-16") exampleBoundary =
      (true, milli 25)) ∧
    ((decimalUnits 18446744073709550616).valid ∧
    (decimalUnits 18446744073709550616).IsZero = false ∧
    MaxInt64 / 1000 ≤ (decimalUnits 18446744073709550616).scaledExact 0 ∧
    ¬ fitsInt64 ((decimalUnits 18446744073709550616).scaledExact (-3)) ∧
    (decimalUnits 18446744073709550616).Value = -1000 ∧
    (decimalUnits 18446744073709550616).MilliValue = -1000000 ∧
    F64.lt F64.zero (fractionOf "100") = true ∧ F64.le (fractionOf "100") F64.one = true ∧
    newValue (decimalUnits 18446744073709550616) (fractionOf "100") = -1000000 ∧
    newValue (decimalUnits 18446744073709550616) (fractionOf "100") < 0 ∧
    computeResourceRequirements (decimalUnits 18446744073709550616) (fractionOf "100")
      exampleBoundary = (true, milli 25)) ∧
    ((exa 20).valid ∧ (exa 20).IsZero = false ∧
    MaxInt64 / 1000 ≤ (exa 20).scaledExact 0 ∧ ¬ fitsInt64 ((exa 20).scaledExact (-3)) ∧
    (exa 20).Value = 0 ∧ (exa 20).MilliValue = 0 ∧
    newValue (exa 20) (fractionOf "100") = 0 ∧
    newValue (exa 20) (fractionOf "100") ≠ MaxInt64 ∧
    computeResourceRequirements (exa 20) (fractionOf "100") exampleBoundary = (true, milli 25)) := by
  decide

/-- C4 (pre-conversion guard): the source does not do what the claim and the comment
at the guard say.  The guard is the single test `Value() < MaxInt64/1000`, and it keeps
the conversion `MilliValue()` from overflowing only for the positive quantities whose
whole-unit value fits `int64`: for those, a milli value that does not fit is not
converted and `MaxInt64 - 1` is scaled instead (as a `float64` it is
`float64(MaxInt64) = 2^63`), and whenever `MilliValue()` is evaluated the milli value
fits and is returned exactly.  Outside of them the conversion is evaluated on
quantities whose milli value does not fit `int64`, and its wrapped or zero result is
scaled: for `-9223372036854776` whole units the test passes and `9223372036854775616`
is scaled; for `10E` the overflowing `Value()` returns `0`, the test passes and
`MilliValue()` returns `0`; for `2^64 - 1000` whole units `Value()` returns `-1000`,
the test passes and `-1000000` is scaled. -/
theorem C4_pre_conversion_guard :
    (∀ q : Quantity, q.valid → 0 < q.unscaled → q.scaledExact 0 ≤ MaxInt64 →
      (¬ fitsInt64 (q.scaledExact (-3)) →
        evaluatesMilliValue q = false ∧ scaledMilliValue q = MaxInt64 - 1 ∧
        F64.ofInt (scaledMilliValue q) = maxInt64AsFloat) ∧
      (evaluatesMilliValue q = true →
        fitsInt64 (q.scaledExact (-3)) ∧ scaledMilliValue q = q.scaledExact (-3))) ∧
    ((units (-9223372036854776)).valid ∧ (units (-9223372036854776)).IsZero = false ∧
      (units (-9223372036854776)).scaledExact (-3) = -9223372036854776000 ∧
      ¬ fitsInt64 ((units (-9223372036854776)).scaledExact (-3)) ∧
      (units (-9223372036854776)).Value = -9223372036854776 ∧
      evaluatesMilliValue (units (-9223372036854776)) = true ∧
      scaledMilliValue (units (-9223372036854776)) = 9223372036854775616 ∧
      scaledMilliValue (units (-9223372036854776)) ≠ MaxInt64 - 1 ∧
      newValue (units (-9223372036854776)) (fractionOf "50") = 4611686018427387904) ∧
    ((exa 10).valid ∧ (exa 10).IsZero = false ∧
      (exa 10).scaledExact (-3) = 10000000000000000000000 ∧
      ¬ fitsInt64 ((exa 10).scaledExact (-3)) ∧
      (exa 10).Value = 0 ∧ evaluatesMilliValue (exa 10) = true ∧
      scaledMilliValue (exa 10) = 0 ∧ scaledMilliValue (exa 10) ≠ MaxInt64 - 1 ∧
      newValue (exa 10) (fractionOf "50") = 0) ∧
    ((decimalUnits 18446744073709550616).valid ∧
      (decimalUnits 18446744073709550616).IsZero = false ∧
      ¬ fitsInt64 ((decimalUnits 18446744073709550616).scaledExact (-3)) ∧
      (decimalUnits 18446744073709550616).Value = -1000 ∧
      evaluatesMilliValue (decimalUnits 18446744073709550616) = true ∧
      scaledMilliValue (decimalUnits 18446744073709550616) = -1000000 ∧
      scaledMilliValue (decimalUnits 18446744073709550616) ≠ MaxInt64 - 1 ∧
      newValue (decimalUnits 18446744073709550616) (fractionOf "50") = -500000) := by
  refine ⟨?_, by decide, by decide, by decide⟩
  intro q hv hu hfit
  have hval : q.Value = q.scaledExact 0 := Value_exact_pos q hv hu hfit
  have hq : q.IsZero = false := by
    unfold Quantity.IsZero
    simp only [decide_eq_false_iff_not]
    omega
  have hthr : MaxInt64 / 1000 = 9223372036854775 := by decide
  have hmax : MaxInt64 = 9223372036854775807 := rfl
  have hpos := scaledExact_pos q (-3) hu
  have key : q.scaledExact 0 < 9223372036854775 → fitsInt64 (q.scaledExact (-3)) := by
    intro hlt
    have := milli_le_whole q hu
    unfold fitsInt64 MinInt64 MaxInt64
    omega
  have hev : evaluatesMilliValue q = decide (q.scaledExact 0 < 9223372036854775) := by
    unfold evaluatesMilliValue
    rw [hq, hval, hthr]; rfl
  refine ⟨?_, ?_⟩
  · intro hov
    have hge : ¬ q.scaledExact 0 < 9223372036854775 := fun h => hov (key h)
    have hs : scaledMilliValue q = MaxInt64 - 1 := by
      unfold scaledMilliValue
      rw [hval, hthr]; simp [hge]
    refine ⟨by rw [hev]; simp [hge], hs, ?_⟩
    rw [hs, ofInt_cap, maxInt64AsFloat_eq]
  · intro he
    rw [hev] at he
    have hlt : q.scaledExact 0 < 9223372036854775 := by simpa using he
    have hf := key hlt
    refine ⟨hf, ?_⟩
    unfold scaledMilliValue
    rw [hval, hthr]
    simp only [hlt, if_true]
    exact ScaledValue_exact q (-3) (Or.inr rfl) hv (Or.inr (le_of_lt hu)) hf

/-- C4, the part that holds, at a source of `9223372036854776` whole units, whose milli
value is above `MaxInt64`, and at a source of five whole units, whose milli value is
converted. -/
theorem C4_pre_conversion_guard_witness :
    ((units 9223372036854776).valid ∧ 0 < (units 9223372036854776).unscaled ∧
    (units 9223372036854776).scaledExact 0 ≤ MaxInt64 ∧
    ¬ fitsInt64 ((units 9223372036854776).scaledExact (-3)) ∧
    evaluatesMilliValue (units 9223372036854776) = false ∧
    scaledMilliValue (units 9223372036854776) = MaxInt64 - 1 ∧
    F64.ofInt (scaledMilliValue (units 9223372036854776)) = maxInt64AsFloat) ∧
    ((units 5).valid ∧ 0 < (units 5).unscaled ∧ (units 5).scaledExact 0 ≤ MaxInt64 ∧
    evaluatesMilliValue (units 5) = true ∧
    fitsInt64 ((units 5).scaledExact (-3)) ∧ scaledMilliValue (units 5) = (units 5).scaledExact (-3)) :=
  ⟨⟨by decide, by decide, by decide, by decide,
    (C4_pre_conversion_guard.1 (units 9223372036854776) (by decide) (by decide) (by decide)).1
      (by decide)⟩,
   ⟨by decide, by decide, by decide, by decide,
    (C4_pre_conversion_guard.1 (units 5) (by decide) (by decide) (by decide)).2 (by decide)⟩⟩

/-- C5 (zero-source no-op): at each of the four places (CPU request, CPU limit, memory
request, memory limit), when the source quantity of the user container is zero or
unset, the result of `createQueueResources` holds exactly the fixed value of the
configuration there, absent when none is configured, whatever the annotations are. -/
theorem C5_zero_source_noop (s : Slot) (d : Decls) (cfg : DeploymentConfig) (ann : Annotations)
    (uc : Container) (h : (s.source uc).IsZero = true) :
    s.output (createQueueResources d cfg ann uc) = s.fixed cfg := by
  rw [output_eq]
  have : s.overridden d ann uc = false := by
    unfold Slot.overridden computeResourceRequirements
    rw [h]; simp
  simp [this]

/-- C5, at a user container without resources, the percentage `"50"` and a fixed CPU
request of `25m`. -/
theorem C5_zero_source_noop_witness :
    (Slot.cpuRequest.source (userContainer none none none)).IsZero = true ∧
    Slot.cpuRequest.output (createQueueResources exampleDecls someFixed (percentage "50")
      (userContainer none none none)) = Slot.cpuRequest.fixed someFixed :=
  ⟨by decide, C5_zero_source_noop _ _ _ _ _ (by decide)⟩

/-- C6 (no override on a bad percentage), amended.  When the percentage annotation is
missing or `strconv.ParseFloat` returns an error for its text, the requests and limits
of the result hold under every resource name exactly the fixed value of the
configuration (nothing where none is configured), the requests map is present, and the
result is the same for every user container.  The function is total: it raises no
error. -/
theorem C6_bad_percentage (d : Decls) (cfg : DeploymentConfig) (ann : Annotations) (uc : Container)
    (h : List.lookup d.QueueSideCarResourcePercentageAnnotation ann = none ∨
      (ParseFloat (ann.get d.QueueSideCarResourcePercentageAnnotation)).2 = false) :
    (createQueueResources d cfg ann uc).Requests = some (seededRequests cfg) ∧
    (∀ k, lookupResource (createQueueResources d cfg ann uc).Requests k = fixedRequest cfg k) ∧
    (∀ k, lookupResource (createQueueResources d cfg ann uc).Limits k = fixedLimit cfg k) ∧
    (∀ uc', createQueueResources d cfg ann uc' = createQueueResources d cfg ann uc) := by
  have hp : (ParseFloat (ann.get d.QueueSideCarResourcePercentageAnnotation)).2 = false := by
    rcases h with h | h
    · have : ann.get d.QueueSideCarResourcePercentageAnnotation = "" := by
        simp [Annotations.get, h]
      rw [this]; decide
    · exact h
  have hok : (fractionFromPercentage ann d.QueueSideCarResourcePercentageAnnotation).2 = false := by
    unfold fractionFromPercentage
    rcases hq : ParseFloat (ann.get d.QueueSideCarResourcePercentageAnnotation) with ⟨v, ok⟩
    rw [hq] at hp
    simpa using hp
  have hreq : ∀ uc', (createQueueResources d cfg ann uc').Requests = some (seededRequests cfg) := by
    intro uc'; rw [createQueueResources_requests]; simp [hok]
  have hfin : ∀ uc', finalLimits d cfg ann uc' = seededLimits cfg := by
    intro uc'; simp [finalLimits, hok]
  refine ⟨hreq uc, ?_, ?_, ?_⟩
  · intro k; rw [hreq]; simp [lookupResource, get_seededRequests]
  · intro k; rw [lookup_limits, hfin, get_seededLimits]
  · intro uc'
    have e1 := hreq uc'
    have e2 := hreq uc
    have l1 := createQueueResources_limits d cfg ann uc'
    have l2 := createQueueResources_limits d cfg ann uc
    rw [hfin] at l1 l2
    cases hx : createQueueResources d cfg ann uc' with
    | mk lim req =>
      cases hy : createQueueResources d cfg ann uc with
      | mk lim' req' =>
        rw [hx] at e1 l1; rw [hy] at e2 l2
        simp only at e1 e2 l1 l2
        rw [e1, e2, l1, l2]

/-- C6, at the text `"ten"` and a user container that requests one core. -/
theorem C6_bad_percentage_witness :
    (List.lookup exampleDecls.QueueSideCarResourcePercentageAnnotation (percentage "ten") = none ∨
      (ParseFloat ((percentage "ten").get exampleDecls.QueueSideCarResourcePercentageAnnotation)).2 = false) ∧
    (createQueueResources exampleDecls someFixed (percentage "ten")
      (userContainer (some [(ResourceCPU, units 1)]) none none)).Requests = some (seededRequests someFixed) :=
  ⟨Or.inr (by decide),
    (C6_bad_percentage exampleDecls someFixed (percentage "ten")
      (userContainer (some [(ResourceCPU, units 1)]) none none) (Or.inr (by decide))).1⟩

/-- C6 as stated fails: the text `"0x1p4"` is not a base-10 floating-point value (the
texts `"10"`, `"12.5"` and `"1e2"` are), yet `strconv.ParseFloat` accepts it as the
hexadecimal literal of `16`, and with a fixed CPU request of `25m` and a user CPU
request of `1000m` the result holds the override `160m`, not the fixed `25m`. -/
theorem C6_counterexample :
    decimalFloatText "0x1p4" = false ∧
    decimalFloatText "10" = true ∧ decimalFloatText "12.5" = true ∧ decimalFloatText "1e2" = true ∧
    List.lookup exampleDecls.QueueSideCarResourcePercentageAnnotation (percentage "0x1p4") =
      some "0x1p4" ∧
    ParseFloat ((percentage "0x1p4").get exampleDecls.QueueSideCarResourcePercentageAnnotation) =
      (F64.fin false 1 4, true) ∧
    fixedRequest someFixed ResourceCPU = some (milli 25) ∧
    lookupResource (createQueueResources exampleDecls someFixed (percentage "0x1p4")
      (userContainer (some [(ResourceCPU, milli 1000)]) none none)).Requests ResourceCPU =
      some (NewMilliQuantity 160 Format.BinarySI) ∧
    lookupResource (createQueueResources exampleDecls someFixed (percentage "0x1p4")
      (userContainer (some [(ResourceCPU, milli 1000)]) none none)).Requests ResourceCPU ≠
      fixedRequest someFixed ResourceCPU ∧
    createQueueResources exampleDecls someFixed (percentage "0x1p4")
      (userContainer (some [(ResourceCPU, milli 1000)]) none none) ≠
    createQueueResources exampleDecls someFixed (percentage "0x1p4")
      (userContainer none none none) := by
  decide

/-- C7 (limits omission): the result of `createQueueResources` always has a requests
map; its limits map is nil exactly when the configuration fixes no limit for any kind
and neither the CPU limit nor the memory limit is overridden; a limits map that is
present is not empty. -/
theorem C7_limits_omission (d : Decls) (cfg : DeploymentConfig) (ann : Annotations) (uc : Container) :
    (createQueueResources d cfg ann uc).Requests.isSome = true ∧
    ((createQueueResources d cfg ann uc).Limits = none ↔
      (cfg.QueueSidecarCPULimit = none ∧ cfg.QueueSidecarMemoryLimit = none ∧
        cfg.QueueSidecarEphemeralStorageLimit = none ∧
        Slot.cpuLimit.overridden d ann uc = false ∧ Slot.memoryLimit.overridden d ann uc = false)) ∧
    (∀ l, (createQueueResources d cfg ann uc).Limits = some l → l ≠ []) := by
  refine ⟨by rw [createQueueResources_requests]; rfl, ?_, ?_⟩
  · rw [createQueueResources_limits]
    unfold finalLimits Slot.overridden Slot.source Slot.boundary seededLimits
    simp only []
    rcases fractionFromPercentage ann d.QueueSideCarResourcePercentageAnnotation with ⟨f, ok⟩
    rcases computeResourceRequirements (Cpu uc.Resources.Limits) f d.queueContainerLimitCPU with ⟨b1, q1⟩
    rcases computeResourceRequirements (Memory uc.Resources.Limits) f d.queueContainerLimitMemory with ⟨b2, q2⟩
    rcases cfg.QueueSidecarCPULimit with _ | a <;> rcases cfg.QueueSidecarMemoryLimit with _ | b <;>
      rcases cfg.QueueSidecarEphemeralStorageLimit with _ | c <;>
      cases ok <;> cases b1 <;> cases b2 <;> simp [seed, override, ResourceList.set] <;>
      (try split_ifs) <;> simp
  · intro l hl
    rw [createQueueResources_limits] at hl
    split_ifs at hl with h
    · cases hl
      intro h0; rw [h0] at h; simp at h

/-- C8 (overrides and their sources), amended.  At each of the four places, when the
value in the result of `createQueueResources` is a percentage override, the source
quantity of the user container is not zero (it may be negative), the result holds the
value `computeResourceRequirements` computed, and that value is strictly positive, so
not of zero magnitude, whenever the boundary has a positive floor that is at most its
ceiling. -/
theorem C8_override_source (s : Slot) (d : Decls) (cfg : DeploymentConfig) (ann : Annotations)
    (uc : Container) (h : s.overridden d ann uc = true) :
    (s.source uc).IsZero = false ∧
    s.output (createQueueResources d cfg ann uc) = some (computeResourceRequirements (s.source uc)
      (fractionFromPercentage ann d.QueueSideCarResourcePercentageAnnotation).1 (s.boundary d)).2 ∧
    (0 < (s.boundary d).min.unscaled → (s.boundary d).min.le (s.boundary d).max →
      0 < (computeResourceRequirements (s.source uc)
        (fractionFromPercentage ann d.QueueSideCarResourcePercentageAnnotation).1 (s.boundary d)).2.unscaled) := by
  have hz : (s.source uc).IsZero = false := by
    by_contra hne
    have ht : (s.source uc).IsZero = true := by simpa using hne
    unfold Slot.overridden computeResourceRequirements at h
    rw [ht] at h
    simp at h
  refine ⟨hz, by rw [output_eq, if_pos h], ?_⟩
  intro hfloor hb
  unfold computeResourceRequirements
  rw [hz]
  exact pos_of_le _ _ hfloor (applyBoundary_within _ _ hb).1

/-- C8 amended, at the percentage `"50"` and a user CPU request of one core. -/
theorem C8_override_source_witness :
    Slot.cpuRequest.overridden exampleDecls (percentage "50")
      (userContainer (some [(ResourceCPU, units 1)]) none none) = true ∧
    (Slot.cpuRequest.source (userContainer (some [(ResourceCPU, units 1)]) none none)).IsZero = false :=
  ⟨by decide,
    (C8_override_source Slot.cpuRequest exampleDecls noFixed (percentage "50")
      (userContainer (some [(ResourceCPU, units 1)]) none none) (by decide)).1⟩

/-- C8 as stated fails: with the percentage `"50"` and a user CPU request of `-1`, the
CPU request of the result is a percentage override (the floor `25m` of the boundary)
although the source quantity is not strictly positive. -/
theorem C8_counterexample :
    Slot.cpuRequest.source (userContainer (some [(ResourceCPU, units (-1))]) none none) = units (-1) ∧
    (units (-1)).Cmp Quantity.zero = -1 ∧
    ¬ 0 < (units (-1)).unscaled ∧
    Slot.cpuRequest.overridden exampleDecls (percentage "50")
      (userContainer (some [(ResourceCPU, units (-1))]) none none) = true ∧
    Slot.cpuRequest.fixed noFixed = none ∧
    Slot.cpuRequest.output (createQueueResources exampleDecls noFixed (percentage "50")
      (userContainer (some [(ResourceCPU, units (-1))]) none none)) = some (milli 25) := by
  decide

/-- C9 (ephemeral storage pass-through): the ephemeral-storage request and limit in
the result of `createQueueResources` are the fixed ones of the configuration, absent
when not configured, for every annotation value and every user container. -/
theorem C9_ephemeral_storage (d : Decls) (cfg : DeploymentConfig) (ann : Annotations) (uc : Container) :
    lookupResource (createQueueResources d cfg ann uc).Requests ResourceEphemeralStorage =
      cfg.QueueSidecarEphemeralStorageRequest ∧
    lookupResource (createQueueResources d cfg ann uc).Limits ResourceEphemeralStorage =
      cfg.QueueSidecarEphemeralStorageLimit := by
  obtain ⟨n1, n2, n3, n4, n5, n6⟩ := names_distinct
  constructor
  · rw [createQueueResources_requests]
    by_cases hok : (fractionFromPercentage ann d.QueueSideCarResourcePercentageAnnotation).2 = true <;>
      simp [hok, lookupResource, get_override, get_seededRequests, fixedRequest, n1, n2, n3, n4, n5, n6]
  · rw [lookup_limits]
    unfold finalLimits
    by_cases hok : (fractionFromPercentage ann d.QueueSideCarResourcePercentageAnnotation).2 = true <;>
      simp [hok, get_override, get_seededLimits, fixedLimit, n1, n2, n3, n4, n5, n6]

/-- C10 (readiness rewrite): for every user readiness probe, whatever its handler, on
which the serialisation of the normalised probe succeeds, `makeQueueContainer` returns
a container whose readiness probe is the user probe with the handler replaced by an
HTTP GET check (no exec and no TCP handler) on the serving port of the sidecar with
exactly the one internal-probe header, with `InitialDelaySeconds`, `TimeoutSeconds`,
`FailureThreshold` and `SuccessThreshold` unchanged, and with `PeriodSeconds` set to
`1` when the user's is `0` and unchanged otherwise. -/
theorem C10_readiness_rewrite (d : Decls) (rev : Revision) (cfg : Config) (p : Probe) (json : String)
    (hp : rev.Container.ReadinessProbe = some p)
    (henc : d.EncodeProbe (applyReadinessProbeDefaultsForExec d (some p) rev.UserPort) = Except.ok json) :
    ∃ c, makeQueueContainer d rev cfg = Outcome.ok c ∧
      c.ReadinessProbe = some (rewrittenReadiness d (servingPortNumber d rev) p) := by
  unfold makeQueueContainer
  simp only [hp, henc]
  refine ⟨_, rfl, ?_⟩
  unfold rewrittenReadiness servingPortNumber queueHTTP2Port queueHTTPPort FromInt
  by_cases h1 : cfg.Features.InjectPodIP = Enabled <;>
    by_cases h2 : cfg.Features.AutoDetectHTTP2 = Enabled <;>
    by_cases h3 : rev.Protocol = d.ProtocolH2C <;>
    by_cases h4 : p.PeriodSeconds = 0 <;>
    simp [h1, h2, h3, h4]

/-- C10, at a user probe that runs a command: the sidecar probes itself over HTTP on
port `8012`, with period `1` and the user's other timing fields. -/
theorem C10_readiness_rewrite_witness :
    (exampleRevision (userContainer none none (some execProbe))).Container.ReadinessProbe = some execProbe ∧
    exampleDecls.EncodeProbe (applyReadinessProbeDefaultsForExec exampleDecls (some execProbe)
      (exampleRevision (userContainer none none (some execProbe))).UserPort) = Except.ok "probe" ∧
    rewrittenReadiness exampleDecls (servingPortNumber exampleDecls
        (exampleRevision (userContainer none none (some execProbe)))) execProbe =
      { Handler := ⟨none, some ⟨"", IntOrString.int 8012, "", "", [⟨"K-Network-Probe", "queue"⟩]⟩, none⟩
        InitialDelaySeconds := 3
        TimeoutSeconds := 7
        PeriodSeconds := 1
        SuccessThreshold := 1
        FailureThreshold := 3 } ∧
    ∃ c, makeQueueContainer exampleDecls (exampleRevision (userContainer none none (some execProbe)))
        exampleConfig = Outcome.ok c ∧
      c.ReadinessProbe = some (rewrittenReadiness exampleDecls (servingPortNumber exampleDecls
        (exampleRevision (userContainer none none (some execProbe)))) execProbe) :=
  ⟨rfl, rfl, by decide,
    C10_readiness_rewrite exampleDecls (exampleRevision (userContainer none none (some execProbe)))
      exampleConfig execProbe "probe" rfl rfl⟩

/-- C11 (startup opt-out): `makeStartupExecProbe` returns nil exactly for a user probe
that is present and has a period above zero, whatever the progress deadline is; so
every probe with period `> 0` (such as five seconds) gets no startup probe, and nil is
returned only for such probes. -/
theorem C11_startup_opt_out (i : Option Probe) (progressDeadline : Int) :
    makeStartupExecProbe i progressDeadline = none ↔ ∃ p, i = some p ∧ 0 < p.PeriodSeconds := by
  unfold makeStartupExecProbe
  cases i with
  | none => simp
  | some p =>
    by_cases h : 0 < p.PeriodSeconds
    · simp [h]
    · simp [h]

/-- C12 (startup default), amended.  For every user probe with period `0` and every
progress deadline `d`, `makeStartupExecProbe` returns the probe whose only handler is
the exec check with command `["/ko-app/queue", "-probe-timeout", d.String()]`, with
the user's initial delay, period `1`, both thresholds `1`, and the timeout
`int32(d.Seconds())`.  That timeout is the number of whole seconds of `d`, the fraction
dropped, for every `d` from `0` to below `2^24` seconds, and it is exactly `k` for a
deadline of `k` whole seconds with `0 ≤ k < 2^31`; from `2^24` seconds on the
`float64` sum can reach the next second.  A user probe with period `0` and initial
delay `3` keeps the delay `3`, and with a deadline of ten minutes gets the timeout
`600`. -/
theorem C12_startup_default :
    (∀ (p : Probe) (d : Int), p.PeriodSeconds = 0 →
      makeStartupExecProbe (some p) d = some (startupProbe p.InitialDelaySeconds d)) ∧
    (∀ (i d : Int), 0 ≤ d → d < 16777216000000000 →
      (startupProbe i d).TimeoutSeconds = d / 1000000000) ∧
    (∀ (i k : Int), 0 ≤ k → k < 2147483648 → (startupProbe i (k * 1000000000)).TimeoutSeconds = k) ∧
    (startupProbe 0 16777216999999999).TimeoutSeconds = 16777217 ∧
    makeStartupExecProbe (some execProbe) 600000000000 = some
      { Handler := ⟨some ⟨["/ko-app/queue", "-probe-timeout", "10m0s"]⟩, none, none⟩
        InitialDelaySeconds := 3
        TimeoutSeconds := 600
        PeriodSeconds := 1
        SuccessThreshold := 1
        FailureThreshold := 1 } := by
  refine ⟨?_, ?_, ?_, by decide, by decide⟩
  · intro p d hp
    unfold makeStartupExecProbe startupProbe
    simp [hp]
  · intro i d h0 h1
    exact seconds_truncated d h0 h1
  · intro i k h0 h1
    exact wholeSeconds_exact k h0 h1

/-- C12 amended, at the probe that runs a command (period `0`, initial delay `3`) and a
deadline of ninety and a half seconds. -/
theorem C12_startup_default_witness :
    execProbe.PeriodSeconds = 0 ∧
    makeStartupExecProbe (some execProbe) 90500000000 =
      some (startupProbe execProbe.InitialDelaySeconds 90500000000) ∧
    (0 : Int) ≤ 90500000000 ∧ (90500000000 : Int) < 16777216000000000 ∧
    (startupProbe 3 90500000000).TimeoutSeconds = 90500000000 / 1000000000 ∧
    (0 : Int) ≤ 90 ∧ (90 : Int) < 2147483648 ∧
    (startupProbe 3 (90 * 1000000000)).TimeoutSeconds = 90 :=
  ⟨rfl, C12_startup_default.1 execProbe 90500000000 rfl, by decide, by decide,
    C12_startup_default.2.1 3 90500000000 (by decide) (by decide), by decide, by decide,
    C12_startup_default.2.2.1 3 90 (by decide) (by decide)⟩

/-- C12 as stated fails: with a progress deadline of `1.9s` the timeout of the startup
probe is `1`, the seconds truncated, while `1.9s` rounded to whole seconds is `2`; and
with a deadline of `2^31` seconds the timeout is not `2147483648`, which no `int32`
holds. -/
theorem C12_counterexample :
    execProbe.PeriodSeconds = 0 ∧
    durationString 1900000000 = "1.9s" ∧
    nearestSeconds 1900000000 = 2 ∧
    (makeStartupExecProbe (some execProbe) 1900000000).map (fun q => q.TimeoutSeconds) = some 1 ∧
    nearestSeconds (2147483648 * 1000000000) = 2147483648 ∧
    (makeStartupExecProbe (some execProbe) (2147483648 * 1000000000)).map
      (fun q => q.TimeoutSeconds) = some (-2147483648) := by
  decide

/-- C13 (absent probe), amended: for an absent user probe and every progress deadline
`makeStartupExecProbe` returns the default startup probe, with an initial delay of
`0`; it does not return nil. -/
theorem C13_absent_probe_startup (progressDeadline : Int) :
    makeStartupExecProbe none progressDeadline = some (startupProbe 0 progressDeadline) := by
  unfold makeStartupExecProbe startupProbe
  simp

/-- C13 as stated fails: for the absent probe and a progress deadline of ten minutes
the startup probe is not nil, it is the exec probe with timeout `600`. -/
theorem C13_counterexample :
    makeStartupExecProbe none 600000000000 ≠ none ∧
    makeStartupExecProbe none 600000000000 = some
      { Handler := ⟨some ⟨["/ko-app/queue", "-probe-timeout", "10m0s"]⟩, none, none⟩
        InitialDelaySeconds := 0
        TimeoutSeconds := 600
        PeriodSeconds := 1
        SuccessThreshold := 1
        FailureThreshold := 1 } := by
  decide

/-- C14 (exec downgrade and TCP rewrite): for every port, a probe whose only handler
is an exec check leaves `applyReadinessProbeDefaultsForExec` with the TCP check on
`127.0.0.1` at that port as its only handler (no exec command, no HTTP check); a probe
with a TCP check and no HTTP check leaves it with the TCP check on `127.0.0.1` at that
port, the rest of the handler being as before. -/
theorem C14_exec_downgrade_tcp_rewrite (d : Decls) (p : Probe) (port : Int) :
    (∀ ex, p.Handler = ⟨some ex, none, none⟩ →
      ∃ q, applyReadinessProbeDefaultsForExec d (some p) port = some q ∧
        q.Handler = ⟨none, none, some (loopbackTCP port)⟩) ∧
    (∀ t, p.Handler.HTTPGet = none → p.Handler.TCPSocket = some t →
      ∃ q, applyReadinessProbeDefaultsForExec d (some p) port = some q ∧
        q.Handler = ⟨p.Handler.Exec, none, some (loopbackTCP port)⟩) := by
  constructor
  · intro ex h
    unfold applyReadinessProbeDefaultsForExec applyHandlerDefaults
    simp only [h]
    split_ifs <;> exact ⟨_, rfl, rfl⟩
  · intro t h1 h2
    unfold applyReadinessProbeDefaultsForExec applyHandlerDefaults
    simp only [h1, h2]
    split_ifs <;> exact ⟨_, rfl, rfl⟩

/-- C14, at the probe that runs a command and at the TCP probe, for port `8080`. -/
theorem C14_exec_downgrade_tcp_rewrite_witness :
    execProbe.Handler = ⟨some ⟨["/bin/ready"]⟩, none, none⟩ ∧
    (∃ q, applyReadinessProbeDefaultsForExec exampleDecls (some execProbe) 8080 = some q ∧
      q.Handler = ⟨none, none, some (loopbackTCP 8080)⟩) ∧
    tcpProbe.Handler.HTTPGet = none ∧
    tcpProbe.Handler.TCPSocket = some ⟨IntOrString.int 1234, "example.com"⟩ ∧
    (∃ q, applyReadinessProbeDefaultsForExec exampleDecls (some tcpProbe) 8080 = some q ∧
      q.Handler = ⟨tcpProbe.Handler.Exec, none, some (loopbackTCP 8080)⟩) :=
  ⟨rfl, (C14_exec_downgrade_tcp_rewrite exampleDecls execProbe 8080).1 _ rfl, rfl, rfl,
    (C14_exec_downgrade_tcp_rewrite exampleDecls tcpProbe 8080).2 _ rfl rfl⟩

/-- C15 (HTTP normalisation): for every port and every probe with an HTTP check,
`applyReadinessProbeDefaultsForExec` sets the host of the check to `127.0.0.1` and its
port to the given port, sets the scheme to `HTTP` when it was empty and keeps a
non-empty scheme, keeps the path, and makes the header list the user's headers in
their order followed by the one internal-probe header; the other handler fields are
kept. -/
theorem C15_http_normalisation (d : Decls) (p : Probe) (port : Int) (h : HTTPGetAction)
    (hh : p.Handler.HTTPGet = some h) :
    ∃ q, applyReadinessProbeDefaultsForExec d (some p) port = some q ∧
      q.Handler.HTTPGet = some
        { Path := h.Path
          Port := IntOrString.int port
          Host := "127.0.0.1"
          Scheme := if h.Scheme = "" then "HTTP" else h.Scheme
          HTTPHeaders := h.HTTPHeaders ++ [kubeletProbeHeader d] } ∧
      q.Handler.Exec = p.Handler.Exec ∧ q.Handler.TCPSocket = p.Handler.TCPSocket := by
  unfold applyReadinessProbeDefaultsForExec applyHandlerDefaults
  simp only [hh]
  split_ifs <;> exact ⟨_, rfl, rfl, rfl, rfl⟩

/-- C15, at the HTTP probe with one user header and an empty scheme, for port `8080`. -/
theorem C15_http_normalisation_witness :
    httpProbe.Handler.HTTPGet = some ⟨"/healthz", IntOrString.int 80, "", "", [⟨"X-User", "1"⟩]⟩ ∧
    ∃ q, applyReadinessProbeDefaultsForExec exampleDecls (some httpProbe) 8080 = some q ∧
      q.Handler.HTTPGet = some
        { Path := "/healthz"
          Port := IntOrString.int 8080
          Host := "127.0.0.1"
          Scheme := "HTTP"
          HTTPHeaders := [⟨"X-User", "1"⟩, ⟨"K-Kubelet-Probe", "queue"⟩] } ∧
      q.Handler.Exec = httpProbe.Handler.Exec ∧ q.Handler.TCPSocket = httpProbe.Handler.TCPSocket :=
  ⟨rfl, C15_http_normalisation exampleDecls httpProbe 8080 _ rfl⟩

/-- C16 (normalised timeout): for every probe that is present and every port, the
probe `applyReadinessProbeDefaultsForExec` leaves has a timeout of at least `1`
whenever its period is above `0`; the timeout is `1` when the period is above `0` and
the timeout was below `1`, and is unchanged otherwise; the initial delay, the period
and the two thresholds are unchanged; an absent probe stays absent. -/
theorem C16_timeout_invariant (d : Decls) (p : Probe) (port : Int) :
    (∃ q, applyReadinessProbeDefaultsForExec d (some p) port = some q ∧
      (0 < q.PeriodSeconds → 1 ≤ q.TimeoutSeconds) ∧
      q.TimeoutSeconds = (if 0 < p.PeriodSeconds ∧ p.TimeoutSeconds < 1 then 1 else p.TimeoutSeconds) ∧
      q.InitialDelaySeconds = p.InitialDelaySeconds ∧ q.PeriodSeconds = p.PeriodSeconds ∧
      q.FailureThreshold = p.FailureThreshold ∧ q.SuccessThreshold = p.SuccessThreshold) ∧
    applyReadinessProbeDefaultsForExec d none port = none := by
  refine ⟨?_, rfl⟩
  have hk : (applyHandlerDefaults d p port).InitialDelaySeconds = p.InitialDelaySeconds ∧
      (applyHandlerDefaults d p port).TimeoutSeconds = p.TimeoutSeconds ∧
      (applyHandlerDefaults d p port).PeriodSeconds = p.PeriodSeconds ∧
      (applyHandlerDefaults d p port).FailureThreshold = p.FailureThreshold ∧
      (applyHandlerDefaults d p port).SuccessThreshold = p.SuccessThreshold := by
    unfold applyHandlerDefaults
    split
    · exact ⟨rfl, rfl, rfl, rfl, rfl⟩
    · split
      · exact ⟨rfl, rfl, rfl, rfl, rfl⟩
      · split <;> exact ⟨rfl, rfl, rfl, rfl, rfl⟩
  obtain ⟨k1, k2, k3, k4, k5⟩ := hk
  unfold applyReadinessProbeDefaultsForExec
  by_cases hc : 0 < p.PeriodSeconds ∧ p.TimeoutSeconds < 1
  · have hc' : 0 < (applyHandlerDefaults d p port).PeriodSeconds ∧
        (applyHandlerDefaults d p port).TimeoutSeconds < 1 := by rw [k3, k2]; exact hc
    simp only [hc', and_self, if_true]
    exact ⟨_, rfl, fun _ => le_refl _, by simp [hc], k1, k3, k4, k5⟩
  · have hc' : ¬ (0 < (applyHandlerDefaults d p port).PeriodSeconds ∧
        (applyHandlerDefaults d p port).TimeoutSeconds < 1) := by rw [k3, k2]; exact hc
    simp only [hc', if_false]
    refine ⟨_, rfl, ?_, by simp [hc, k2], k1, k3, k4, k5⟩
    intro hp
    rw [k3] at hp
    rw [k2]
    by_contra hlt
    exact hc ⟨hp, by omega⟩

/-- C17 (absent probe in `makeQueueContainer`): the source does not do what the claim
says.  For every revision whose user container has no readiness probe,
`makeQueueContainer` returns no container: it returns the error of the serialiser
when that rejects the nil probe, and otherwise dereferences the nil copy of the probe
and panics. -/
theorem C17_absent_probe_fault :
    (∀ (d : Decls) (rev : Revision) (cfg : Config), rev.Container.ReadinessProbe = none →
      (∀ c, makeQueueContainer d rev cfg ≠ Outcome.ok c) ∧
      (∀ err, d.EncodeProbe none = Except.error err →
        makeQueueContainer d rev cfg = Outcome.error ("failed to serialize readiness probe: " ++ err)) ∧
      (∀ json, d.EncodeProbe none = Except.ok json → makeQueueContainer d rev cfg = Outcome.panic)) ∧
    makeQueueContainer exampleDecls (exampleRevision (userContainer none none none)) exampleConfig =
      Outcome.error "failed to serialize readiness probe: cannot encode nil probe" ∧
    makeQueueContainer lenientDecls (exampleRevision (userContainer none none none)) exampleConfig =
      Outcome.panic := by
  refine ⟨?_, rfl, rfl⟩
  intro d rev cfg h
  have hu : applyReadinessProbeDefaultsForExec d none rev.UserPort = none := rfl
  refine ⟨?_, ?_, ?_⟩
  · intro c
    unfold makeQueueContainer
    simp only [h, hu]
    cases d.EncodeProbe none <;> simp
  · intro err he
    unfold makeQueueContainer
    simp only [h, hu, he]
  · intro json he
    unfold makeQueueContainer
    simp only [h, hu, he]

/-- C17, at the revision of the examples without a readiness probe. -/
theorem C17_absent_probe_fault_witness :
    (exampleRevision (userContainer none none none)).Container.ReadinessProbe = none ∧
    ∀ c, makeQueueContainer exampleDecls (exampleRevision (userContainer none none none))
      exampleConfig ≠ Outcome.ok c :=
  ⟨rfl, (C17_absent_probe_fault.1 exampleDecls (exampleRevision (userContainer none none none))
    exampleConfig rfl).1⟩

/-- C18 (feature-flag parsing): for every string map `NewFeaturesConfigFromMap`
returns no error, and each feature field is the canonical flag (`Enabled`, `Allowed`
or `Disabled`) that equals the value at the feature's key ignoring letter case when
the key is present with such a value, and the default of `defaultFeaturesConfig` when
the key is missing or its value matches none of the three; every field of the result
is one of the three flags, and the empty map gives exactly the defaults. -/
theorem C18_feature_flag_parsing (data : List (String × String)) :
    (∃ nc, NewFeaturesConfigFromMap data = Except.ok nc ∧
      FlagSpec data "multi-container" defaultFeaturesConfig.MultiContainer nc.MultiContainer ∧
      FlagSpec data "kubernetes.podspec-affinity" defaultFeaturesConfig.PodSpecAffinity nc.PodSpecAffinity ∧
      FlagSpec data "kubernetes.podspec-dryrun" defaultFeaturesConfig.PodSpecDryRun nc.PodSpecDryRun ∧
      FlagSpec data "kubernetes.podspec-hostaliases" defaultFeaturesConfig.PodSpecHostAliases
        nc.PodSpecHostAliases ∧
      FlagSpec data "kubernetes.podspec-fieldref" defaultFeaturesConfig.PodSpecFieldRef nc.PodSpecFieldRef ∧
      FlagSpec data "kubernetes.podspec-nodeselector" defaultFeaturesConfig.PodSpecNodeSelector
        nc.PodSpecNodeSelector ∧
      FlagSpec data "kubernetes.podspec-runtimeclassname" defaultFeaturesConfig.PodSpecRuntimeClassName
        nc.PodSpecRuntimeClassName ∧
      FlagSpec data "kubernetes.podspec-securitycontext" defaultFeaturesConfig.PodSpecSecurityContext
        nc.PodSpecSecurityContext ∧
      FlagSpec data "kubernetes.containerspec-addcapabilities"
        defaultFeaturesConfig.ContainerSpecAddCapabilities nc.ContainerSpecAddCapabilities ∧
      FlagSpec data "kubernetes.podspec-tolerations" defaultFeaturesConfig.PodSpecTolerations
        nc.PodSpecTolerations ∧
      FlagSpec data "tag-header-based-routing" defaultFeaturesConfig.TagHeaderBasedRouting
        nc.TagHeaderBasedRouting ∧
      FlagSpec data "autodetect-http2" defaultFeaturesConfig.AutoDetectHTTP2 nc.AutoDetectHTTP2 ∧
      FlagSpec data "inject-pod-ip" defaultFeaturesConfig.InjectPodIP nc.InjectPodIP ∧
      (∀ v, v ∈ [nc.MultiContainer, nc.PodSpecAffinity, nc.PodSpecDryRun, nc.PodSpecFieldRef,
          nc.PodSpecHostAliases, nc.PodSpecNodeSelector, nc.PodSpecRuntimeClassName,
          nc.PodSpecSecurityContext, nc.ContainerSpecAddCapabilities, nc.PodSpecTolerations,
          nc.TagHeaderBasedRouting, nc.AutoDetectHTTP2, nc.InjectPodIP] →
        v = Enabled ∨ v = Allowed ∨ v = Disabled)) ∧
    NewFeaturesConfigFromMap [] = Except.ok defaultFeaturesConfig := by
  refine ⟨⟨parsedFeatures data, ?_, parsedFlag_spec _ _ _, parsedFlag_spec _ _ _, parsedFlag_spec _ _ _,
    parsedFlag_spec _ _ _, parsedFlag_spec _ _ _, parsedFlag_spec _ _ _, parsedFlag_spec _ _ _,
    parsedFlag_spec _ _ _, parsedFlag_spec _ _ _, parsedFlag_spec _ _ _, parsedFlag_spec _ _ _,
    parsedFlag_spec _ _ _, parsedFlag_spec _ _ _, ?_⟩, rfl⟩
  · unfold NewFeaturesConfigFromMap parsedFeatures
    simp only [asFlag_eq, bind, Except.bind, pure, Except.pure]
  · intro v hv
    have hc : ∀ key dflt, dflt ∈ canonicalFlags →
        parsedFlag key data dflt = Enabled ∨ parsedFlag key data dflt = Allowed ∨
          parsedFlag key data dflt = Disabled := by
      intro key dflt hd
      have := parsedFlag_canonical key data dflt hd
      simpa [canonicalFlags] using this
    have d1 : Enabled ∈ canonicalFlags := by simp [canonicalFlags]
    have d2 : Allowed ∈ canonicalFlags := by simp [canonicalFlags]
    have d3 : Disabled ∈ canonicalFlags := by simp [canonicalFlags]
    simp only [List.mem_cons, List.mem_singleton, List.not_mem_nil, or_false] at hv
    rcases hv with rfl | rfl | rfl | rfl | rfl | rfl | rfl | rfl | rfl | rfl | rfl | rfl | rfl
    · exact hc _ _ d1
    · exact hc _ _ d3
    · exact hc _ _ d2
    · exact hc _ _ d3
    · exact hc _ _ d3
    · exact hc _ _ d3
    · exact hc _ _ d3
    · exact hc _ _ d3
    · exact hc _ _ d3
    · exact hc _ _ d3
    · exact hc _ _ d3
    · exact hc _ _ d3
    · exact hc _ _ d1

/-- C19 (idempotence of the normalisation): for every port, an absent probe stays
absent under two applications of `applyReadinessProbeDefaultsForExec`; for a probe
without an HTTP check (a TCP check, an exec check or no handler) the second
application changes nothing; for a probe with an HTTP check the second application
changes only the header list of the check, to which it appends one more copy of the
internal-probe header, so the list grows by exactly one at each application. -/
theorem C19_idempotence (d : Decls) (port : Int) :
    applyReadinessProbeDefaultsForExec d (applyReadinessProbeDefaultsForExec d none port) port = none ∧
    (∀ p : Probe, p.Handler.HTTPGet = none →
      applyReadinessProbeDefaultsForExec d (applyReadinessProbeDefaultsForExec d (some p) port) port =
        applyReadinessProbeDefaultsForExec d (some p) port) ∧
    (∀ (p : Probe) (h : HTTPGetAction), p.Handler.HTTPGet = some h →
      ∃ q1 h1, applyReadinessProbeDefaultsForExec d (some p) port = some q1 ∧
        q1.Handler.HTTPGet = some h1 ∧
        h1.HTTPHeaders = h.HTTPHeaders ++ [kubeletProbeHeader d] ∧
        applyReadinessProbeDefaultsForExec d (some q1) port = some (withOneMoreHeader d q1) ∧
        (withOneMoreHeader d q1).Handler.HTTPGet =
          some { h1 with HTTPHeaders := h1.HTTPHeaders ++ [kubeletProbeHeader d] }) := by
  refine ⟨rfl, ?_, ?_⟩
  · intro p hp
    obtain ⟨⟨ex, hg, tcp⟩, idl, tmo, per, st, ft⟩ := p
    simp only at hp
    subst hp
    rcases tcp with _ | t <;> rcases ex with _ | e <;>
      simp only [applyReadinessProbeDefaultsForExec, applyHandlerDefaults] <;>
      by_cases hc : 0 < per ∧ tmo < 1 <;>
      simp [hc, applyReadinessProbeDefaultsForExec, applyHandlerDefaults, localAddress]
  · intro p h hp
    obtain ⟨⟨ex, hg, tcp⟩, idl, tmo, per, st, ft⟩ := p
    simp only at hp
    subst hp
    obtain ⟨path, prt, host, scheme, hdrs⟩ := h
    by_cases hc : 0 < per ∧ tmo < 1 <;> by_cases hs : scheme = "" <;>
      simp [hc, hs, applyReadinessProbeDefaultsForExec, applyHandlerDefaults, kubeletProbeHeader,
        URISchemeHTTP, withOneMoreHeader, localAddress, FromInt]

/-- C19, at the TCP probe and at the HTTP probe, for port `8080`. -/
theorem C19_idempotence_witness :
    tcpProbe.Handler.HTTPGet = none ∧
    applyReadinessProbeDefaultsForExec exampleDecls
        (applyReadinessProbeDefaultsForExec exampleDecls (some tcpProbe) 8080) 8080 =
      applyReadinessProbeDefaultsForExec exampleDecls (some tcpProbe) 8080 ∧
    httpProbe.Handler.HTTPGet = some ⟨"/healthz", IntOrString.int 80, "", "", [⟨"X-User", "1"⟩]⟩ ∧
    ∃ q1 h1, applyReadinessProbeDefaultsForExec exampleDecls (some httpProbe) 8080 = some q1 ∧
      q1.Handler.HTTPGet = some h1 ∧
      h1.HTTPHeaders = [⟨"X-User", "1"⟩] ++ [kubeletProbeHeader exampleDecls] ∧
      applyReadinessProbeDefaultsForExec exampleDecls (some q1) 8080 =
        some (withOneMoreHeader exampleDecls q1) ∧
      (withOneMoreHeader exampleDecls q1).Handler.HTTPGet =
        some { h1 with HTTPHeaders := h1.HTTPHeaders ++ [kubeletProbeHeader exampleDecls] } :=
  ⟨rfl, (C19_idempotence exampleDecls 8080).2.1 tcpProbe rfl, rfl,
    (C19_idempotence exampleDecls 8080).2.2 httpProbe _ rfl⟩

/-- C20 (pod-IP injection): on every revision and configuration for which
`makeQueueContainer` returns a container, the environment of the container has an
entry named `SERVING_POD_IP` that refers to the field `status.podIP` if and only if
the feature flag `InjectPodIP` is `Enabled`; the entries of that kind are then exactly
one, and none otherwise.  The flag is `Enabled` in `defaultFeaturesConfig`, and in the
features parsed from the empty map, so the entry is present under the defaults. -/
theorem C20_pod_ip_injection :
    (∀ (d : Decls) (rev : Revision) (cfg : Config) (c : Container),
      makeQueueContainer d rev cfg = Outcome.ok c →
      ((∃ e, e ∈ c.Env ∧ isPodIP e = true) ↔ cfg.Features.InjectPodIP = Enabled) ∧
      (cfg.Features.InjectPodIP = Enabled →
        c.Env.filter isPodIP = [⟨"SERVING_POD_IP", "", some "status.podIP"⟩]) ∧
      (cfg.Features.InjectPodIP ≠ Enabled → c.Env.filter isPodIP = [])) ∧
    defaultFeaturesConfig.InjectPodIP = Enabled ∧
    NewFeaturesConfigFromMap [] = Except.ok defaultFeaturesConfig ∧
    (∃ c, makeQueueContainer exampleDecls (exampleRevision (userContainer none none (some execProbe)))
        exampleConfig = Outcome.ok c ∧
      c.Env.filter isPodIP = [⟨"SERVING_POD_IP", "", some "status.podIP"⟩]) := by
  refine ⟨?_, rfl, rfl, ⟨_, rfl, by decide⟩⟩
  intro d rev cfg c h
  have key : c.Env.filter isPodIP =
      if cfg.Features.InjectPodIP = Enabled then [⟨"SERVING_POD_IP", "", some "status.podIP"⟩]
      else [] := by
    unfold makeQueueContainer at h
    simp only [] at h
    cases he : d.EncodeProbe (applyReadinessProbeDefaultsForExec d rev.Container.ReadinessProbe
      rev.UserPort) with
    | error err => rw [he] at h; simp at h
    | ok json =>
      rw [he] at h
      cases hr : rev.Container.ReadinessProbe with
      | none => rw [hr] at h; simp at h
      | some p =>
        rw [hr] at h
        simp only [Outcome.ok.injEq] at h
        subst h
        by_cases h1 : cfg.Features.InjectPodIP = Enabled <;>
          by_cases h2 : cfg.Features.AutoDetectHTTP2 = Enabled <;>
          simp [h1, h2, queueEnv, List.filter, isPodIP]
  refine ⟨?_, ?_, ?_⟩
  · constructor
    · rintro ⟨e, he, hp⟩
      by_contra hne
      have : e ∈ c.Env.filter isPodIP := List.mem_filter.mpr ⟨he, hp⟩
      rw [key, if_neg hne] at this
      simp at this
    · intro hen
      have : (⟨"SERVING_POD_IP", "", some "status.podIP"⟩ : EnvVar) ∈ c.Env.filter isPodIP := by
        rw [key, if_pos hen]; simp
      have hm := List.mem_filter.mp this
      exact ⟨_, hm.1, hm.2⟩
  · intro hen; rw [key, if_pos hen]
  · intro hne; rw [key, if_neg hne]

/-- C20, at the revision and the configuration of the examples, with default features. -/
theorem C20_pod_ip_injection_witness :
    ∃ c, makeQueueContainer exampleDecls (exampleRevision (userContainer none none (some execProbe)))
        exampleConfig = Outcome.ok c ∧
      ((∃ e, e ∈ c.Env ∧ isPodIP e = true) ↔ exampleConfig.Features.InjectPodIP = Enabled) :=
  ⟨_, rfl, (C20_pod_ip_injection.1 exampleDecls
    (exampleRevision (userContainer none none (some execProbe))) exampleConfig _ rfl).1⟩

end Serving
